import Mathlib

/-!
Verification of the graphx VF2 subgraph-isomorphism engine.

This file gives a shallow embedding of the repository's directed-graph
data model (`src/graph/node.rs`, `src/graph/digraph.rs`) and of the VF2
matcher (`src/algorithm/isomorphism.rs`), and proves the specification
claims about them.

Modelling conventions:
* Rust `HashMap<String, V>` is modelled as an association list
  `List (String × V)` with unique keys; `insert` overwrites in place,
  `entry(..).or_insert(..)` appends when the key is absent.
* Rust `HashSet<String>` is modelled as a duplicate-free `List String`
  built by insert-if-absent.
* Fallible operations (`Result<_, GraphError>` returns, `unwrap`/panic
  sites) are modelled in the `Except GraphError` monad; a panic is the
  `GraphError.unwrapFailed` error.
* The naming convention of the source is kept (including the source's
  spelling `candidate_paris_iter`).
* Following the spec's own identification (its §4.2 note equates the
  source comparison `core_1.len() == g2.node_count()` with
  `|core_P| == |V(H)|`), the pattern graph P is `g1` and the host
  graph H is `g2` throughout.
-/

/-- Lookup in an association list (Rust `HashMap::get`). -/
def alookup {α : Type} : List (String × α) → String → Option α
  | [], _ => none
  | (k, v) :: rest, key => if k = key then some v else alookup rest key

/-- Key membership in an association list (Rust `HashMap::contains_key`). -/
def acontains {α : Type} (l : List (String × α)) (k : String) : Bool :=
  (alookup l k).isSome

/-- Insert, overwriting in place when present (Rust `HashMap::insert`). -/
def ainsert {α : Type} : List (String × α) → String → α → List (String × α)
  | [], k, v => [(k, v)]
  | (k0, v0) :: rest, k, v =>
    if k0 = k then (k0, v) :: rest else (k0, v0) :: ainsert rest k v

/-- Insert only if absent (Rust `HashMap::entry(..).or_insert(..)`). -/
def aorinsert {α : Type} (l : List (String × α)) (k : String) (v : α) :
    List (String × α) :=
  if acontains l k then l else l ++ [(k, v)]

/-- Remove a key (Rust `HashMap::remove` / `remove_entry`). -/
def aremove {α : Type} (l : List (String × α)) (k : String) :
    List (String × α) :=
  l.filter (fun e => ¬ (e.1 = k))

/-- The key list of an association list, in iteration order. -/
def akeys {α : Type} (l : List (String × α)) : List String :=
  l.map Prod.fst

/-- Insert-if-absent for string sets (Rust `HashSet::insert`). -/
def sinsert (l : List String) (k : String) : List String :=
  if k ∈ l then l else l ++ [k]

/-- Build a `HashSet<String>` from an iterator (`collect::<HashSet<_>>`). -/
def hsetOf (l : List String) : List String :=
  l.foldl sinsert []

/-- Errors of the graph interface. `notFoundNode` is the structural
`GraphError` returned by `predecessors`/`successors`; `unwrapFailed` models
a Rust panic (`unwrap`/`expect` on `None`); `fuelExhausted` is the
out-of-fuel sentinel of the embedded recursion (proved unreachable). -/
inductive GraphError : Type
  | notFoundNode (name : String)
  | unwrapFailed (name : String)
  | fuelExhausted
deriving DecidableEq, Repr

instance {e a : Type} [DecidableEq e] [DecidableEq a] : DecidableEq (Except e a) :=
  fun x y =>
  match x, y with
  | Except.ok u, Except.ok v =>
    if h : u = v then isTrue (by rw [h]) else isFalse (fun hc => h (by injection hc))
  | Except.error u, Except.error v =>
    if h : u = v then isTrue (by rw [h]) else isFalse (fun hc => h (by injection hc))
  | Except.ok _, Except.error _ => isFalse (fun hc => Except.noConfusion hc)
  | Except.error _, Except.ok _ => isFalse (fun hc => Except.noConfusion hc)

/-- A node of a directed graph (`DiNode` in `src/graph/node.rs`):
a stable string name, predecessor and successor key sets, and an
optional string weight. -/
structure DiNode where
  name : String
  predecessors : List String
  successors : List String
  weight : Option String
deriving DecidableEq, Repr

/-- `DiNode::new`. -/
def DiNode.new (name : String) (weight : Option String) : DiNode :=
  { name := name, predecessors := [], successors := [], weight := weight }

/-- `DiNode::get_name`. -/
def DiNode.get_name (n : DiNode) : String := n.name

/-- `DiNode::get_weight`. -/
def DiNode.get_weight (n : DiNode) : Option String := n.weight

/-- `DiNode::add_predecessor` (`HashSet::insert`). -/
def DiNode.add_predecessor (n : DiNode) (name : String) : DiNode :=
  { n with predecessors := sinsert n.predecessors name }

/-- `DiNode::add_successors` (`HashSet::insert`; the source spells the
method with a trailing `s`). -/
def DiNode.add_successors (n : DiNode) (name : String) : DiNode :=
  { n with successors := sinsert n.successors name }

/-- A directed graph (`DiGraph` in `src/graph/digraph.rs`): an optional
name and a map from node key to node record. -/
structure DiGraph where
  name : Option String
  nodes : List (String × DiNode)
deriving DecidableEq, Repr

/-- `DiGraph::new`. -/
def DiGraph.new (name : Option String) : DiGraph :=
  { name := name, nodes := [] }

/-- `DiGraph::add_node`. -/
def DiGraph.add_node (g : DiGraph) (node : DiNode) : DiGraph :=
  { g with nodes := ainsert g.nodes node.get_name node }

/-- `DiGraph::contains_node`. -/
def DiGraph.contains_node (g : DiGraph) (name : String) : Bool :=
  acontains g.nodes name

/-- `DiGraph::get_node`. -/
def DiGraph.get_node (g : DiGraph) (name : String) : Option DiNode :=
  alookup g.nodes name

/-- `DiGraph::get_nodes`: the node keys in container iteration order. -/
def DiGraph.get_nodes (g : DiGraph) : List String :=
  akeys g.nodes

/-- `DiGraph::node_count`. -/
def DiGraph.node_count (g : DiGraph) : Nat :=
  g.nodes.length

/-- `DiGraph::add_edge`: creates absent endpoints, then records the edge
in the successor set of `a` and the predecessor set of `b`. -/
def DiGraph.add_edge (g : DiGraph) (a b : Option String) : DiGraph :=
  let g1 :=
    match a with
    | some name =>
      if g.contains_node name then g
      else { g with nodes := aorinsert g.nodes name (DiNode.new name none) }
    | none => g
  let g2 :=
    match b with
    | some name =>
      if g1.contains_node name then g1
      else { g1 with nodes := aorinsert g1.nodes name (DiNode.new name none) }
    | none => g1
  match a, b with
  | some na, some nb =>
    let g3 :=
      match alookup g2.nodes na with
      | some src => { g2 with nodes := ainsert g2.nodes na (src.add_successors nb) }
      | none => g2
    match alookup g3.nodes nb with
    | some tgt => { g3 with nodes := ainsert g3.nodes nb (tgt.add_predecessor na) }
    | none => g3
  | _, _ => g2

/-- `DiGraph::predecessors`: returns `GraphError` when the queried key is
absent; resolving a listed predecessor name that is itself absent is the
`unwrap` panic of the source. -/
def DiGraph.predecessors (g : DiGraph) (name : String) :
    Except GraphError (List DiNode) := do
  match g.get_node name with
  | none => throw (GraphError.notFoundNode name)
  | some node =>
    node.predecessors.mapM (fun q =>
      match alookup g.nodes q with
      | some nd => pure nd
      | none => throw (GraphError.unwrapFailed q))

/-- `DiGraph::successors`: symmetric to `predecessors`. -/
def DiGraph.successors (g : DiGraph) (name : String) :
    Except GraphError (List DiNode) := do
  match g.get_node name with
  | none => throw (GraphError.notFoundNode name)
  | some node =>
    node.successors.mapM (fun q =>
      match alookup g.nodes q with
      | some nd => pure nd
      | none => throw (GraphError.unwrapFailed q))

/-- `DiGraph::edge_count`: the number of successors of `u` named `v`
(the source panics when `successors` fails, modelled by propagating the
error). -/
def DiGraph.edge_count (g : DiGraph) (u v : String) :
    Except GraphError Nat := do
  let succs ← g.successors u
  pure ((succs.filter (fun s => s.get_name = v)).length)

/-! ## The VF2 matcher (`src/algorithm/isomorphism.rs`) -/

/-- The matcher state (`DiGraphMatcher`): the two graphs, the frozen node
sets and host node ordering, the mode string, the partial mapping
(`core_1`, `core_2`) and the four depth-annotated frontier tables. -/
structure DiGraphMatcher where
  g1 : DiGraph
  g2 : DiGraph
  g1_nodes : List String
  g2_nodes : List String
  g2_node_order : List (String × Nat)
  test : String
  core_1 : List (String × String)
  core_2 : List (String × String)
  in_1 : List (String × Nat)
  in_2 : List (String × Nat)
  out_1 : List (String × Nat)
  out_2 : List (String × Nat)
  mapping : List (String × String)
deriving DecidableEq, Repr

/-- `DiGraphMatcher::new`: mode starts as `graph`; the host node order is
the enumeration of `g2`'s node container, collected into a map. -/
def DiGraphMatcher.new (g1 g2 : DiGraph) : DiGraphMatcher :=
  { g1 := g1
    g2 := g2
    g1_nodes := hsetOf g1.get_nodes
    g2_nodes := hsetOf g2.get_nodes
    g2_node_order :=
      (g2.get_nodes.enum.map (fun p => (p.2, p.1))).foldl
        (fun acc e => ainsert acc e.1 e.2) []
    test := "graph"
    core_1 := []
    core_2 := []
    in_1 := []
    in_2 := []
    out_1 := []
    out_2 := []
    mapping := [] }

/-- The value of Rust `usize::MAX`, the initial minimum in the
candidate generator's argmin scans. -/
def usizeMax : Nat := 18446744073709551615

/-- The initial value of Rust `String::new()`. -/
def emptyName : String := ""

/-- The argmin scan of `candidate_paris_iter`: walk the candidate keys,
looking each up in the host node order (an absent key is the source's
`unwrap` panic), keeping the key with the smallest order. -/
def minOrderScan (orderMap : List (String × Nat)) :
    List String → String × Nat → Except GraphError (String × Nat)
  | [], acc => pure acc
  | k :: rest, acc =>
    match alookup orderMap k with
    | none => throw (GraphError.unwrapFailed k)
    | some order =>
      if order < acc.2 then minOrderScan orderMap rest (k, order)
      else minOrderScan orderMap rest acc

/-- `DiGraphMatcher::candidate_paris_iter` (the source's spelling):
out-terminal pairs if both out-terminal sets are non-empty, else
in-terminal pairs if both in-terminal sets are non-empty, else all
unmapped pattern nodes against the minimum unmapped host node. -/
def DiGraphMatcher.candidate_paris_iter (m : DiGraphMatcher) :
    Except GraphError (List (String × String)) := do
  let tout_1 := (akeys m.out_1).filter (fun name => ¬ acontains m.core_1 name)
  let tout_2 := (akeys m.out_2).filter (fun name => ¬ acontains m.core_2 name)
  if 0 < tout_1.length ∧ 0 < tout_2.length then do
    let best ← minOrderScan m.g2_node_order tout_2 (emptyName, usizeMax)
    pure (tout_1.map (fun name1 => (name1, best.1)))
  else do
    let tin_1 := (akeys m.in_1).filter (fun name => ¬ acontains m.core_1 name)
    let tin_2 := (akeys m.in_2).filter (fun name => ¬ acontains m.core_2 name)
    if 0 < tin_1.length ∧ 0 < tin_2.length then do
      let best ← minOrderScan m.g2_node_order tin_2 (emptyName, usizeMax)
      pure (tin_1.map (fun name1 => (name1, best.1)))
    else do
      let m2 := akeys m.core_2
      let diff_set := m.g2_nodes.filter (fun name => ¬ name ∈ m2)
      let best ← minOrderScan m.g2_node_order diff_set (emptyName, usizeMax)
      pure ((m.g1_nodes.filter (fun name1 => ¬ acontains m.core_1 name1)).map
        (fun name1 => (name1, best.1)))

/-- `DiGraphMatcher::semantic_feasibility`: the default attribute-equality
predicate over the optional node weights. -/
def DiGraphMatcher.semantic_feasibility (m : DiGraphMatcher)
    (g1_node_name g2_node_name : String) : Bool :=
  match m.g1.get_node g1_node_name, m.g2.get_node g2_node_name with
  | some node1, some node2 =>
    match node1.get_weight, node2.get_weight with
    | some value1, some value2 => value1 == value2
    | some _, none => false
    | none, some _ => false
    | none, none => true
  | some _, none => false
  | none, some _ => false
  | none, none => true

/-- The comparison the look-ahead predicates repeat: `==` in `graph` mode,
`>=` (pattern side at least host side) otherwise. -/
def modeCmp (test : String) (num1 num2 : Nat) : Bool :=
  if test = "graph" then num1 == num2 else num2 ≤ num1

/-- `DiGraphMatcher::r_self`: the self-loop multiplicities of the two
proposed nodes must be equal (in every mode). -/
def DiGraphMatcher.r_self (m : DiGraphMatcher) (g1_node g2_node : DiNode) :
    Except GraphError Bool := do
  let c1 ← m.g1.edge_count g1_node.get_name g1_node.get_name
  let c2 ← m.g2.edge_count g2_node.get_name g2_node.get_name
  if c1 = c2 then pure true else pure false

/-- First loop of `r_pred`: every already-mapped predecessor of the
pattern node must map to a predecessor of the host node, with equal edge
multiplicity. -/
def r_pred_loop1 (m : DiGraphMatcher) (g1_node g2_node : DiNode) :
    List DiNode → Except GraphError Bool
  | [] => pure true
  | predecessor :: rest =>
    match alookup m.core_1 predecessor.get_name with
    | some mapped => do
      match m.g2.predecessors g2_node.get_name with
      | Except.error e => throw e
      | Except.ok predecessors2 =>
        if predecessors2.all (fun x => ¬ (x.get_name = mapped)) then pure false
        else do
          let c1 ← m.g1.edge_count predecessor.get_name g1_node.get_name
          let c2 ← m.g2.edge_count mapped g2_node.get_name
          if ¬ (c1 = c2) then pure false
          else r_pred_loop1 m g1_node g2_node rest
    | none => r_pred_loop1 m g1_node g2_node rest

/-- Second loop of `r_pred`: every already-mapped predecessor of the host
node must be the image of a predecessor of the pattern node, with equal
edge multiplicity. -/
def r_pred_loop2 (m : DiGraphMatcher) (g1_node g2_node : DiNode) :
    List DiNode → Except GraphError Bool
  | [] => pure true
  | predecessor2 :: rest =>
    match alookup m.core_2 predecessor2.get_name with
    | some mapped => do
      match m.g1.predecessors g1_node.get_name with
      | Except.error e => throw e
      | Except.ok predecessors1 =>
        if predecessors1.all (fun x => ¬ (x.get_name = mapped)) then pure false
        else do
          let c2 ← m.g2.edge_count predecessor2.get_name g2_node.get_name
          let c1 ← m.g1.edge_count mapped g1_node.get_name
          if ¬ (c2 = c1) then pure false
          else r_pred_loop2 m g1_node g2_node rest
    | none => r_pred_loop2 m g1_node g2_node rest

/-- `DiGraphMatcher::r_pred`. -/
def DiGraphMatcher.r_pred (m : DiGraphMatcher) (g1_node g2_node : DiNode) :
    Except GraphError Bool := do
  let predecessors1 ← m.g1.predecessors g1_node.get_name
  let b1 ← r_pred_loop1 m g1_node g2_node predecessors1
  if b1 then do
    let predecessors2 ← m.g2.predecessors g2_node.get_name
    let b2 ← r_pred_loop2 m g1_node g2_node predecessors2
    if b2 then pure true else pure false
  else pure false

/-- First loop of `r_succ`, over the successors of the pattern node. -/
def r_succ_loop1 (m : DiGraphMatcher) (g1_node g2_node : DiNode) :
    List DiNode → Except GraphError Bool
  | [] => pure true
  | successor1 :: rest =>
    match alookup m.core_1 successor1.get_name with
    | some mapped => do
      match m.g2.successors g2_node.get_name with
      | Except.error e => throw e
      | Except.ok successor_vec_2 =>
        if successor_vec_2.all (fun x => ¬ (x.get_name = mapped)) then pure false
        else do
          let c1 ← m.g1.edge_count g1_node.get_name successor1.get_name
          let c2 ← m.g2.edge_count g2_node.get_name mapped
          if ¬ (c1 = c2) then pure false
          else r_succ_loop1 m g1_node g2_node rest
    | none => r_succ_loop1 m g1_node g2_node rest

/-- Second loop of `r_succ`, over the successors of the host node. -/
def r_succ_loop2 (m : DiGraphMatcher) (g1_node g2_node : DiNode) :
    List DiNode → Except GraphError Bool
  | [] => pure true
  | successor :: rest =>
    match alookup m.core_2 successor.get_name with
    | some mapped => do
      match m.g1.successors g1_node.get_name with
      | Except.error e => throw e
      | Except.ok successor_vec_1 =>
        if successor_vec_1.all (fun x => ¬ (x.get_name = mapped)) then pure false
        else do
          let c2 ← m.g2.edge_count g2_node.get_name successor.get_name
          let c1 ← m.g1.edge_count g1_node.get_name mapped
          if ¬ (c2 = c1) then pure false
          else r_succ_loop2 m g1_node g2_node rest
    | none => r_succ_loop2 m g1_node g2_node rest

/-- `DiGraphMatcher::r_succ`. -/
def DiGraphMatcher.r_succ (m : DiGraphMatcher) (g1_node g2_node : DiNode) :
    Except GraphError Bool := do
  let successor_vec_1 ← m.g1.successors g1_node.get_name
  let b1 ← r_succ_loop1 m g1_node g2_node successor_vec_1
  if b1 then do
    let successor_vec_2 ← m.g2.successors g2_node.get_name
    let b2 ← r_succ_loop2 m g1_node g2_node successor_vec_2
    if b2 then pure true else pure false
  else pure false

/-- `DiGraphMatcher::r_in`: one-step inward look-ahead, counting
neighbours in `Tin = in − core` on both sides. -/
def DiGraphMatcher.r_in (m : DiGraphMatcher) (g1_node g2_node : DiNode) :
    Except GraphError Bool := do
  let pred1 ← m.g1.predecessors g1_node.get_name
  let num1 := (pred1.filter (fun p =>
    acontains m.in_1 p.get_name && ¬ acontains m.core_1 p.get_name)).length
  let pred2 ← m.g2.predecessors g2_node.get_name
  let num2 := (pred2.filter (fun p =>
    acontains m.in_2 p.get_name && ¬ acontains m.core_2 p.get_name)).length
  if modeCmp m.test num1 num2 then do
    let succ1 ← m.g1.successors g1_node.get_name
    let num1 := (succ1.filter (fun s =>
      acontains m.in_1 s.get_name && ¬ acontains m.core_1 s.get_name)).length
    let succ2 ← m.g2.successors g2_node.get_name
    let num2 := (succ2.filter (fun s =>
      acontains m.in_2 s.get_name && ¬ acontains m.core_2 s.get_name)).length
    if modeCmp m.test num1 num2 then pure true else pure false
  else pure false

/-- `DiGraphMatcher::r_out`: one-step outward look-ahead, counting
neighbours in `Tout = out − core` on both sides. -/
def DiGraphMatcher.r_out (m : DiGraphMatcher) (g1_node g2_node : DiNode) :
    Except GraphError Bool := do
  let pred1 ← m.g1.predecessors g1_node.get_name
  let num1 := (pred1.filter (fun p =>
    acontains m.out_1 p.get_name && ¬ acontains m.core_1 p.get_name)).length
  let pred2 ← m.g2.predecessors g2_node.get_name
  let num2 := (pred2.filter (fun p =>
    acontains m.out_2 p.get_name && ¬ acontains m.core_2 p.get_name)).length
  if modeCmp m.test num1 num2 then do
    let succ1 ← m.g1.successors g1_node.get_name
    let num1 := (succ1.filter (fun s =>
      acontains m.out_1 s.get_name && ¬ acontains m.core_1 s.get_name)).length
    let succ2 ← m.g2.successors g2_node.get_name
    let num2 := (succ2.filter (fun s =>
      acontains m.out_2 s.get_name && ¬ acontains m.core_2 s.get_name)).length
    if modeCmp m.test num1 num2 then pure true else pure false
  else pure false

/-- `DiGraphMatcher::r_new`: two-step look-ahead, counting neighbours
outside both frontier tables on both sides. -/
def DiGraphMatcher.r_new (m : DiGraphMatcher) (g1_node g2_node : DiNode) :
    Except GraphError Bool := do
  let pred1 ← m.g1.predecessors g1_node.get_name
  let num1 := (pred1.filter (fun p =>
    ¬ acontains m.in_1 p.get_name && ¬ acontains m.out_1 p.get_name)).length
  let pred2 ← m.g2.predecessors g2_node.get_name
  let num2 := (pred2.filter (fun p =>
    ¬ acontains m.in_2 p.get_name && ¬ acontains m.out_2 p.get_name)).length
  if modeCmp m.test num1 num2 then do
    let succ1 ← m.g1.successors g1_node.get_name
    let num1 := (succ1.filter (fun s =>
      ¬ acontains m.in_1 s.get_name && ¬ acontains m.out_1 s.get_name)).length
    let succ2 ← m.g2.successors g2_node.get_name
    let num2 := (succ2.filter (fun s =>
      ¬ acontains m.in_2 s.get_name && ¬ acontains m.out_2 s.get_name)).length
    if modeCmp m.test num1 num2 then pure true else pure false
  else pure false

/-- `DiGraphMatcher::syntactic_feasibility`: resolve the two node handles
(an absent key is the source's `unwrap` panic) and evaluate the six
predicates in order with short-circuiting. -/
def DiGraphMatcher.syntactic_feasibility (m : DiGraphMatcher)
    (g1_node_name g2_node_name : String) : Except GraphError Bool := do
  match m.g1.get_node g1_node_name with
  | none => throw (GraphError.unwrapFailed g1_node_name)
  | some g1_node =>
  match m.g2.get_node g2_node_name with
  | none => throw (GraphError.unwrapFailed g2_node_name)
  | some g2_node => do
    let b ← m.r_self g1_node g2_node
    if b then do
      let b ← m.r_pred g1_node g2_node
      if b then do
        let b ← m.r_succ g1_node g2_node
        if b then do
          let b ← m.r_in g1_node g2_node
          if b then do
            let b ← m.r_out g1_node g2_node
            if b then do
              let b ← m.r_new g1_node g2_node
              if b then pure true else pure false
            else pure false
          else pure false
        else pure false
      else pure false
    else pure false

/-- The per-level undo record (`DiGMState`). -/
structure DiGMState where
  g1_node : Option String
  g2_node : Option String
  depth : Nat
deriving DecidableEq, Repr

/-- One frontier-update pass of `DiGMState::create`: collect (deduplicated,
as the source's `HashSet`) the names adjacent to mapped keys that are not
themselves mapped. -/
def collectAdjacentNew (adj : String → Except GraphError (List DiNode))
    (core : List (String × String)) : Except GraphError (List String) :=
  (akeys core).foldlM (fun acc name => do
    let nodes ← adj name
    pure (nodes.foldl (fun acc2 node =>
      if acontains core node.get_name then acc2
      else sinsert acc2 node.get_name) acc)) []

/-- `DiGMState::create`: with both nodes absent this clears the six
tables; with both present it inserts the pair into the cores at the
pre-insertion depth and refreshes the four frontier tables, never
overwriting an existing depth entry. -/
def DiGMState.create (matcher : DiGraphMatcher)
    (g1_node g2_node : Option String) :
    Except GraphError (DiGraphMatcher × DiGMState) := do
  let matcher :=
    if g1_node.isNone ∨ g2_node.isNone then
      { matcher with core_1 := [], core_2 := [],
                     in_1 := [], in_2 := [], out_1 := [], out_2 := [] }
    else matcher
  let depth := matcher.core_1.length
  match g1_node, g2_node with
  | some g1_name, some g2_name => do
    let matcher := { matcher with
      core_1 := ainsert matcher.core_1 g1_name g2_name
      core_2 := ainsert matcher.core_2 g2_name g1_name }
    let matcher := { matcher with
      in_1 := aorinsert matcher.in_1 g1_name depth
      out_1 := aorinsert matcher.out_1 g1_name depth
      in_2 := aorinsert matcher.in_2 g2_name depth
      out_2 := aorinsert matcher.out_2 g2_name depth }
    let new_in_1 ← collectAdjacentNew matcher.g1.predecessors matcher.core_1
    let matcher := { matcher with
      in_1 := new_in_1.foldl (fun t name => aorinsert t name depth) matcher.in_1 }
    let new_in_2 ← collectAdjacentNew matcher.g2.predecessors matcher.core_2
    let matcher := { matcher with
      in_2 := new_in_2.foldl (fun t name => aorinsert t name depth) matcher.in_2 }
    let new_out_1 ← collectAdjacentNew matcher.g1.successors matcher.core_1
    let matcher := { matcher with
      out_1 := new_out_1.foldl (fun t name => aorinsert t name depth) matcher.out_1 }
    let new_out_2 ← collectAdjacentNew matcher.g2.successors matcher.core_2
    let matcher := { matcher with
      out_2 := new_out_2.foldl (fun t name => aorinsert t name depth) matcher.out_2 }
    pure (matcher, { g1_node := some g1_name, g2_node := some g2_name, depth := depth })
  | _, _ => pure (matcher, { g1_node := none, g2_node := none, depth := depth })

/-- The depth-based rollback of one frontier table in
`DiGMState::restore`: collect the keys stored at the given depth, then
remove each. -/
def restoreTable (t : List (String × Nat)) (depth : Nat) : List (String × Nat) :=
  ((t.filter (fun e => e.2 = depth)).map Prod.fst).foldl
    (fun acc k => aremove acc k) t

/-- `DiGMState::restore`: remove the recorded pair from the cores and
delete every frontier entry introduced at the recorded depth. -/
def DiGMState.restore (st : DiGMState) (matcher : DiGraphMatcher) :
    DiGraphMatcher :=
  let matcher :=
    match st.g1_node, st.g2_node with
    | some n1, some n2 =>
      { matcher with core_1 := aremove matcher.core_1 n1
                     core_2 := aremove matcher.core_2 n2 }
    | _, _ => matcher
  { matcher with
    in_1 := restoreTable matcher.in_1 st.depth
    in_2 := restoreTable matcher.in_2 st.depth
    out_1 := restoreTable matcher.out_1 st.depth
    out_2 := restoreTable matcher.out_2 st.depth }

/-- An emitted mapping: a list of (pattern key, host key) pairs. -/
abbrev GMapping := List (String × String)

/-- The candidate loop of `try_match` (the `for` body): for each pair
that passes the semantic and syntactic tests, extend the state, run the
continuation `tm` (the next recursion level), and restore. -/
def DiGraphMatcher.try_pairs_go
    (tm : DiGraphMatcher → List GMapping →
      Except GraphError (DiGraphMatcher × List GMapping)) :
    List (String × String) → DiGraphMatcher → List GMapping →
      Except GraphError (DiGraphMatcher × List GMapping)
  | [], m, sink => Except.ok (m, sink)
  | (g1n, g2n) :: rest, m, sink =>
    if m.semantic_feasibility g1n g2n then
      match m.syntactic_feasibility g1n g2n with
      | Except.error e => throw e
      | Except.ok true =>
        match DiGMState.create m (some g1n) (some g2n) with
        | Except.error e => throw e
        | Except.ok (m1, newstate) =>
          match tm m1 sink with
          | Except.error e => throw e
          | Except.ok (m2, sink2) =>
            DiGraphMatcher.try_pairs_go tm rest (newstate.restore m2) sink2
      | Except.ok false => DiGraphMatcher.try_pairs_go tm rest m sink
    else DiGraphMatcher.try_pairs_go tm rest m sink

/-- `DiGraphMatcher::try_match`, with an explicit fuel argument in place
of the source's unbounded recursion (the entry point passes enough fuel,
and the `fuelExhausted` branch is proved unreachable): when the mapping
covers the host, snapshot `core_1` into the sink; otherwise generate the
candidate pairs and walk them. -/
def DiGraphMatcher.try_match_aux :
    Nat → DiGraphMatcher → List GMapping →
    Except GraphError (DiGraphMatcher × List GMapping)
  | 0, _, _ => throw GraphError.fuelExhausted
  | fuel + 1, m, sink =>
    if m.core_1.length = m.g2.node_count then
      pure (m, sink ++ [m.core_1])
    else
      match m.candidate_paris_iter with
      | Except.error e => throw e
      | Except.ok pairs =>
        DiGraphMatcher.try_pairs_go (DiGraphMatcher.try_match_aux fuel)
          pairs m sink

/-- `DiGraphMatcher::subgraph_isomorphisms_iter`: switch to `subgraph`
mode, clear the state with `DiGMState::create(None, None)`, and run the
search, appending complete mappings to the sink. -/
def DiGraphMatcher.subgraph_isomorphisms_iter (m : DiGraphMatcher)
    (sink : List GMapping) :
    Except GraphError (DiGraphMatcher × List GMapping) := do
  let m := { m with test := "subgraph" }
  let (m, _state) ← DiGMState.create m none none
  DiGraphMatcher.try_match_aux (m.g2.node_count + 1) m sink

/-- Construct a matcher for the two graphs and run the subgraph
enumeration with an empty sink. -/
def subgraphIsomorphisms (g1 g2 : DiGraph) :
    Except GraphError (DiGraphMatcher × List GMapping) :=
  (DiGraphMatcher.new g1 g2).subgraph_isomorphisms_iter []

/-- The emitted mapping list of a run, `none` when the run fails. -/
def subgraphIsoOut (g1 g2 : DiGraph) : Option (List GMapping) :=
  match subgraphIsomorphisms g1 g2 with
  | Except.ok (_, out) => some out
  | Except.error _ => none

/-! ## Derived pure accessors and well-formedness -/

/-- The node record stored under a key, with an empty default for an
absent key (used only to phrase decidable predicates; under
well-formedness the default is never hit). -/
def DiGraph.nodeRec (g : DiGraph) (q : String) : DiNode :=
  (alookup g.nodes q).getD (DiNode.new q none)

/-- The stored predecessor names of a key (empty when absent). -/
def DiGraph.predNames (g : DiGraph) (k : String) : List String :=
  (g.nodeRec k).predecessors

/-- The stored successor names of a key (empty when absent). -/
def DiGraph.succNames (g : DiGraph) (k : String) : List String :=
  (g.nodeRec k).successors

/-- The pure value of `edge_count`: occurrences of `v` among the stored
successor names of `u`. -/
def ecount (g : DiGraph) (u v : String) : Nat :=
  ((g.succNames u).filter (fun s => s = v)).length

/-- Adjacency-closedness: every key appearing in a predecessor or
successor set is itself a node key (the hypothesis of the spec's error
policy). -/
def DiGraph.Closed (g : DiGraph) : Prop :=
  ∀ e ∈ g.nodes,
    (∀ q ∈ e.2.predecessors, q ∈ akeys g.nodes) ∧
    (∀ q ∈ e.2.successors, q ∈ akeys g.nodes)

/-- Full well-formedness of a graph value: unique node keys, each record
named after its key with duplicate-free adjacency sets (the `HashSet`
representation invariant), adjacency-closedness, and mutual consistency
of the predecessor and successor sets. -/
def DiGraph.WellFormed (g : DiGraph) : Prop :=
  (akeys g.nodes).Nodup ∧
  (∀ e ∈ g.nodes,
    e.2.name = e.1 ∧ e.2.predecessors.Nodup ∧ e.2.successors.Nodup) ∧
  g.Closed ∧
  (∀ e ∈ g.nodes, ∀ q ∈ e.2.predecessors, e.1 ∈ (g.nodeRec q).successors) ∧
  (∀ e ∈ g.nodes, ∀ q ∈ e.2.successors, e.1 ∈ (g.nodeRec q).predecessors)

/-- Names match keys: the property every graph reachable through the
builder interface has. -/
def NameMatch (g : DiGraph) : Prop :=
  ∀ e ∈ g.nodes, e.2.name = e.1

/-- Every stored adjacency list is duplicate-free (the `HashSet`
representation invariant, maintained by the builder interface). -/
def AdjSetLike (g : DiGraph) : Prop :=
  ∀ e ∈ g.nodes, e.2.predecessors.Nodup ∧ e.2.successors.Nodup

/-- A node whose adjacency lists respect the `HashSet` representation
(duplicate-free), as every node built through the `DiNode` interface
does. -/
def DiNode.SetLike (nd : DiNode) : Prop :=
  nd.predecessors.Nodup ∧ nd.successors.Nodup

/-- One call of the graph-building interface. -/
inductive BuildOp : Type
  | addNode (nd : DiNode)
  | addEdge (a b : Option String)

/-- The graph built by a sequence of `add_node`/`add_edge` calls starting
from `DiGraph::new(None)`. -/
def buildGraph (ops : List BuildOp) : DiGraph :=
  ops.foldl (fun g op =>
    match op with
    | BuildOp.addNode nd => g.add_node nd
    | BuildOp.addEdge a b => g.add_edge a b) (DiGraph.new none)

/-- A build operation whose argument respects the `HashSet`
representation. -/
def BuildOp.SetLike : BuildOp → Prop
  | BuildOp.addNode nd => nd.SetLike
  | BuildOp.addEdge _ _ => True

/-- All nodes passed to `add_node` in the sequence respect the `HashSet`
representation. -/
def SetLikeOps (ops : List BuildOp) : Prop :=
  ∀ op ∈ ops, op.SetLike

instance (nd : DiNode) : Decidable nd.SetLike := by
  unfold DiNode.SetLike
  infer_instance

instance (op : BuildOp) : Decidable op.SetLike := by
  cases op with
  | addNode nd => simpa [BuildOp.SetLike] using (inferInstance : Decidable nd.SetLike)
  | addEdge a b => simpa [BuildOp.SetLike] using (inferInstance : Decidable True)

instance (ops : List BuildOp) : Decidable (SetLikeOps ops) := by
  unfold SetLikeOps
  infer_instance

instance (g : DiGraph) : Decidable g.Closed := by
  unfold DiGraph.Closed
  infer_instance

instance (g : DiGraph) : Decidable g.WellFormed := by
  unfold DiGraph.WellFormed
  infer_instance


/-! ## Search states, invariants, and solution predicates -/

/-- The matcher state at the start of every `subgraph_isomorphisms_iter`
call: the constructed matcher in `subgraph` mode (the entry prologue
clears the six tables, which are already empty at construction). -/
def matcherStart (g1 g2 : DiGraph) : DiGraphMatcher :=
  { DiGraphMatcher.new g1 g2 with test := "subgraph" }

/-- The state of a matcher right after the entry prologue of
`subgraph_isomorphisms_iter`: mode set to `subgraph` and all six tables
cleared by `DiGMState::create(None, None)`. -/
def clearedOf (m : DiGraphMatcher) : DiGraphMatcher :=
  { m with test := "subgraph", core_1 := [], core_2 := [], in_1 := [], in_2 := [], out_1 := [], out_2 := [] }

/-- `k` successive calls of `subgraph_isomorphisms_iter` on the same
matcher, threading matcher and sink. -/
def iterCalls : Nat → DiGraphMatcher → List GMapping →
    Except GraphError (DiGraphMatcher × List GMapping)
  | 0, m, sink => Except.ok (m, sink)
  | k + 1, m, sink => do
    let r ← m.subgraph_isomorphisms_iter sink
    iterCalls k r.1 r.2

/-- The pattern-side out-terminal set `Tout_1 = keys(out_1) − keys(core_1)`
in iteration order, as computed by the candidate generator. -/
def DiGraphMatcher.tout1 (m : DiGraphMatcher) : List String :=
  (akeys m.out_1).filter (fun name => ¬ acontains m.core_1 name)

/-- The host-side out-terminal set `Tout_2`. -/
def DiGraphMatcher.tout2 (m : DiGraphMatcher) : List String :=
  (akeys m.out_2).filter (fun name => ¬ acontains m.core_2 name)

/-- The pattern-side in-terminal set `Tin_1`. -/
def DiGraphMatcher.tin1 (m : DiGraphMatcher) : List String :=
  (akeys m.in_1).filter (fun name => ¬ acontains m.core_1 name)

/-- The host-side in-terminal set `Tin_2`. -/
def DiGraphMatcher.tin2 (m : DiGraphMatcher) : List String :=
  (akeys m.in_2).filter (fun name => ¬ acontains m.core_2 name)

/-- The states the search reaches: the entry state of an enumeration, and
every state obtained from a reachable state by extending with a candidate
pair that passed the semantic and syntactic feasibility tests (by the
restore discipline, these are exactly the states the recursion visits). -/
inductive Reach (g1 g2 : DiGraph) : DiGraphMatcher → Prop
  | init : Reach g1 g2 (matcherStart g1 g2)
  | step {m : DiGraphMatcher} {pairs : List (String × String)}
      {p h : String} {m' : DiGraphMatcher} {st : DiGMState} :
      Reach g1 g2 m →
      m.core_1.length ≠ m.g2.node_count →
      m.candidate_paris_iter = Except.ok pairs →
      (p, h) ∈ pairs →
      m.semantic_feasibility p h = true →
      m.syntactic_feasibility p h = Except.ok true →
      DiGMState.create m (some p) (some h) = Except.ok (m', st) →
      Reach g1 g2 m'

/-- The structural invariant of reachable matcher states: the static
fields are those of construction, the two cores are duplicate-free mutual
inverses over the two node sets, the four frontier tables hold exactly
the mapped nodes and their adjacent nodes with depths strictly below the
current mapping size, and all table keys are duplicate-free. -/
structure MatcherInv (g1 g2 : DiGraph) (m : DiGraphMatcher) : Prop where
  hg1 : m.g1 = g1
  hg2 : m.g2 = g2
  htest : m.test = "subgraph"
  hg1n : m.g1_nodes = (DiGraphMatcher.new g1 g2).g1_nodes
  hg2n : m.g2_nodes = (DiGraphMatcher.new g1 g2).g2_nodes
  hord : m.g2_node_order = (DiGraphMatcher.new g1 g2).g2_node_order
  hnd1 : (akeys m.core_1).Nodup
  hnd2 : (akeys m.core_2).Nodup
  hinv12 : ∀ e ∈ m.core_1, alookup m.core_2 e.2 = some e.1
  hinv21 : ∀ e ∈ m.core_2, alookup m.core_1 e.2 = some e.1
  hsub1 : ∀ e ∈ m.core_1, e.1 ∈ akeys g1.nodes
  hsub2 : ∀ e ∈ m.core_2, e.1 ∈ akeys g2.nodes
  hlen : m.core_1.length = m.core_2.length
  hin1 : ∀ k, k ∈ akeys m.in_1 ↔
    (k ∈ akeys m.core_1 ∨ ∃ c ∈ akeys m.core_1, k ∈ g1.predNames c)
  hout1 : ∀ k, k ∈ akeys m.out_1 ↔
    (k ∈ akeys m.core_1 ∨ ∃ c ∈ akeys m.core_1, k ∈ g1.succNames c)
  hin2 : ∀ k, k ∈ akeys m.in_2 ↔
    (k ∈ akeys m.core_2 ∨ ∃ c ∈ akeys m.core_2, k ∈ g2.predNames c)
  hout2 : ∀ k, k ∈ akeys m.out_2 ↔
    (k ∈ akeys m.core_2 ∨ ∃ c ∈ akeys m.core_2, k ∈ g2.succNames c)
  hdin1 : ∀ e ∈ m.in_1, e.2 < m.core_1.length
  hdout1 : ∀ e ∈ m.out_1, e.2 < m.core_1.length
  hdin2 : ∀ e ∈ m.in_2, e.2 < m.core_1.length
  hdout2 : ∀ e ∈ m.out_2, e.2 < m.core_1.length
  hndin1 : (akeys m.in_1).Nodup
  hndout1 : (akeys m.out_1).Nodup
  hndin2 : (akeys m.in_2).Nodup
  hndout2 : (akeys m.out_2).Nodup

/-- The soundness invariant carried by the search: every pair of mapped
pairs agrees on edge multiplicities in both directions, and every mapped
pair has equal weights. -/
def CoreCompat (g1 g2 : DiGraph) (m : DiGraphMatcher) : Prop :=
  (∀ e ∈ m.core_1, ∀ e' ∈ m.core_1, ecount g1 e.1 e'.1 = ecount g2 e.2 e'.2) ∧
  (∀ e ∈ m.core_1, (g1.nodeRec e.1).weight = (g2.nodeRec e.2).weight)

/-- Set equality of two emitted mappings (mutual containment of their
pair lists). -/
def pairsSetEq (l1 l2 : GMapping) : Prop :=
  (∀ x ∈ l1, x ∈ l2) ∧ (∀ x ∈ l2, x ∈ l1)

/-- What the enumeration actually produces (the amended reading of the
spec's §1 sentence): an injective partial mapping, defined on a subset of
V(P) and onto all of V(H), that is an isomorphism between the induced
substructure of P on its domain and H — edge multiplicities (self-loops
included) agree exactly in both directions — and that respects the
default attribute-equality predicate. -/
def IsIsoMapping (g1 g2 : DiGraph) (mp : GMapping) : Prop :=
  (akeys mp).Nodup ∧
  (mp.map Prod.snd).Nodup ∧
  (∀ e ∈ mp, e.1 ∈ akeys g1.nodes ∧ e.2 ∈ akeys g2.nodes) ∧
  (∀ b ∈ akeys g2.nodes, ∃ e ∈ mp, e.2 = b) ∧
  (∀ e ∈ mp, (g1.nodeRec e.1).weight = (g2.nodeRec e.2).weight) ∧
  (∀ e ∈ mp, ∀ e' ∈ mp, ecount g1 e.1 e'.1 = ecount g2 e.2 e'.2)

/-- The spec's §1 sentence as written (the claim under test): a total
injective mapping `m : V(P) → V(H)` under which the image of P is a
subgraph of H — every pattern edge (self-loops included) is present in
the host with at least its multiplicity — respecting the default
attribute-equality predicate. -/
def IsClaimMapping (g1 g2 : DiGraph) (mp : GMapping) : Prop :=
  (akeys mp).Nodup ∧
  (mp.map Prod.snd).Nodup ∧
  (∀ u ∈ akeys g1.nodes, ∃ e ∈ mp, e.1 = u) ∧
  (∀ e ∈ mp, e.1 ∈ akeys g1.nodes ∧ e.2 ∈ akeys g2.nodes) ∧
  (∀ e ∈ mp, (g1.nodeRec e.1).weight = (g2.nodeRec e.2).weight) ∧
  (∀ e ∈ mp, ∀ e' ∈ mp, ecount g1 e.1 e'.1 ≤ ecount g2 e.2 e'.2)

instance (l1 l2 : GMapping) : Decidable (pairsSetEq l1 l2) := by
  unfold pairsSetEq
  infer_instance

instance (g1 g2 : DiGraph) (mp : GMapping) : Decidable (IsIsoMapping g1 g2 mp) := by
  unfold IsIsoMapping
  infer_instance

instance (g1 g2 : DiGraph) (mp : GMapping) : Decidable (IsClaimMapping g1 g2 mp) := by
  unfold IsClaimMapping
  infer_instance

/-! ## Concrete graphs for witnesses and counterexamples -/

/-- Build a graph from node names with weights and an edge list. -/
def mkGraphW (ns : List (String × Option String))
    (es : List (String × String)) : DiGraph :=
  es.foldl (fun g e => g.add_edge (some e.1) (some e.2))
    (ns.foldl (fun g p => g.add_node (DiNode.new p.1 p.2)) (DiGraph.new none))

/-- Key names used by the concrete examples. -/
def kx : String := "x"

def ky : String := "y"

def kz : String := "z"

def ka : String := "a"

def kb : String := "b"

/-- A concrete build sequence used by witnesses. -/
def demoOps : List BuildOp :=
  [BuildOp.addNode (DiNode.new kx none), BuildOp.addEdge (some kx) (some ky)]

/-- A single unweighted pattern node. -/
def exPat1 : DiGraph := mkGraphW [(kx, none)] []

/-- Two isolated unweighted pattern nodes. -/
def exPat2 : DiGraph := mkGraphW [(kx, none), (ky, none)] []

/-- A single unweighted host node. -/
def exHost1 : DiGraph := mkGraphW [(ka, none)] []

/-- A two-node host with the single edge a → b. -/
def exHostEdge : DiGraph := mkGraphW [(ka, none), (kb, none)] [(ka, kb)]

/-- A two-node pattern with the single edge x → y. -/
def exPatEdge : DiGraph := mkGraphW [(kx, none), (ky, none)] [(kx, ky)]

/-! ## Association-list lemmas -/

@[simp] theorem akeys_nil {α : Type} : akeys ([] : List (String × α)) = [] := rfl

@[simp] theorem akeys_cons {α : Type} (e : String × α) (l : List (String × α)) :
    akeys (e :: l) = e.1 :: akeys l := rfl

theorem akeys_append {α : Type} (l1 l2 : List (String × α)) :
    akeys (l1 ++ l2) = akeys l1 ++ akeys l2 := by
  simp [akeys]

theorem alookup_isSome_iff {α : Type} (l : List (String × α)) (k : String) :
    (alookup l k).isSome = true ↔ k ∈ akeys l := by
  induction l with
  | nil => simp [alookup]
  | cons e rest ih =>
    obtain ⟨k0, v0⟩ := e
    by_cases h : k0 = k <;> simp [alookup, h, ih]
    exact fun a => (h a.symm).elim

theorem acontains_iff {α : Type} (l : List (String × α)) (k : String) :
    acontains l k = true ↔ k ∈ akeys l := by
  simpa [acontains] using alookup_isSome_iff l k

theorem acontains_eq_false {α : Type} (l : List (String × α)) (k : String)
    (h : k ∉ akeys l) : acontains l k = false := by
  cases hc : acontains l k
  · rfl
  · exact absurd ((acontains_iff l k).1 hc) h

theorem alookup_eq_none {α : Type} (l : List (String × α)) (k : String)
    (h : k ∉ akeys l) : alookup l k = none := by
  cases hl : alookup l k with
  | none => rfl
  | some v => exact absurd ((alookup_isSome_iff l k).1 (by simp [hl])) h

theorem alookup_isSome_of_mem {α : Type} {l : List (String × α)} {k : String}
    (h : k ∈ akeys l) : (alookup l k).isSome = true :=
  (alookup_isSome_iff l k).2 h

theorem mem_of_alookup_eq_some {α : Type} {l : List (String × α)} {k : String}
    {v : α} (h : alookup l k = some v) : (k, v) ∈ l := by
  induction l with
  | nil => simp [alookup] at h
  | cons e rest ih =>
    obtain ⟨k0, v0⟩ := e
    by_cases hk : k0 = k
    · subst hk
      simp [alookup] at h
      simp [h]
    · simp [alookup, hk] at h
      simp [ih h]

theorem mem_akeys_of_alookup {α : Type} {l : List (String × α)} {k : String}
    {v : α} (h : alookup l k = some v) : k ∈ akeys l :=
  (alookup_isSome_iff l k).1 (by simp [h])

theorem alookup_eq_some_of_mem {α : Type} {l : List (String × α)} {k : String}
    {v : α} (hnd : (akeys l).Nodup) (h : (k, v) ∈ l) : alookup l k = some v := by
  induction l with
  | nil => simp at h
  | cons e rest ih =>
    obtain ⟨k0, v0⟩ := e
    rw [akeys_cons] at hnd
    have hnd1 := List.nodup_cons.1 hnd
    rcases List.mem_cons.1 h with h | h
    · rw [Prod.ext_iff] at h
      obtain ⟨h1, h2⟩ := h
      simp at h1 h2
      subst h1
      subst h2
      simp [alookup]
    · have hk : ¬ k0 = k := by
        intro he
        subst he
        exact hnd1.1 (by simpa [akeys] using List.mem_map_of_mem Prod.fst h)
      simp [alookup, hk]
      exact ih hnd1.2 h

theorem ainsert_of_not_mem {α : Type} (l : List (String × α)) (k : String)
    (v : α) (h : k ∉ akeys l) : ainsert l k v = l ++ [(k, v)] := by
  induction l with
  | nil => simp [ainsert]
  | cons e rest ih =>
    obtain ⟨k0, v0⟩ := e
    rw [akeys_cons] at h
    have h1 : ¬ k0 = k := fun he => h (by simp [he])
    have h2 : k ∉ akeys rest := fun hm => h (by simp [hm])
    simp [ainsert, h1, ih h2]

theorem akeys_ainsert_mem {α : Type} (l : List (String × α)) (k : String)
    (v : α) (h : k ∈ akeys l) : akeys (ainsert l k v) = akeys l := by
  induction l with
  | nil => simp at h
  | cons e rest ih =>
    obtain ⟨k0, v0⟩ := e
    by_cases hk : k0 = k
    · simp [ainsert, hk]
    · rw [akeys_cons] at h
      rcases List.mem_cons.1 h with h | h
      · exact absurd h.symm hk
      · simp [ainsert, hk, ih h]

theorem aremove_of_not_mem {α : Type} (l : List (String × α)) (k : String)
    (h : k ∉ akeys l) : aremove l k = l := by
  induction l with
  | nil => simp [aremove]
  | cons e rest ih =>
    obtain ⟨k0, v0⟩ := e
    rw [akeys_cons] at h
    have h1 : ¬ k0 = k := fun he => h (by simp [he])
    have h2 : k ∉ akeys rest := fun hm => h (by simp [hm])
    have ih2 := ih h2
    simp [aremove] at ih2 ⊢
    exact ⟨h1, ih2⟩

theorem aremove_append {α : Type} (l1 l2 : List (String × α)) (k : String) :
    aremove (l1 ++ l2) k = aremove l1 k ++ aremove l2 k := by
  simp [aremove]

theorem aorinsert_of_mem {α : Type} (l : List (String × α)) (k : String)
    (v : α) (h : k ∈ akeys l) : aorinsert l k v = l := by
  simp [aorinsert, (acontains_iff l k).2 h]

theorem aorinsert_of_not_mem {α : Type} (l : List (String × α)) (k : String)
    (v : α) (h : k ∉ akeys l) : aorinsert l k v = l ++ [(k, v)] := by
  simp [aorinsert, acontains_eq_false l k h]

theorem length_ainsert_of_not_mem {α : Type} (l : List (String × α))
    (k : String) (v : α) (h : k ∉ akeys l) :
    (ainsert l k v).length = l.length + 1 := by
  simp [ainsert_of_not_mem l k v h]

theorem alookup_ainsert_self {α : Type} (l : List (String × α)) (k : String)
    (v : α) : alookup (ainsert l k v) k = some v := by
  induction l with
  | nil => simp [ainsert, alookup]
  | cons e rest ih =>
    obtain ⟨k0, v0⟩ := e
    by_cases hk : k0 = k <;> simp [ainsert, alookup, hk, ih]

theorem alookup_ainsert_ne {α : Type} (l : List (String × α)) (k k' : String)
    (v : α) (h : ¬ k' = k) : alookup (ainsert l k v) k' = alookup l k' := by
  have h' : ¬ k = k' := fun he => h he.symm
  induction l with
  | nil => simp [ainsert, alookup, h']
  | cons e rest ih =>
    obtain ⟨k0, v0⟩ := e
    by_cases hk : k0 = k
    · subst hk
      simp [ainsert, alookup, h']
    · simp [ainsert, alookup, hk, ih]

theorem nodup_akeys_ainsert {α : Type} (l : List (String × α)) (k : String)
    (v : α) (hnd : (akeys l).Nodup) : (akeys (ainsert l k v)).Nodup := by
  by_cases h : k ∈ akeys l
  · rw [akeys_ainsert_mem l k v h]
    exact hnd
  · rw [ainsert_of_not_mem l k v h, akeys_append]
    have hk : akeys [(k, v)] = [k] := rfl
    rw [hk, List.nodup_append]
    refine ⟨hnd, List.nodup_singleton k, ?_⟩
    intro x hx hxk
    simp at hxk
    subst hxk
    exact h hx

theorem nodup_key_inj {α : Type} {t : List (String × α)}
    (hnd : (akeys t).Nodup) {e e' : String × α} (he : e ∈ t) (he' : e' ∈ t)
    (hk : e.1 = e'.1) : e = e' := by
  have h1 : alookup t e.1 = some e.2 := alookup_eq_some_of_mem hnd he
  have h2 : alookup t e'.1 = some e'.2 := alookup_eq_some_of_mem hnd he'
  rw [hk] at h1
  rw [h1] at h2
  have : e.2 = e'.2 := by injection h2
  exact Prod.ext hk this

theorem foldl_aorinsert_spec (t : List (String × Nat)) (names : List String)
    (d : Nat) :
    ∃ ext : List (String × Nat),
      names.foldl (fun acc name => aorinsert acc name d) t = t ++ ext ∧
      (∀ e ∈ ext, e.2 = d ∧ e.1 ∉ akeys t ∧ e.1 ∈ names) ∧
      (akeys ext).Nodup := by
  induction names generalizing t with
  | nil => exact ⟨[], by simp, by simp, by simp⟩
  | cons name rest ih =>
    by_cases h : name ∈ akeys t
    · obtain ⟨ext, h1, h2, h3⟩ := ih t
      refine ⟨ext, ?_, ?_, h3⟩
      · simpa [aorinsert_of_mem t name d h] using h1
      · exact fun e he => ⟨(h2 e he).1, (h2 e he).2.1, by simp [(h2 e he).2.2]⟩
    · obtain ⟨ext, h1, h2, h3⟩ := ih (t ++ [(name, d)])
      refine ⟨(name, d) :: ext, ?_, ?_, ?_⟩
      · simp only [List.foldl_cons, aorinsert_of_not_mem t name d h] at h1 ⊢
        simpa using h1
      · intro e he
        rcases List.mem_cons.1 he with he | he
        · subst he
          exact ⟨rfl, h, by simp⟩
        · obtain ⟨e1, e2, e3⟩ := h2 e he
          rw [akeys_append] at e2
          simp at e2
          exact ⟨e1, e2.1, by simp [e3]⟩
      · rw [akeys_cons]
        refine List.nodup_cons.2 ⟨?_, h3⟩
        intro hmem
        obtain ⟨e, he, hee⟩ := List.mem_map.1 hmem
        obtain ⟨_, e2, _⟩ := h2 e he
        rw [akeys_append] at e2
        simp [hee] at e2

theorem foldl_aremove_eq_filter {α : Type} (ks : List String) :
    ∀ t : List (String × α),
      ks.foldl (fun acc k => aremove acc k) t =
        t.filter (fun e => ¬ e.1 ∈ ks) := by
  induction ks with
  | nil => intro t; simp
  | cons k rest ih =>
    intro t
    rw [List.foldl_cons, ih (aremove t k)]
    simp only [aremove, List.filter_filter]
    apply List.filter_congr
    intro e _
    by_cases h1 : e.1 = k <;> by_cases h2 : e.1 ∈ rest <;> simp [h1, h2]

theorem restoreTable_eq_filter (t : List (String × Nat)) (d : Nat)
    (hnd : (akeys t).Nodup) :
    restoreTable t d = t.filter (fun e => ¬ e.2 = d) := by
  rw [restoreTable, foldl_aremove_eq_filter]
  apply List.filter_congr
  intro e he
  by_cases hd : e.2 = d
  · have : e.1 ∈ (t.filter (fun e => e.2 = d)).map Prod.fst := by
      refine List.mem_map.2 ⟨e, ?_, rfl⟩
      exact List.mem_filter.2 ⟨he, by simp [hd]⟩
    simp [this, hd]
  · have : ¬ e.1 ∈ (t.filter (fun e => e.2 = d)).map Prod.fst := by
      intro hmem
      obtain ⟨e', he', hee⟩ := List.mem_map.1 hmem
      have he'2 := List.mem_filter.1 he'
      have : e' = e := nodup_key_inj hnd he'2.1 he hee
      subst this
      simp at he'2
      exact hd he'2.2
    simp [this, hd]

theorem restoreTable_append_ext (t ext : List (String × Nat)) (d : Nat)
    (hnd : (akeys (t ++ ext)).Nodup)
    (ht : ∀ e ∈ t, ¬ e.2 = d) (hext : ∀ e ∈ ext, e.2 = d) :
    restoreTable (t ++ ext) d = t := by
  rw [restoreTable_eq_filter _ _ hnd, List.filter_append]
  have h1 : t.filter (fun e => ¬ e.2 = d) = t := by
    apply List.filter_eq_self.2
    intro e he
    simp [ht e he]
  have h2 : ext.filter (fun e => ¬ e.2 = d) = [] := by
    apply List.filter_eq_nil_iff.2
    intro e he
    simp [hext e he]
  rw [h1, h2, List.append_nil]

theorem mem_sinsert (l : List String) (k x : String) :
    x ∈ sinsert l k ↔ x ∈ l ∨ x = k := by
  by_cases h : k ∈ l
  · simp only [sinsert, if_pos h]
    constructor
    · exact Or.inl
    · rintro (hx | rfl)
      · exact hx
      · exact h
  · simp [sinsert, if_neg h]

theorem nodup_sinsert (l : List String) (k : String) (hnd : l.Nodup) :
    (sinsert l k).Nodup := by
  by_cases h : k ∈ l
  · simpa [sinsert, if_pos h] using hnd
  · simp [sinsert, if_neg h, List.nodup_append, hnd, h]

theorem nodup_foldl_sinsert (l : List String) :
    ∀ acc : List String, acc.Nodup → (l.foldl sinsert acc).Nodup := by
  induction l with
  | nil => intro acc h; simpa using h
  | cons x rest ih =>
    intro acc h
    exact ih (sinsert acc x) (nodup_sinsert acc x h)

theorem mem_foldl_sinsert (l : List String) :
    ∀ (acc : List String) (x : String),
      x ∈ l.foldl sinsert acc ↔ x ∈ acc ∨ x ∈ l := by
  induction l with
  | nil => intro acc x; simp
  | cons y rest ih =>
    intro acc x
    rw [List.foldl_cons, ih]
    rw [mem_sinsert]
    constructor
    · rintro (⟨hx | rfl⟩ | hx)
      · exact Or.inl hx
      · simp
      · simp [hx]
    · rintro (hx | hx)
      · exact Or.inl (Or.inl hx)
      · rcases List.mem_cons.1 hx with rfl | hx
        · exact Or.inl (Or.inr rfl)
        · exact Or.inr hx

theorem nodup_hsetOf (l : List String) : (hsetOf l).Nodup :=
  nodup_foldl_sinsert l [] List.nodup_nil

theorem mem_hsetOf (l : List String) (x : String) :
    x ∈ hsetOf l ↔ x ∈ l := by
  rw [hsetOf, mem_foldl_sinsert]
  simp

/-! ## Except and mapM helpers -/

theorem except_bind_ok {ε α β : Type} {x : Except ε α} {f : α → Except ε β}
    {b : β} (h : (x >>= f) = Except.ok b) :
    ∃ a, x = Except.ok a ∧ f a = Except.ok b := by
  cases x with
  | error e => simp [Bind.bind, Except.bind] at h
  | ok a =>
    refine ⟨a, rfl, ?_⟩
    simpa [Bind.bind, Except.bind] using h

theorem except_bind_ok_forward {ε α β : Type} {x : Except ε α}
    {f : α → Except ε β} {a : α} (h : x = Except.ok a) :
    (x >>= f) = f a := by
  subst h
  rfl

/-- The adjacency resolver of `predecessors`/`successors`. -/
theorem mapM_resolve_ok {g : DiGraph} :
    ∀ {names : List String} {l : List DiNode},
      ((names.mapM (fun q =>
        match alookup g.nodes q with
        | some nd => pure nd
        | none => throw (GraphError.unwrapFailed q)) :
          Except GraphError (List DiNode)) = Except.ok l) →
      l = names.map g.nodeRec ∧ ∀ q ∈ names, q ∈ akeys g.nodes := by
  intro names
  induction names with
  | nil =>
    intro l h
    rw [List.mapM_nil] at h
    have hl : l = [] := by simpa [pure, Except.pure] using h.symm
    simp [hl]
  | cons q rest ih =>
    intro l h
    rw [List.mapM_cons] at h
    cases hq : alookup g.nodes q with
    | none =>
      rw [hq] at h
      simp [Bind.bind, Except.bind, throw, throwThe, MonadExceptOf.throw] at h
    | some nd =>
      rw [hq] at h
      obtain ⟨b, hb, hrest⟩ := except_bind_ok h
      have hbn : b = nd := by
        simpa [pure, Except.pure] using hb.symm
      subst hbn
      obtain ⟨bs, hbs, hpure⟩ := except_bind_ok hrest
      obtain ⟨h1, h2⟩ := ih hbs
      have hl : l = b :: bs := by
        simpa [pure, Except.pure] using hpure.symm
      subst hl
      refine ⟨?_, ?_⟩
      · simp [h1, DiGraph.nodeRec, hq]
      · intro q' hq'
        rcases List.mem_cons.1 hq' with rfl | hq'
        · exact mem_akeys_of_alookup hq
        · exact h2 q' hq'

theorem mapM_resolve_of_closed {g : DiGraph} {names : List String}
    (h : ∀ q ∈ names, q ∈ akeys g.nodes) :
    (names.mapM (fun q =>
      match alookup g.nodes q with
      | some nd => pure nd
      | none => throw (GraphError.unwrapFailed q)) :
        Except GraphError (List DiNode)) =
      Except.ok (names.map g.nodeRec) := by
  induction names with
  | nil => simp [List.mapM_nil]; rfl
  | cons q rest ih =>
    rw [List.mapM_cons]
    have hq : q ∈ akeys g.nodes := h q (by simp)
    obtain ⟨nd, hnd⟩ := Option.isSome_iff_exists.1 (alookup_isSome_of_mem hq)
    rw [hnd]
    have := ih (fun q' hq' => h q' (by simp [hq']))
    rw [except_bind_ok_forward (by rfl)]
    rw [except_bind_ok_forward this]
    simp [pure, Except.pure, DiGraph.nodeRec, hnd]

/-! ## Graph query lemmas -/

theorem successors_ok_iff {g : DiGraph} {k : String} {l : List DiNode}
    (h : g.successors k = Except.ok l) :
    l = (g.succNames k).map g.nodeRec ∧ k ∈ akeys g.nodes ∧
      ∀ q ∈ g.succNames k, q ∈ akeys g.nodes := by
  rw [DiGraph.successors] at h
  cases hk : g.get_node k with
  | none => rw [hk] at h; simp [throw, throwThe, MonadExceptOf.throw] at h
  | some nd =>
    rw [hk] at h
    obtain ⟨h1, h2⟩ := mapM_resolve_ok h
    have hsn : g.succNames k = nd.successors := by
      simp [DiGraph.succNames, DiGraph.nodeRec, DiGraph.get_node] at hk ⊢
      simp [hk]
    refine ⟨by rw [hsn]; exact h1, ?_, by rw [hsn]; exact h2⟩
    exact mem_akeys_of_alookup hk

theorem predecessors_ok_iff {g : DiGraph} {k : String} {l : List DiNode}
    (h : g.predecessors k = Except.ok l) :
    l = (g.predNames k).map g.nodeRec ∧ k ∈ akeys g.nodes ∧
      ∀ q ∈ g.predNames k, q ∈ akeys g.nodes := by
  rw [DiGraph.predecessors] at h
  cases hk : g.get_node k with
  | none => rw [hk] at h; simp [throw, throwThe, MonadExceptOf.throw] at h
  | some nd =>
    rw [hk] at h
    obtain ⟨h1, h2⟩ := mapM_resolve_ok h
    have hpn : g.predNames k = nd.predecessors := by
      simp [DiGraph.predNames, DiGraph.nodeRec, DiGraph.get_node] at hk ⊢
      simp [hk]
    refine ⟨by rw [hpn]; exact h1, ?_, by rw [hpn]; exact h2⟩
    exact mem_akeys_of_alookup hk

theorem nodeRec_name {g : DiGraph} (hnm : NameMatch g) {q : String}
    (hq : q ∈ akeys g.nodes) : (g.nodeRec q).name = q := by
  obtain ⟨nd, hnd⟩ := Option.isSome_iff_exists.1 (alookup_isSome_of_mem hq)
  rw [DiGraph.nodeRec, hnd]
  exact hnm (q, nd) (mem_of_alookup_eq_some hnd)

theorem nodeRec_name_default {g : DiGraph} (hnm : NameMatch g) (q : String) :
    (g.nodeRec q).name = q := by
  cases hnd : alookup g.nodes q with
  | none => simp [DiGraph.nodeRec, hnd, DiNode.new]
  | some nd =>
    rw [DiGraph.nodeRec, hnd]
    exact hnm (q, nd) (mem_of_alookup_eq_some hnd)

/-- Under name-matching, a successful `edge_count` computes the pure
`ecount`: the resolved successor records are named after their keys. -/
theorem edge_count_ok_eq_ecount {g : DiGraph} (hnm : NameMatch g)
    {u v : String} {c : Nat} (h : g.edge_count u v = Except.ok c) :
    c = ecount g u v := by
  rw [DiGraph.edge_count] at h
  obtain ⟨succs, hs, hc⟩ := except_bind_ok h
  obtain ⟨hl, _, hcl⟩ := successors_ok_iff hs
  have hc2 : c = (succs.filter (fun s => s.get_name = v)).length := by
    simpa [pure, Except.pure] using hc.symm
  subst hc2
  subst hl
  rw [ecount]
  rw [List.filter_map, List.length_map]
  congr 1
  apply List.filter_congr
  intro q hq
  simp [Function.comp, DiNode.get_name, nodeRec_name_default hnm q]

/-! ## Builder invariants and claim C10 -/

theorem ainsert_lookup_self {α : Type} {l : List (String × α)} {k : String}
    {v : α} (h : alookup l k = some v) : ainsert l k v = l := by
  induction l with
  | nil => simp [alookup] at h
  | cons e rest ih =>
    obtain ⟨k0, v0⟩ := e
    by_cases hk : k0 = k
    · subst hk
      simp [alookup] at h
      simp [ainsert, h]
    · simp [alookup, hk] at h
      simp [ainsert, hk, ih h]

theorem sinsert_of_mem {l : List String} {k : String} (h : k ∈ l) :
    sinsert l k = l := by
  simp [sinsert, h]

theorem mem_sinsert_self (l : List String) (k : String) : k ∈ sinsert l k := by
  rw [mem_sinsert]
  simp

theorem add_edge_idempotent (g : DiGraph) (a b : Option String) :
    (g.add_edge a b).add_edge a b = g.add_edge a b := by
  cases a with
  | none =>
    cases b with
    | none => simp [DiGraph.add_edge]
    | some nb =>
      by_cases hb : g.contains_node nb = true
      · simp [DiGraph.add_edge, hb]
      · have hb2 : g.contains_node nb = false := by
          cases hc : g.contains_node nb
          · rfl
          · exact absurd hc hb
        have hmem : nb ∈ akeys (aorinsert g.nodes nb (DiNode.new nb none)) := by
          rw [aorinsert_of_not_mem _ _ _ (fun hm =>
            hb ((acontains_iff _ _).2 hm))]
          simp [akeys_append]
        have h1 : g.add_edge none (some nb) =
            { g with nodes := aorinsert g.nodes nb (DiNode.new nb none) } := by
          simp [DiGraph.add_edge, hb2]
        rw [h1]
        simp [DiGraph.add_edge, DiGraph.contains_node,
          (acontains_iff _ _).2 hmem]
  | some na =>
    cases b with
    | none =>
      by_cases ha : g.contains_node na = true
      · simp [DiGraph.add_edge, ha]
      · have ha2 : g.contains_node na = false := by
          cases hc : g.contains_node na
          · rfl
          · exact absurd hc ha
        have hmem : na ∈ akeys (aorinsert g.nodes na (DiNode.new na none)) := by
          rw [aorinsert_of_not_mem _ _ _ (fun hm =>
            ha ((acontains_iff _ _).2 hm))]
          simp [akeys_append]
        have h1 : g.add_edge (some na) none =
            { g with nodes := aorinsert g.nodes na (DiNode.new na none) } := by
          simp [DiGraph.add_edge, ha2]
        rw [h1]
        simp [DiGraph.add_edge, DiGraph.contains_node,
          (acontains_iff _ _).2 hmem]
    | some nb =>
      -- after the first call both endpoints exist and the edge is recorded;
      -- the second call finds everything present and changes nothing
      set gE := g.add_edge (some na) (some nb) with hgE
      have key : (∃ srec, alookup gE.nodes na = some srec ∧ nb ∈ srec.successors) ∧
          (∃ trec, alookup gE.nodes nb = some trec ∧ na ∈ trec.predecessors) := by
        rw [hgE]
        simp only [DiGraph.add_edge]
        set g2 : DiGraph :=
          (if g.contains_node na = true then g
           else { g with nodes := aorinsert g.nodes na (DiNode.new na none) })
        set g2b : DiGraph :=
          (if g2.contains_node nb = true then g2
           else { g2 with nodes := aorinsert g2.nodes nb (DiNode.new nb none) })
        have hna : na ∈ akeys g2b.nodes := by
          have h1 : na ∈ akeys g2.nodes := by
            by_cases hc : g.contains_node na = true
            · simp only [g2, if_pos hc]
              exact (acontains_iff _ _).1 hc
            · simp only [g2, if_neg hc]
              rw [aorinsert_of_not_mem _ _ _ (fun hm =>
                hc ((acontains_iff _ _).2 hm))]
              simp [akeys_append]
          by_cases hc : g2.contains_node nb = true
          · simpa only [g2b, if_pos hc] using h1
          · simp only [g2b, if_neg hc]
            rw [aorinsert_of_not_mem _ _ _ (fun hm =>
              hc ((acontains_iff _ _).2 hm))]
            simp [akeys_append, h1]
        have hnb : nb ∈ akeys g2b.nodes := by
          by_cases hc : g2.contains_node nb = true
          · simp only [g2b, if_pos hc]
            exact (acontains_iff _ _).1 hc
          · simp only [g2b, if_neg hc]
            rw [aorinsert_of_not_mem _ _ _ (fun hm =>
              hc ((acontains_iff _ _).2 hm))]
            simp [akeys_append]
        obtain ⟨src, hsrc⟩ := Option.isSome_iff_exists.1 (alookup_isSome_of_mem hna)
        rw [hsrc]
        set g3 : DiGraph :=
          { g2b with nodes := ainsert g2b.nodes na (src.add_successors nb) }
        have hnb3 : nb ∈ akeys g3.nodes := by
          show nb ∈ akeys (ainsert g2b.nodes na (src.add_successors nb))
          by_cases hm : na ∈ akeys g2b.nodes
          · rw [akeys_ainsert_mem _ _ _ hm]
            exact hnb
          · exact absurd hna hm
        obtain ⟨tgt, htgt⟩ := Option.isSome_iff_exists.1 (alookup_isSome_of_mem hnb3)
        rw [htgt]
        constructor
        · by_cases hm : nb = na
          · -- self-loop: the final record at nb = na has both updates
            subst hm
            refine ⟨tgt.add_predecessor nb, alookup_ainsert_self _ _ _, ?_⟩
            have : alookup g3.nodes nb = some (src.add_successors nb) := by
              show alookup (ainsert g2b.nodes nb (src.add_successors nb)) nb =
                some (src.add_successors nb)
              exact alookup_ainsert_self _ _ _
            rw [this] at htgt
            have htgt2 : tgt = src.add_successors nb := by
              injection htgt with hinj
              exact hinj.symm
            subst htgt2
            show nb ∈ (src.add_successors nb).successors
            simp [DiNode.add_successors, mem_sinsert_self]
          · refine ⟨src.add_successors nb, ?_, ?_⟩
            · rw [alookup_ainsert_ne _ _ _ _ (fun he => hm he.symm)]
              show alookup (ainsert g2b.nodes na (src.add_successors nb)) na =
                some (src.add_successors nb)
              exact alookup_ainsert_self _ _ _
            · simp [DiNode.add_successors, mem_sinsert_self]
        · refine ⟨tgt.add_predecessor na, alookup_ainsert_self _ _ _, ?_⟩
          simp [DiNode.add_predecessor, mem_sinsert_self]
      obtain ⟨⟨srec, hsrec, hsmem⟩, ⟨trec, htrec, htmem⟩⟩ := key
      have hcna : gE.contains_node na = true :=
        (acontains_iff _ _).2 (mem_akeys_of_alookup hsrec)
      have hcnb : gE.contains_node nb = true :=
        (acontains_iff _ _).2 (mem_akeys_of_alookup htrec)
      show gE.add_edge (some na) (some nb) = gE
      have hs : srec.add_successors nb = srec := by
        simp [DiNode.add_successors, sinsert_of_mem hsmem]
      have ht : trec.add_predecessor na = trec := by
        simp [DiNode.add_predecessor, sinsert_of_mem htmem]
      simp only [DiGraph.add_edge, hcna, hcnb, if_pos, hsrec, hs,
        ainsert_lookup_self hsrec]
      simp only [htrec, ht, ainsert_lookup_self htrec]

theorem mem_ainsert {α : Type} {l : List (String × α)} {k : String} {v : α}
    {e : String × α} (h : e ∈ ainsert l k v) : e ∈ l ∨ e = (k, v) := by
  induction l with
  | nil => simpa [ainsert] using h
  | cons e0 rest ih =>
    obtain ⟨k0, v0⟩ := e0
    by_cases hk : k0 = k
    · subst hk
      simp [ainsert] at h
      rcases h with h | h
      · exact Or.inr (by simp [h])
      · exact Or.inl (by simp [h])
    · simp [ainsert, hk] at h
      rcases h with h | h
      · exact Or.inl (by simp [h])
      · rcases ih h with h2 | h2
        · exact Or.inl (by simp [h2])
        · exact Or.inr h2

theorem mem_aorinsert {α : Type} {l : List (String × α)} {k : String} {v : α}
    {e : String × α} (h : e ∈ aorinsert l k v) : e ∈ l ∨ e = (k, v) := by
  rw [aorinsert] at h
  by_cases hc : acontains l k
  · rw [if_pos hc] at h
    exact Or.inl h
  · rw [if_neg hc] at h
    rcases List.mem_append.1 h with h | h
    · exact Or.inl h
    · exact Or.inr (by simpa using h)

theorem nodes_prop_aorinsert_new (g : DiGraph) (name : String)
    (h : NameMatch g ∧ AdjSetLike g) :
    NameMatch { g with nodes := aorinsert g.nodes name (DiNode.new name none) } ∧
    AdjSetLike { g with nodes := aorinsert g.nodes name (DiNode.new name none) } := by
  constructor
  · intro e he
    rcases mem_aorinsert he with he | rfl
    · exact h.1 e he
    · rfl
  · intro e he
    rcases mem_aorinsert he with he | rfl
    · exact h.2 e he
    · exact ⟨List.nodup_nil, List.nodup_nil⟩

theorem nodes_prop_ainsert (g : DiGraph) (k : String) (nd : DiNode)
    (h : NameMatch g ∧ AdjSetLike g) (hname : nd.name = k)
    (hpred : nd.predecessors.Nodup) (hsucc : nd.successors.Nodup) :
    NameMatch { g with nodes := ainsert g.nodes k nd } ∧
    AdjSetLike { g with nodes := ainsert g.nodes k nd } := by
  constructor
  · intro e he
    rcases mem_ainsert he with he | rfl
    · exact h.1 e he
    · exact hname
  · intro e he
    rcases mem_ainsert he with he | rfl
    · exact h.2 e he
    · exact ⟨hpred, hsucc⟩

theorem nodes_prop_add_node (g : DiGraph) (nd : DiNode)
    (h : NameMatch g ∧ AdjSetLike g) (hnd : nd.SetLike) :
    NameMatch (g.add_node nd) ∧ AdjSetLike (g.add_node nd) := by
  show NameMatch { g with nodes := ainsert g.nodes nd.get_name nd } ∧ _
  exact nodes_prop_ainsert g nd.get_name nd h rfl hnd.1 hnd.2

theorem nodes_prop_add_edge (g : DiGraph) (a b : Option String)
    (h : NameMatch g ∧ AdjSetLike g) :
    NameMatch (g.add_edge a b) ∧ AdjSetLike (g.add_edge a b) := by
  rw [DiGraph.add_edge.eq_def]
  have stage : ∀ (g' : DiGraph), (NameMatch g' ∧ AdjSetLike g') →
      ∀ name : String,
      NameMatch (if g'.contains_node name = true then g'
        else { g' with nodes := aorinsert g'.nodes name (DiNode.new name none) }) ∧
      AdjSetLike (if g'.contains_node name = true then g'
        else { g' with nodes := aorinsert g'.nodes name (DiNode.new name none) }) := by
    intro g' hg' name
    by_cases hc : g'.contains_node name = true
    · simpa [hc] using hg'
    · rw [if_neg hc]
      exact nodes_prop_aorinsert_new g' name hg'
  cases a with
  | none =>
    cases b with
    | none => simpa using h
    | some nb => simpa using stage g h nb
  | some na =>
    have h2 := stage g h na
    cases b with
    | none => simpa using h2
    | some nb =>
      have h3 := stage _ h2 nb
      set g2b := (if (if g.contains_node na = true then g
        else { g with nodes := aorinsert g.nodes na (DiNode.new na none) }).contains_node nb = true
        then (if g.contains_node na = true then g
          else { g with nodes := aorinsert g.nodes na (DiNode.new na none) })
        else { (if g.contains_node na = true then g
          else { g with nodes := aorinsert g.nodes na (DiNode.new na none) }) with
            nodes := aorinsert (if g.contains_node na = true then g
              else { g with nodes := aorinsert g.nodes na (DiNode.new na none) }).nodes nb
              (DiNode.new nb none) }) with hg2b
    
      cases hsrc : alookup g2b.nodes na with
      | none =>
        simp only [hsrc]
        cases htgt : alookup g2b.nodes nb with
        | none => simpa only [htgt] using h3
        | some tgt =>
          simp only [htgt]
          have htm : (nb, tgt) ∈ g2b.nodes := mem_of_alookup_eq_some htgt
          exact nodes_prop_ainsert g2b nb (tgt.add_predecessor na) h3
            (h3.1 _ htm) (nodup_sinsert _ _ (h3.2 _ htm).1) (h3.2 _ htm).2
      | some src =>
        simp only [hsrc]
        have hsm : (na, src) ∈ g2b.nodes := mem_of_alookup_eq_some hsrc
        have h4 := nodes_prop_ainsert g2b na (src.add_successors nb) h3
          (h3.1 _ hsm) (h3.2 _ hsm).1 (nodup_sinsert _ _ (h3.2 _ hsm).2)
        set g3 := { g2b with nodes := ainsert g2b.nodes na (src.add_successors nb) } with hg3
        cases htgt : alookup g3.nodes nb with
        | none => simpa only [htgt] using h4
        | some tgt =>
          simp only [htgt]
          have htm : (nb, tgt) ∈ g3.nodes := mem_of_alookup_eq_some htgt
          exact nodes_prop_ainsert g3 nb (tgt.add_predecessor na) h4
            (h4.1 _ htm) (nodup_sinsert _ _ (h4.2 _ htm).1) (h4.2 _ htm).2

theorem buildGraph_nodes_prop (ops : List BuildOp) (hops : SetLikeOps ops) :
    NameMatch (buildGraph ops) ∧ AdjSetLike (buildGraph ops) := by
  rw [buildGraph]
  have base : NameMatch (DiGraph.new none) ∧ AdjSetLike (DiGraph.new none) := by
    constructor <;> intro e he <;> simp [DiGraph.new] at he
  have main : ∀ (l : List BuildOp) (g : DiGraph),
      (NameMatch g ∧ AdjSetLike g) → (∀ op ∈ l, op.SetLike) →
      NameMatch (l.foldl (fun g op =>
        match op with
        | BuildOp.addNode nd => g.add_node nd
        | BuildOp.addEdge a b => g.add_edge a b) g) ∧
      AdjSetLike (l.foldl (fun g op =>
        match op with
        | BuildOp.addNode nd => g.add_node nd
        | BuildOp.addEdge a b => g.add_edge a b) g) := by
    intro l
    induction l with
    | nil => intro g hg _; simpa using hg
    | cons op rest ih =>
      intro g hg hops2
      rw [List.foldl_cons]
      refine ih _ ?_ (fun op2 h2 => hops2 op2 (by simp [h2]))
      cases op with
      | addNode nd =>
        exact nodes_prop_add_node g nd hg (by
          have := hops2 (BuildOp.addNode nd) (by simp)
          simpa [BuildOp.SetLike] using this)
      | addEdge a b => exact nodes_prop_add_edge g a b hg
  exact main ops (DiGraph.new none) base hops

theorem nodup_filter_eq_le_one {l : List String} (h : l.Nodup) (v : String) :
    (l.filter (fun s => s = v)).length ≤ 1 := by
  cases hf : l.filter (fun s => decide (s = v)) with
  | nil => simp [hf]
  | cons x tail =>
    cases tail with
    | nil => simp [hf]
    | cons y tail2 =>
      exfalso
      have hxm : x ∈ l.filter (fun s => decide (s = v)) := by rw [hf]; simp
      have hym : y ∈ l.filter (fun s => decide (s = v)) := by rw [hf]; simp
      have hx := (List.mem_filter.1 hxm).2
      have hy := (List.mem_filter.1 hym).2
      simp at hx hy
      have hnd := h.filter (fun s => decide (s = v))
      rw [hf] at hnd
      rcases List.nodup_cons.1 hnd with ⟨hxx, _⟩
      exact hxx (by simp [hx, hy])

theorem succNames_nodup {g : DiGraph} (hadj : AdjSetLike g) (u : String) :
    (g.succNames u).Nodup := by
  rw [DiGraph.succNames, DiGraph.nodeRec]
  cases hu : alookup g.nodes u with
  | none => simp [DiNode.new]
  | some nd =>
    simp only [Option.getD_some]
    exact (hadj (u, nd) (mem_of_alookup_eq_some hu)).2

theorem predNames_nodup {g : DiGraph} (hadj : AdjSetLike g) (u : String) :
    (g.predNames u).Nodup := by
  rw [DiGraph.predNames, DiGraph.nodeRec]
  cases hu : alookup g.nodes u with
  | none => simp [DiNode.new]
  | some nd =>
    simp only [Option.getD_some]
    exact (hadj (u, nd) (mem_of_alookup_eq_some hu)).1

theorem ecount_le_one {g : DiGraph} (hadj : AdjSetLike g) (u v : String) :
    ecount g u v ≤ 1 :=
  nodup_filter_eq_le_one (succNames_nodup hadj u) v

/-- C10: in every graph reachable through the builder interface, any
successful `edge_count` is at most one, and `add_edge` is idempotent —
true multi-edges are unrepresentable. -/
theorem C10_edge_count_le_one_and_add_edge_idempotent (ops : List BuildOp)
    (hops : SetLikeOps ops) :
    (∀ u v c, (buildGraph ops).edge_count u v = Except.ok c → c ≤ 1) ∧
    (∀ a b, ((buildGraph ops).add_edge a b).add_edge a b =
      (buildGraph ops).add_edge a b) := by
  obtain ⟨hnm, hadj⟩ := buildGraph_nodes_prop ops hops
  refine ⟨fun u v c h => ?_, fun a b => add_edge_idempotent _ a b⟩
  rw [edge_count_ok_eq_ecount hnm h]
  exact ecount_le_one hadj u v

/-- Witness for C10 at a concrete build sequence. -/
theorem C10_witness :
    (∀ u v c, (buildGraph demoOps).edge_count u v = Except.ok c → c ≤ 1) ∧
    (∀ a b, ((buildGraph demoOps).add_edge a b).add_edge a b =
      (buildGraph demoOps).add_edge a b) :=
  C10_edge_count_le_one_and_add_edge_idempotent demoOps (by decide)

/-! ## Claim C7: the self-loop predicate -/

/-- C7: for every matcher state — whatever the mode string `test` is,
`graph`, `subgraph` and `mono` alike — `r_self` succeeds with `true`
exactly when the two self-loop multiplicities are equal: the predicate
never consults the mode and uses strict equality. -/
theorem C7_r_self_strict_equality (M : DiGraphMatcher) (n m : DiNode)
    (c1 c2 : Nat)
    (h1 : M.g1.edge_count n.get_name n.get_name = Except.ok c1)
    (h2 : M.g2.edge_count m.get_name m.get_name = Except.ok c2) :
    M.r_self n m = Except.ok (decide (c1 = c2)) := by
  rw [DiGraphMatcher.r_self]
  rw [except_bind_ok_forward h1, except_bind_ok_forward h2]
  by_cases h : c1 = c2 <;> simp [h] <;> rfl

/-- Witness for C7: a `mono`-mode matcher state over concrete graphs. -/
theorem C7_witness :
    ({ DiGraphMatcher.new exPatEdge exHostEdge with
        test := "mono" }).r_self (exPatEdge.nodeRec kx) (exHostEdge.nodeRec ka) =
      Except.ok (decide ((0 : Nat) = 0)) :=
  C7_r_self_strict_equality _ _ _ 0 0 (by decide) (by decide)

/-! ## Characterizing `create` and `restore` -/

theorem create_none_ok (m : DiGraphMatcher) :
    DiGMState.create m none none =
      Except.ok ({ m with core_1 := [], core_2 := [], in_1 := [], in_2 := [], out_1 := [], out_2 := [] }, DiGMState.mk none none 0) := rfl

theorem except_bind_error {ε α β : Type} {x : Except ε α}
    {f : α → Except ε β} {e : ε} (h : x = Except.error e) :
    (x >>= f) = Except.error e := by
  subst h
  rfl

theorem create_some_ok_spec {m : DiGraphMatcher} {p h : String}
    {m' : DiGraphMatcher} {st : DiGMState}
    (hc : DiGMState.create m (some p) (some h) = Except.ok (m', st)) :
    ∃ n1 n2 o1 o2 : List String,
      collectAdjacentNew m.g1.predecessors (ainsert m.core_1 p h) =
        Except.ok n1 ∧
      collectAdjacentNew m.g2.predecessors (ainsert m.core_2 h p) =
        Except.ok n2 ∧
      collectAdjacentNew m.g1.successors (ainsert m.core_1 p h) =
        Except.ok o1 ∧
      collectAdjacentNew m.g2.successors (ainsert m.core_2 h p) =
        Except.ok o2 ∧
      st = DiGMState.mk (some p) (some h) m.core_1.length ∧
      m' = { m with
        core_1 := ainsert m.core_1 p h
        core_2 := ainsert m.core_2 h p
        in_1 := n1.foldl (fun t name => aorinsert t name m.core_1.length)
          (aorinsert m.in_1 p m.core_1.length)
        in_2 := n2.foldl (fun t name => aorinsert t name m.core_1.length)
          (aorinsert m.in_2 h m.core_1.length)
        out_1 := o1.foldl (fun t name => aorinsert t name m.core_1.length)
          (aorinsert m.out_1 p m.core_1.length)
        out_2 := o2.foldl (fun t name => aorinsert t name m.core_1.length)
          (aorinsert m.out_2 h m.core_1.length) } := by
  rw [DiGMState.create] at hc
  simp only [Option.isNone_some, Bool.false_eq_true, or_self, if_false] at hc
  cases hc1 : collectAdjacentNew m.g1.predecessors (ainsert m.core_1 p h) with
  | error e =>
    rw [except_bind_error hc1] at hc
    exact Except.noConfusion hc
  | ok n1 =>
    rw [except_bind_ok_forward hc1] at hc
    cases hc2 : collectAdjacentNew m.g2.predecessors (ainsert m.core_2 h p) with
    | error e =>
      rw [except_bind_error hc2] at hc
      exact Except.noConfusion hc
    | ok n2 =>
      rw [except_bind_ok_forward hc2] at hc
      cases hc3 : collectAdjacentNew m.g1.successors (ainsert m.core_1 p h) with
      | error e =>
        rw [except_bind_error hc3] at hc
        exact Except.noConfusion hc
      | ok o1 =>
        rw [except_bind_ok_forward hc3] at hc
        cases hc4 : collectAdjacentNew m.g2.successors (ainsert m.core_2 h p) with
        | error e =>
          rw [except_bind_error hc4] at hc
          exact Except.noConfusion hc
        | ok o2 =>
          rw [except_bind_ok_forward hc4] at hc
          simp only [pure, Except.pure, Except.ok.injEq] at hc
          rw [Prod.ext_iff] at hc
          obtain ⟨h5, h6⟩ := hc
          exact ⟨n1, n2, o1, o2, rfl, rfl, rfl, rfl, h6.symm, h5.symm⟩

theorem restore_some_eq (p h : String) (d : Nat) (M : DiGraphMatcher) :
    (DiGMState.mk (some p) (some h) d).restore M =
      { M with
        core_1 := aremove M.core_1 p
        core_2 := aremove M.core_2 h
        in_1 := restoreTable M.in_1 d
        in_2 := restoreTable M.in_2 d
        out_1 := restoreTable M.out_1 d
        out_2 := restoreTable M.out_2 d } := rfl

theorem nodup_akeys_aorinsert {α : Type} (l : List (String × α)) (k : String)
    (v : α) (hnd : (akeys l).Nodup) : (akeys (aorinsert l k v)).Nodup := by
  by_cases h : k ∈ akeys l
  · rw [aorinsert_of_mem l k v h]
    exact hnd
  · rw [aorinsert_of_not_mem l k v h, akeys_append]
    have hk : akeys [(k, v)] = [k] := rfl
    rw [hk, List.nodup_append]
    refine ⟨hnd, List.nodup_singleton k, ?_⟩
    intro x hx hxk
    simp at hxk
    subst hxk
    exact h hx

theorem mem_akeys_aorinsert {α : Type} {l : List (String × α)} {k k' : String}
    {v : α} : k' ∈ akeys (aorinsert l k v) ↔ k' ∈ akeys l ∨ k' = k := by
  by_cases h : k ∈ akeys l
  · rw [aorinsert_of_mem l k v h]
    constructor
    · exact Or.inl
    · rintro (hx | rfl)
      · exact hx
      · exact h
  · rw [aorinsert_of_not_mem l k v h, akeys_append]
    have hk : akeys [(k, v)] = [k] := rfl
    rw [hk]
    simp

theorem mem_akeys_foldl_aorinsert {names : List String} :
    ∀ {t : List (String × Nat)} {d : Nat} {k' : String},
      k' ∈ akeys (names.foldl (fun acc name => aorinsert acc name d) t) ↔
        k' ∈ akeys t ∨ k' ∈ names := by
  induction names with
  | nil => intro t d k'; simp
  | cons name rest ih =>
    intro t d k'
    rw [List.foldl_cons]
    rw [ih]
    rw [mem_akeys_aorinsert]
    constructor
    · rintro (⟨hx | rfl⟩ | hx)
      · exact Or.inl hx
      · simp
      · simp [hx]
    · rintro (hx | hx)
      · exact Or.inl (Or.inl hx)
      · rcases List.mem_cons.1 hx with rfl | hx
        · exact Or.inl (Or.inr rfl)
        · exact Or.inr hx

theorem nodup_akeys_foldl_aorinsert {names : List String} :
    ∀ {t : List (String × Nat)} {d : Nat}, (akeys t).Nodup →
      (akeys (names.foldl (fun acc name => aorinsert acc name d) t)).Nodup := by
  induction names with
  | nil => intro t d h; simpa using h
  | cons name rest ih =>
    intro t d h
    rw [List.foldl_cons]
    exact ih (nodup_akeys_aorinsert t name d h)

theorem mem_aorinsert_val {α : Type} {l : List (String × α)} {k : String}
    {v : α} {e : String × α} (h : e ∈ aorinsert l k v) : e ∈ l ∨ e = (k, v) :=
  mem_aorinsert h

theorem mem_of_foldl_aorinsert {names : List String} :
    ∀ {t : List (String × Nat)} {d : Nat} {e : String × Nat},
      e ∈ names.foldl (fun acc name => aorinsert acc name d) t →
        e ∈ t ∨ e.2 = d := by
  induction names with
  | nil => intro t d e h; exact Or.inl (by simpa using h)
  | cons name rest ih =>
    intro t d e h
    rw [List.foldl_cons] at h
    rcases ih h with h2 | h2
    · rcases mem_aorinsert h2 with h3 | h3
      · exact Or.inl h3
      · exact Or.inr (by rw [h3])
    · exact Or.inr h2

/-- The table round trip at the heart of the backtracking discipline:
or-inserting the mapped node and the freshly collected frontier nodes at
depth `d`, then deleting all depth-`d` entries, restores the table
exactly, provided every pre-existing entry has depth below `d`. -/
theorem table_roundtrip (t : List (String × Nat)) (d : Nat)
    (names : List String) (k : String)
    (hnd : (akeys t).Nodup) (hdep : ∀ e ∈ t, e.2 < d) :
    restoreTable
      (names.foldl (fun acc name => aorinsert acc name d) (aorinsert t k d))
      d = t := by
  obtain ⟨ext, hfold, hext, hextnd⟩ :=
    foldl_aorinsert_spec (aorinsert t k d) names d
  by_cases hk : k ∈ akeys t
  · rw [aorinsert_of_mem t k d hk] at hfold hext
    rw [aorinsert_of_mem t k d hk, hfold]
    refine restoreTable_append_ext t ext d ?_ ?_ (fun e he => (hext e he).1)
    · rw [akeys_append, List.nodup_append]
      exact ⟨hnd, hextnd, fun x hx hx2 => by
        obtain ⟨e, he, hee⟩ := List.mem_map.1 hx2
        exact (hext e he).2.1 (hee ▸ hx)⟩
    · exact fun e he => Nat.ne_of_lt (hdep e he)
  · rw [aorinsert_of_not_mem t k d hk] at hfold hext
    rw [aorinsert_of_not_mem t k d hk, hfold, List.append_assoc]
    refine restoreTable_append_ext t ((k, d) :: ext) d ?_ ?_ ?_
    · rw [akeys_append, List.nodup_append]
      refine ⟨hnd, ?_, ?_⟩
      · have hkc : akeys ((k, d) :: ext) = k :: akeys ext := rfl
        rw [hkc, List.nodup_cons]
        refine ⟨fun hmem => ?_, hextnd⟩
        obtain ⟨e, he, hee⟩ := List.mem_map.1 hmem
        have := (hext e he).2.1
        rw [akeys_append] at this
        simp [hee] at this
      · intro x hx hx2
        have hkc : akeys ((k, d) :: ext) = k :: akeys ext := rfl
        rw [hkc] at hx2
        rcases List.mem_cons.1 hx2 with rfl | hx2
        · exact hk hx
        · obtain ⟨e, he, hee⟩ := List.mem_map.1 hx2
          have := (hext e he).2.1
          rw [akeys_append] at this
          exact this (by simp [hee, hx])
    · exact fun e he => Nat.ne_of_lt (hdep e he)
    · intro e he
      rcases List.mem_cons.1 he with rfl | he
      · rfl
      · exact (hext e he).1

/-- Extend-then-restore is the identity (the algebra behind claim C4):
if the extended pair is fresh on both sides and every frontier entry has
depth strictly below the current depth, restoring the delta returned by
`create` recovers the original matcher state exactly. -/
theorem create_restore_id {m : DiGraphMatcher} {p h : String}
    {m' : DiGraphMatcher} {st : DiGMState}
    (hc : DiGMState.create m (some p) (some h) = Except.ok (m', st))
    (hp : p ∉ akeys m.core_1) (hh : h ∉ akeys m.core_2)
    (hd1 : ∀ e ∈ m.in_1, e.2 < m.core_1.length)
    (hd2 : ∀ e ∈ m.in_2, e.2 < m.core_1.length)
    (hd3 : ∀ e ∈ m.out_1, e.2 < m.core_1.length)
    (hd4 : ∀ e ∈ m.out_2, e.2 < m.core_1.length)
    (hn1 : (akeys m.in_1).Nodup) (hn2 : (akeys m.in_2).Nodup)
    (hn3 : (akeys m.out_1).Nodup) (hn4 : (akeys m.out_2).Nodup) :
    st.restore m' = m := by
  obtain ⟨n1, n2, o1, o2, _, _, _, _, hst, hm'⟩ := create_some_ok_spec hc
  subst hst
  subst hm'
  rw [restore_some_eq]
  have hc1 : aremove (ainsert m.core_1 p h) p = m.core_1 := by
    rw [ainsert_of_not_mem _ _ _ hp, aremove_append, aremove_of_not_mem _ _ hp]
    have : aremove [(p, h)] p = [] := by simp [aremove]
    rw [this, List.append_nil]
  have hc2 : aremove (ainsert m.core_2 h p) h = m.core_2 := by
    rw [ainsert_of_not_mem _ _ _ hh, aremove_append, aremove_of_not_mem _ _ hh]
    have : aremove [(h, p)] h = [] := by simp [aremove]
    rw [this, List.append_nil]
  simp only [hc1, hc2,
    table_roundtrip m.in_1 m.core_1.length n1 p hn1 hd1,
    table_roundtrip m.in_2 m.core_1.length n2 h hn2 hd2,
    table_roundtrip m.out_1 m.core_1.length o1 p hn3 hd3,
    table_roundtrip m.out_2 m.core_1.length o2 h hn4 hd4]

/-! ## The frozen host node order -/

theorem foldl_ainsert_fresh {α : Type} :
    ∀ (L acc : List (String × α)), (akeys (acc ++ L)).Nodup →
      L.foldl (fun a e => ainsert a e.1 e.2) acc = acc ++ L := by
  intro L
  induction L with
  | nil => intro acc _; simp
  | cons e L ih =>
    intro acc hnd
    rw [List.foldl_cons]
    have h1 : e.1 ∉ akeys acc := by
      rw [akeys_append] at hnd
      intro hm
      have := (List.nodup_append.1 hnd).2.2
      exact this hm (by simp)
    rw [ainsert_of_not_mem acc e.1 e.2 (by simpa using h1)]
    have h2 := ih (acc ++ [(e.1, e.2)]) (by
      simpa [akeys_append] using hnd)
    simpa using h2

theorem g2_node_order_eq (g1 g2 : DiGraph)
    (hnd : (akeys g2.nodes).Nodup) :
    (DiGraphMatcher.new g1 g2).g2_node_order =
      g2.get_nodes.enum.map (fun p => (p.2, p.1)) := by
  show (g2.get_nodes.enum.map (fun p => (p.2, p.1))).foldl
      (fun acc e => ainsert acc e.1 e.2) [] = _
  rw [foldl_ainsert_fresh _ []]
  · simp
  · have : akeys ([] ++ g2.get_nodes.enum.map (fun p => (p.2, p.1))) =
        g2.get_nodes := by
      rw [List.nil_append, akeys, List.map_map]
      have : (Prod.fst ∘ fun p : Nat × String => (p.2, p.1)) = Prod.snd := rfl
      rw [this, List.enum_map_snd]
    rw [this]
    exact hnd

theorem order_lookup_mem {g1 g2 : DiGraph} (hnd : (akeys g2.nodes).Nodup)
    {k : String} (hk : k ∈ akeys g2.nodes) :
    ∃ i, alookup (DiGraphMatcher.new g1 g2).g2_node_order k = some i ∧
      i < g2.node_count := by
  rw [g2_node_order_eq g1 g2 hnd]
  have hkm : k ∈ akeys (g2.get_nodes.enum.map (fun p => (p.2, p.1))) := by
    rw [akeys, List.map_map]
    have hcomp : (Prod.fst ∘ fun p : Nat × String => (p.2, p.1)) = Prod.snd := rfl
    rw [hcomp, List.enum_map_snd]
    exact hk
  obtain ⟨i, hi⟩ := Option.isSome_iff_exists.1 (alookup_isSome_of_mem hkm)
  refine ⟨i, hi, ?_⟩
  have hmem := mem_of_alookup_eq_some hi
  obtain ⟨p, hp, hpe⟩ := List.mem_map.1 hmem
  have hp1 : p.1 = i := by
    have := congrArg Prod.snd hpe
    simpa using this
  have hp2 : p.2 = k := by
    have := congrArg Prod.fst hpe
    simpa using this
  have hpm : (p.1, p.2) ∈ g2.get_nodes.enum := by simpa using hp
  have := List.mk_mem_enum_iff_getElem?.1 hpm
  have hlt := (List.getElem?_eq_some.1 this).1
  rw [hp1] at hlt
  simpa [DiGraph.node_count, DiGraph.get_nodes, akeys] using hlt

theorem order_lookup_inj {g1 g2 : DiGraph} (hnd : (akeys g2.nodes).Nodup)
    {k k' : String} {i : Nat}
    (h1 : alookup (DiGraphMatcher.new g1 g2).g2_node_order k = some i)
    (h2 : alookup (DiGraphMatcher.new g1 g2).g2_node_order k' = some i) :
    k = k' := by
  rw [g2_node_order_eq g1 g2 hnd] at h1 h2
  have hm1 := mem_of_alookup_eq_some h1
  have hm2 := mem_of_alookup_eq_some h2
  obtain ⟨p, hp, hpe⟩ := List.mem_map.1 hm1
  obtain ⟨q, hq, hqe⟩ := List.mem_map.1 hm2
  have hp1 : p.1 = i := by simpa using congrArg Prod.snd hpe
  have hp2 : p.2 = k := by simpa using congrArg Prod.fst hpe
  have hq1 : q.1 = i := by simpa using congrArg Prod.snd hqe
  have hq2 : q.2 = k' := by simpa using congrArg Prod.fst hqe
  have hpm : (i, k) ∈ g2.get_nodes.enum := by
    rw [← hp1, ← hp2]
    simpa using hp
  have hqm : (i, k') ∈ g2.get_nodes.enum := by
    rw [← hq1, ← hq2]
    simpa using hq
  have e1 := List.mk_mem_enum_iff_getElem?.1 hpm
  have e2 := List.mk_mem_enum_iff_getElem?.1 hqm
  rw [e1] at e2
  injection e2

/-! ## The argmin scan -/

theorem minOrderScan_ok (omap : List (String × Nat)) :
    ∀ (ks : List String) (acc : String × Nat),
      (∀ k ∈ ks, k ∈ akeys omap) →
      ∃ best, minOrderScan omap ks acc = Except.ok best := by
  intro ks
  induction ks with
  | nil => intro acc _; exact ⟨acc, rfl⟩
  | cons k rest ih =>
    intro acc hks
    obtain ⟨i, hi⟩ := Option.isSome_iff_exists.1
      (alookup_isSome_of_mem (hks k (by simp)))
    simp only [minOrderScan, hi]
    by_cases hlt : i < acc.2
    · rw [if_pos hlt]
      exact ih (k, i) (fun k2 h2 => hks k2 (by simp [h2]))
    · rw [if_neg hlt]
      exact ih acc (fun k2 h2 => hks k2 (by simp [h2]))

theorem minOrderScan_spec (omap : List (String × Nat)) :
    ∀ (ks : List String) (acc best : String × Nat),
      minOrderScan omap ks acc = Except.ok best →
      (best = acc ∨ (best.1 ∈ ks ∧ alookup omap best.1 = some best.2)) ∧
      best.2 ≤ acc.2 ∧
      (∀ k ∈ ks, ∀ v, alookup omap k = some v → best.2 ≤ v) := by
  intro ks
  induction ks with
  | nil =>
    intro acc best h
    rw [minOrderScan] at h
    have : acc = best := by simpa [pure, Except.pure] using h
    subst this
    exact ⟨Or.inl rfl, Nat.le_refl _, by simp⟩
  | cons k rest ih =>
    intro acc best h
    rw [minOrderScan] at h
    cases hk : alookup omap k with
    | none => rw [hk] at h; exact Except.noConfusion h
    | some i =>
      simp only [hk] at h
      by_cases hlt : i < acc.2
      · rw [if_pos hlt] at h
        obtain ⟨hb, hle, hall⟩ := ih (k, i) best h
        refine ⟨?_, ?_, ?_⟩
        · rcases hb with rfl | hb
          · exact Or.inr ⟨by simp, hk⟩
          · exact Or.inr ⟨by simp [hb.1], hb.2⟩
        · exact Nat.le_trans hle (Nat.le_of_lt hlt)
        · intro k2 hk2 v hv
          rcases List.mem_cons.1 hk2 with rfl | hk2
          · rw [hk] at hv
            injection hv with hv
            subst hv
            exact hle
          · exact hall k2 hk2 v hv
      · rw [if_neg hlt] at h
        obtain ⟨hb, hle, hall⟩ := ih acc best h
        refine ⟨?_, hle, ?_⟩
        · rcases hb with rfl | hb
          · exact Or.inl rfl
          · exact Or.inr ⟨by simp [hb.1], hb.2⟩
        · intro k2 hk2 v hv
          rcases List.mem_cons.1 hk2 with rfl | hk2
          · rw [hk] at hv
            injection hv with hv
            subst hv
            exact Nat.le_trans hle (Nat.le_of_not_lt hlt)
          · exact hall k2 hk2 v hv

theorem minOrderScan_mem (omap : List (String × Nat)) (ks : List String)
    (acc best : String × Nat) (h : minOrderScan omap ks acc = Except.ok best)
    (hex : ∃ k ∈ ks, ∃ v, alookup omap k = some v ∧ v < acc.2) :
    best.1 ∈ ks ∧ alookup omap best.1 = some best.2 := by
  obtain ⟨hb, _, hall⟩ := minOrderScan_spec omap ks acc best h
  rcases hb with rfl | hb
  · exfalso
    obtain ⟨k, hk, v, hv, hlt⟩ := hex
    exact Nat.not_lt.2 (hall k hk v hv) hlt
  · exact hb

/-! ## Candidate generator characterization -/

theorem nodup_subset_length {l1 l2 : List String} (h : l1.Nodup)
    (hs : l1 ⊆ l2) : l1.length ≤ l2.length := by
  calc l1.length = l1.toFinset.card := (List.toFinset_card_of_nodup h).symm
    _ ≤ l2.toFinset.card := Finset.card_le_card (fun x hx => by
        simp at hx ⊢
        exact hs hx)
    _ ≤ l2.length := l2.toFinset_card_le

theorem candidate_paris_iter_eq (m : DiGraphMatcher) :
    m.candidate_paris_iter =
      (if 0 < m.tout1.length ∧ 0 < m.tout2.length then do
        let best ← minOrderScan m.g2_node_order m.tout2 (emptyName, usizeMax)
        pure (m.tout1.map (fun name1 => (name1, best.1)))
      else if 0 < m.tin1.length ∧ 0 < m.tin2.length then do
        let best ← minOrderScan m.g2_node_order m.tin2 (emptyName, usizeMax)
        pure (m.tin1.map (fun name1 => (name1, best.1)))
      else do
        let best ← minOrderScan m.g2_node_order
          (m.g2_nodes.filter (fun name => ¬ name ∈ akeys m.core_2))
          (emptyName, usizeMax)
        pure ((m.g1_nodes.filter (fun name1 =>
          ¬ acontains m.core_1 name1)).map (fun name1 => (name1, best.1)))) := by
  rfl

theorem candidate_tout_branch {m : DiGraphMatcher}
    (h1 : m.tout1 ≠ []) (h2 : m.tout2 ≠ [])
    (hord : ∀ k ∈ m.tout2, ∃ i,
      alookup m.g2_node_order k = some i ∧ i < usizeMax) :
    ∃ best : String × Nat,
      minOrderScan m.g2_node_order m.tout2 (emptyName, usizeMax) =
        Except.ok best ∧
      best.1 ∈ m.tout2 ∧
      alookup m.g2_node_order best.1 = some best.2 ∧
      (∀ k ∈ m.tout2, ∀ v, alookup m.g2_node_order k = some v →
        best.2 ≤ v) ∧
      m.candidate_paris_iter =
        Except.ok (m.tout1.map (fun name1 => (name1, best.1))) := by
  obtain ⟨best, hbest⟩ := minOrderScan_ok m.g2_node_order m.tout2
    (emptyName, usizeMax) (fun k hk => mem_akeys_of_alookup (hord k hk).choose_spec.1)
  have hex : ∃ k ∈ m.tout2, ∃ v,
      alookup m.g2_node_order k = some v ∧ v < (emptyName, usizeMax).2 := by
    obtain ⟨k0, hk0⟩ := List.exists_mem_of_ne_nil m.tout2 h2
    obtain ⟨i, hi, hlt⟩ := hord k0 hk0
    exact ⟨k0, hk0, i, hi, hlt⟩
  obtain ⟨hmem, hlook⟩ := minOrderScan_mem _ _ _ _ hbest hex
  obtain ⟨_, _, hall⟩ := minOrderScan_spec _ _ _ _ hbest
  refine ⟨best, hbest, hmem, hlook, hall, ?_⟩
  rw [candidate_paris_iter_eq]
  rw [if_pos ⟨List.length_pos.2 h1, List.length_pos.2 h2⟩]
  rw [except_bind_ok_forward hbest]
  rfl

theorem candidate_pairs_mem {m : DiGraphMatcher} {pairs : List (String × String)}
    (hok : m.candidate_paris_iter = Except.ok pairs)
    {p h : String} (hmem : (p, h) ∈ pairs)
    (h2a : ∀ k ∈ m.tout2, ∃ i,
      alookup m.g2_node_order k = some i ∧ i < usizeMax)
    (h2b : ∀ k ∈ m.tin2, ∃ i,
      alookup m.g2_node_order k = some i ∧ i < usizeMax)
    (h2c : ∀ k ∈ m.g2_nodes, ∃ i,
      alookup m.g2_node_order k = some i ∧ i < usizeMax)
    (hdiff : m.g2_nodes.filter (fun name => ¬ name ∈ akeys m.core_2) ≠ []) :
    (p ∈ m.tout1 ∨ p ∈ m.tin1 ∨
      (p ∈ m.g1_nodes ∧ ¬ p ∈ akeys m.core_1)) ∧
    (h ∈ m.tout2 ∨ h ∈ m.tin2 ∨
      (h ∈ m.g2_nodes ∧ ¬ h ∈ akeys m.core_2)) := by
  rw [candidate_paris_iter_eq] at hok
  by_cases hb1 : 0 < m.tout1.length ∧ 0 < m.tout2.length
  · rw [if_pos hb1] at hok
    cases hscan : minOrderScan m.g2_node_order m.tout2 (emptyName, usizeMax) with
    | error e =>
      rw [except_bind_error hscan] at hok
      exact Except.noConfusion hok
    | ok best =>
      rw [except_bind_ok_forward hscan] at hok
      have hpairs : pairs = m.tout1.map (fun name1 => (name1, best.1)) := by
        simpa [pure, Except.pure] using hok.symm
      subst hpairs
      obtain ⟨name1, hn1, hne⟩ := List.mem_map.1 hmem
      have hp : p = name1 := by simpa using (congrArg Prod.fst hne).symm
      have hh : h = best.1 := by simpa using (congrArg Prod.snd hne).symm
      subst hp
      subst hh
      have hex : ∃ k ∈ m.tout2, ∃ v,
          alookup m.g2_node_order k = some v ∧ v < (emptyName, usizeMax).2 := by
        obtain ⟨k0, hk0⟩ := List.exists_mem_of_ne_nil m.tout2
          (List.length_pos.1 hb1.2)
        obtain ⟨i, hi, hlt⟩ := h2a k0 hk0
        exact ⟨k0, hk0, i, hi, hlt⟩
      obtain ⟨hbm, _⟩ := minOrderScan_mem _ _ _ _ hscan hex
      exact ⟨Or.inl hn1, Or.inl hbm⟩
  · rw [if_neg hb1] at hok
    by_cases hb2 : 0 < m.tin1.length ∧ 0 < m.tin2.length
    · rw [if_pos hb2] at hok
      cases hscan : minOrderScan m.g2_node_order m.tin2 (emptyName, usizeMax) with
      | error e =>
        rw [except_bind_error hscan] at hok
        exact Except.noConfusion hok
      | ok best =>
        rw [except_bind_ok_forward hscan] at hok
        have hpairs : pairs = m.tin1.map (fun name1 => (name1, best.1)) := by
          simpa [pure, Except.pure] using hok.symm
        subst hpairs
        obtain ⟨name1, hn1, hne⟩ := List.mem_map.1 hmem
        have hp : p = name1 := by simpa using (congrArg Prod.fst hne).symm
        have hh : h = best.1 := by simpa using (congrArg Prod.snd hne).symm
        subst hp
        subst hh
        have hex : ∃ k ∈ m.tin2, ∃ v,
            alookup m.g2_node_order k = some v ∧ v < (emptyName, usizeMax).2 := by
          obtain ⟨k0, hk0⟩ := List.exists_mem_of_ne_nil m.tin2
            (List.length_pos.1 hb2.2)
          obtain ⟨i, hi, hlt⟩ := h2b k0 hk0
          exact ⟨k0, hk0, i, hi, hlt⟩
        obtain ⟨hbm, _⟩ := minOrderScan_mem _ _ _ _ hscan hex
        exact ⟨Or.inr (Or.inl hn1), Or.inr (Or.inl hbm)⟩
    · rw [if_neg hb2] at hok
      cases hscan : minOrderScan m.g2_node_order
          (m.g2_nodes.filter (fun name => ¬ name ∈ akeys m.core_2))
          (emptyName, usizeMax) with
      | error e =>
        rw [except_bind_error hscan] at hok
        exact Except.noConfusion hok
      | ok best =>
        rw [except_bind_ok_forward hscan] at hok
        have hpairs : pairs = (m.g1_nodes.filter (fun name1 =>
            ¬ acontains m.core_1 name1)).map (fun name1 => (name1, best.1)) := by
          simpa [pure, Except.pure] using hok.symm
        subst hpairs
        obtain ⟨name1, hn1, hne⟩ := List.mem_map.1 hmem
        have hp : p = name1 := by simpa using (congrArg Prod.fst hne).symm
        have hh : h = best.1 := by simpa using (congrArg Prod.snd hne).symm
        subst hp
        subst hh
        have hex : ∃ k ∈ m.g2_nodes.filter
            (fun name => ¬ name ∈ akeys m.core_2), ∃ v,
            alookup m.g2_node_order k = some v ∧ v < (emptyName, usizeMax).2 := by
          obtain ⟨k0, hk0⟩ := List.exists_mem_of_ne_nil _ hdiff
          obtain ⟨i, hi, hlt⟩ := h2c k0 (List.mem_filter.1 hk0).1
          exact ⟨k0, hk0, i, hi, hlt⟩
        obtain ⟨hbm, _⟩ := minOrderScan_mem _ _ _ _ hscan hex
        have hf := List.mem_filter.1 hbm
        have hpf := List.mem_filter.1 hn1
        refine ⟨Or.inr (Or.inr ⟨hpf.1, ?_⟩), Or.inr (Or.inr ⟨hf.1, ?_⟩)⟩
        · have := hpf.2
          simp [acontains_iff] at this
          exact this
        · have := hf.2
          simp at this
          exact this

/-! ## Well-formedness extraction and the frontier collect passes -/

theorem wf_nodup {g : DiGraph} (h : g.WellFormed) : (akeys g.nodes).Nodup := h.1

theorem wf_nameMatch {g : DiGraph} (h : g.WellFormed) : NameMatch g :=
  fun e he => (h.2.1 e he).1

theorem wf_adjSetLike {g : DiGraph} (h : g.WellFormed) : AdjSetLike g :=
  fun e he => ⟨(h.2.1 e he).2.1, (h.2.1 e he).2.2⟩

theorem wf_closed {g : DiGraph} (h : g.WellFormed) : g.Closed := h.2.2.1

theorem closed_predNames {g : DiGraph} (hc : g.Closed) {c q : String}
    (hq : q ∈ g.predNames c) : q ∈ akeys g.nodes := by
  rw [DiGraph.predNames, DiGraph.nodeRec] at hq
  cases hl : alookup g.nodes c with
  | none => rw [hl] at hq; simp [DiNode.new] at hq
  | some nd =>
    rw [hl] at hq
    exact (hc (c, nd) (mem_of_alookup_eq_some hl)).1 q (by simpa using hq)

theorem closed_succNames {g : DiGraph} (hc : g.Closed) {c q : String}
    (hq : q ∈ g.succNames c) : q ∈ akeys g.nodes := by
  rw [DiGraph.succNames, DiGraph.nodeRec] at hq
  cases hl : alookup g.nodes c with
  | none => rw [hl] at hq; simp [DiNode.new] at hq
  | some nd =>
    rw [hl] at hq
    exact (hc (c, nd) (mem_of_alookup_eq_some hl)).2 q (by simpa using hq)

theorem predecessors_ok_of_closed {g : DiGraph} (hc : g.Closed)
    {c : String} (hk : c ∈ akeys g.nodes) :
    g.predecessors c = Except.ok ((g.predNames c).map g.nodeRec) := by
  rw [DiGraph.predecessors]
  obtain ⟨nd, hnd⟩ := Option.isSome_iff_exists.1 (alookup_isSome_of_mem hk)
  have hgn : g.get_node c = some nd := hnd
  simp only [hgn]
  have hpn : g.predNames c = nd.predecessors := by
    simp [DiGraph.predNames, DiGraph.nodeRec, hnd]
  rw [← hpn]
  exact mapM_resolve_of_closed (fun q hq => closed_predNames hc hq)

theorem successors_ok_of_closed {g : DiGraph} (hc : g.Closed)
    {c : String} (hk : c ∈ akeys g.nodes) :
    g.successors c = Except.ok ((g.succNames c).map g.nodeRec) := by
  rw [DiGraph.successors]
  obtain ⟨nd, hnd⟩ := Option.isSome_iff_exists.1 (alookup_isSome_of_mem hk)
  have hgn : g.get_node c = some nd := hnd
  simp only [hgn]
  have hsn : g.succNames c = nd.successors := by
    simp [DiGraph.succNames, DiGraph.nodeRec, hnd]
  rw [← hsn]
  exact mapM_resolve_of_closed (fun q hq => closed_succNames hc hq)

theorem edge_count_ok_of_closed {g : DiGraph} (hc : g.Closed)
    (hnm : NameMatch g) {c : String} (hk : c ∈ akeys g.nodes) (v : String) :
    g.edge_count c v = Except.ok (ecount g c v) := by
  rw [DiGraph.edge_count]
  rw [except_bind_ok_forward (successors_ok_of_closed hc hk)]
  rw [ecount]
  have : ((g.succNames c).map g.nodeRec).filter (fun s => s.get_name = v) =
      ((g.succNames c).filter (fun s => s = v)).map g.nodeRec := by
    rw [List.filter_map]
    congr 1
    apply List.filter_congr
    intro q _
    simp [Function.comp, DiNode.get_name, nodeRec_name_default hnm q]
  rw [this, List.length_map]
  rfl

theorem sinsert_fold_nodup (nodes : List DiNode) (core : List (String × String)) :
    ∀ acc : List String, acc.Nodup →
      (nodes.foldl (fun acc2 node =>
        if acontains core node.get_name then acc2
        else sinsert acc2 node.get_name) acc).Nodup := by
  induction nodes with
  | nil => intro acc h; simpa using h
  | cons nd rest ih =>
    intro acc h
    rw [List.foldl_cons]
    by_cases hc : acontains core nd.get_name
    · rw [if_pos hc]
      exact ih acc h
    · rw [if_neg hc]
      exact ih _ (nodup_sinsert _ _ h)

theorem sinsert_fold_mem (nodes : List DiNode) (core : List (String × String)) :
    ∀ (acc : List String) (k : String),
      k ∈ nodes.foldl (fun acc2 node =>
        if acontains core node.get_name then acc2
        else sinsert acc2 node.get_name) acc ↔
      k ∈ acc ∨ ∃ nd ∈ nodes, k = nd.get_name ∧ ¬ k ∈ akeys core := by
  induction nodes with
  | nil => intro acc k; simp
  | cons nd rest ih =>
    intro acc k
    rw [List.foldl_cons]
    by_cases hc : acontains core nd.get_name
    · rw [if_pos hc, ih]
      constructor
      · rintro (hk | hk)
        · exact Or.inl hk
        · exact Or.inr (by
            obtain ⟨nd2, h2, h3, h4⟩ := hk
            exact ⟨nd2, by simp [h2], h3, h4⟩)
      · rintro (hk | ⟨nd2, h2, h3, h4⟩)
        · exact Or.inl hk
        · rcases List.mem_cons.1 h2 with rfl | h2
          · exact absurd ((acontains_iff _ _).1 hc) (h3 ▸ h4)
          · exact Or.inr ⟨nd2, h2, h3, h4⟩
    · rw [if_neg hc, ih, mem_sinsert]
      constructor
      · rintro (⟨hk | rfl⟩ | hk)
        · exact Or.inl hk
        · refine Or.inr ⟨nd, by simp, rfl, ?_⟩
          intro hm
          exact hc ((acontains_iff _ _).2 hm)
        · obtain ⟨nd2, h2, h3, h4⟩ := hk
          exact Or.inr ⟨nd2, by simp [h2], h3, h4⟩
      · rintro (hk | ⟨nd2, h2, h3, h4⟩)
        · exact Or.inl (Or.inl hk)
        · rcases List.mem_cons.1 h2 with rfl | h2
          · exact Or.inl (Or.inr h3)
          · exact Or.inr ⟨nd2, h2, h3, h4⟩

/-- The collect pass succeeds over a closed graph and returns exactly the
unmapped adjacent names. -/
theorem collectAdjacentNew_ok_spec
    (adj : String → Except GraphError (List DiNode))
    (core : List (String × String)) (f : String → List String)
    (hadj : ∀ c ∈ akeys core, adj c = Except.ok ((f c).map (fun q =>
      DiNode.new q none)) ∨
      ∃ l, adj c = Except.ok l ∧ l.map DiNode.get_name = f c) :
    ∃ names, collectAdjacentNew adj core = Except.ok names ∧
      names.Nodup ∧
      (∀ k, k ∈ names ↔
        (∃ c ∈ akeys core, k ∈ f c) ∧ ¬ k ∈ akeys core) := by
  rw [collectAdjacentNew]
  have main : ∀ (ks : List String)
      (hks : ∀ c ∈ ks, ∃ l, adj c = Except.ok l ∧
        l.map DiNode.get_name = f c)
      (acc : List String) (hacc : acc.Nodup),
      ∃ names, (ks.foldlM (fun acc name => do
        let nodes ← adj name
        pure (nodes.foldl (fun acc2 node =>
          if acontains core node.get_name then acc2
          else sinsert acc2 node.get_name) acc)) acc) = Except.ok names ∧
      names.Nodup ∧
      (∀ k, k ∈ names ↔ k ∈ acc ∨
        ((∃ c ∈ ks, k ∈ f c) ∧ ¬ k ∈ akeys core)) := by
    intro ks
    induction ks with
    | nil =>
      intro _ acc hacc
      refine ⟨acc, rfl, hacc, ?_⟩
      intro k
      simp
    | cons c rest ih =>
      intro hks acc hacc
      obtain ⟨l, hl, hlf⟩ := hks c (by simp)
      rw [List.foldlM_cons, except_bind_ok_forward hl]
      have step := except_bind_ok_forward
        (x := (pure (l.foldl (fun acc2 node =>
          if acontains core node.get_name then acc2
          else sinsert acc2 node.get_name) acc) : Except GraphError _))
        (f := fun b => rest.foldlM (fun acc name => do
          let nodes ← adj name
          pure (nodes.foldl (fun acc2 node =>
            if acontains core node.get_name then acc2
            else sinsert acc2 node.get_name) acc)) b) rfl
      rw [step]
      obtain ⟨names, hnames, hnd, hmem⟩ := ih
        (fun c2 h2 => hks c2 (by simp [h2]))
        (l.foldl (fun acc2 node =>
          if acontains core node.get_name then acc2
          else sinsert acc2 node.get_name) acc)
        (sinsert_fold_nodup l core acc hacc)
      refine ⟨names, hnames, hnd, ?_⟩
      intro k
      rw [hmem k, sinsert_fold_mem l core acc k]
      constructor
      · rintro ((hk | hk) | hk)
        · exact Or.inl hk
        · obtain ⟨nd, hnd2, rfl, h4⟩ := hk
          refine Or.inr ⟨⟨c, by simp, ?_⟩, h4⟩
          rw [← hlf]
          exact List.mem_map_of_mem DiNode.get_name hnd2
        · obtain ⟨⟨c2, hc2, hkf⟩, h4⟩ := hk
          exact Or.inr ⟨⟨c2, by simp [hc2], hkf⟩, h4⟩
      · rintro (hk | ⟨⟨c2, hc2, hkf⟩, h4⟩)
        · exact Or.inl (Or.inl hk)
        · rcases List.mem_cons.1 hc2 with rfl | hc2
          · refine Or.inl (Or.inr ?_)
            rw [← hlf] at hkf
            obtain ⟨nd, hnd2, hne⟩ := List.mem_map.1 hkf
            exact ⟨nd, hnd2, hne.symm, h4⟩
          · exact Or.inr ⟨⟨c2, hc2, hkf⟩, h4⟩
  have hks : ∀ c ∈ akeys core, ∃ l, adj c = Except.ok l ∧
      l.map DiNode.get_name = f c := by
    intro c hcm
    rcases hadj c hcm with h | h
    · refine ⟨(f c).map (fun q => DiNode.new q none), h, ?_⟩
      rw [List.map_map]
      have : (DiNode.get_name ∘ fun q => DiNode.new q none) = id := rfl
      rw [this, List.map_id]
    · exact h
  obtain ⟨names, h1, h2, h3⟩ := main (akeys core) hks [] List.nodup_nil
  refine ⟨names, h1, h2, ?_⟩
  intro k
  rw [h3 k]
  simp

/-! ## Invariant preservation -/

theorem exists_val_of_mem_akeys {α : Type} {l : List (String × α)} {k : String}
    (h : k ∈ akeys l) : ∃ v, (k, v) ∈ l := by
  obtain ⟨v, hv⟩ := Option.isSome_iff_exists.1 (alookup_isSome_of_mem h)
  exact ⟨v, mem_of_alookup_eq_some hv⟩

theorem candidate_facts {g1 g2 : DiGraph} {m : DiGraphMatcher}
    (hwf1 : g1.WellFormed) (hwf2 : g2.WellFormed)
    (hsz : g2.node_count ≤ usizeMax)
    (hinv : MatcherInv g1 g2 m) (hne : m.core_1.length ≠ g2.node_count)
    {pairs : List (String × String)}
    (hok : m.candidate_paris_iter = Except.ok pairs)
    {p h : String} (hmem : (p, h) ∈ pairs) :
    p ∈ akeys g1.nodes ∧ p ∉ akeys m.core_1 ∧
    h ∈ akeys g2.nodes ∧ h ∉ akeys m.core_2 := by
  have horder : ∀ k ∈ akeys g2.nodes, ∃ i,
      alookup m.g2_node_order k = some i ∧ i < usizeMax := by
    intro k hk
    rw [hinv.hord]
    obtain ⟨i, hi, hlt⟩ := @order_lookup_mem g1 g2 (wf_nodup hwf2) k hk
    exact ⟨i, hi, Nat.lt_of_lt_of_le hlt hsz⟩
  have hsub2k : ∀ k, k ∈ akeys m.core_2 → k ∈ akeys g2.nodes := by
    intro k hk
    obtain ⟨v, hv⟩ := exists_val_of_mem_akeys hk
    exact hinv.hsub2 (k, v) hv
  have hsub1k : ∀ k, k ∈ akeys m.core_1 → k ∈ akeys g1.nodes := by
    intro k hk
    obtain ⟨v, hv⟩ := exists_val_of_mem_akeys hk
    exact hinv.hsub1 (k, v) hv
  have hout2sub : ∀ k ∈ akeys m.out_2, k ∈ akeys g2.nodes := by
    intro k hk
    rcases (hinv.hout2 k).1 hk with hk2 | ⟨c, hc, hks⟩
    · exact hsub2k k hk2
    · exact closed_succNames (wf_closed hwf2) hks
  have hin2sub : ∀ k ∈ akeys m.in_2, k ∈ akeys g2.nodes := by
    intro k hk
    rcases (hinv.hin2 k).1 hk with hk2 | ⟨c, hc, hks⟩
    · exact hsub2k k hk2
    · exact closed_predNames (wf_closed hwf2) hks
  have hout1sub : ∀ k ∈ akeys m.out_1, k ∈ akeys g1.nodes := by
    intro k hk
    rcases (hinv.hout1 k).1 hk with hk2 | ⟨c, hc, hks⟩
    · exact hsub1k k hk2
    · exact closed_succNames (wf_closed hwf1) hks
  have hin1sub : ∀ k ∈ akeys m.in_1, k ∈ akeys g1.nodes := by
    intro k hk
    rcases (hinv.hin1 k).1 hk with hk2 | ⟨c, hc, hks⟩
    · exact hsub1k k hk2
    · exact closed_predNames (wf_closed hwf1) hks
  have h2a : ∀ k ∈ m.tout2, ∃ i,
      alookup m.g2_node_order k = some i ∧ i < usizeMax := by
    intro k hk
    exact horder k (hout2sub k (List.mem_filter.1 hk).1)
  have h2b : ∀ k ∈ m.tin2, ∃ i,
      alookup m.g2_node_order k = some i ∧ i < usizeMax := by
    intro k hk
    exact horder k (hin2sub k (List.mem_filter.1 hk).1)
  have hg2nodes : ∀ k, k ∈ m.g2_nodes ↔ k ∈ akeys g2.nodes := by
    intro k
    rw [hinv.hg2n]
    show k ∈ hsetOf g2.get_nodes ↔ _
    rw [mem_hsetOf]
    rfl
  have h2c : ∀ k ∈ m.g2_nodes, ∃ i,
      alookup m.g2_node_order k = some i ∧ i < usizeMax := by
    intro k hk
    exact horder k ((hg2nodes k).1 hk)
  have hlt : m.core_2.length < g2.node_count := by
    have hle : m.core_2.length ≤ g2.node_count := by
      have := @nodup_subset_length (akeys m.core_2) (akeys g2.nodes)
        hinv.hnd2 (fun k hk => hsub2k k hk)
      simpa [DiGraph.node_count, akeys] using this
    rcases Nat.lt_or_ge m.core_2.length g2.node_count with h2 | h2
    · exact h2
    · exact absurd (Nat.le_antisymm hle h2)
        (by rw [← hinv.hlen]; exact hne)
  have hdiff : m.g2_nodes.filter (fun name => ¬ name ∈ akeys m.core_2) ≠ [] := by
    have hex : ∃ b ∈ akeys g2.nodes, b ∉ akeys m.core_2 := by
      by_contra hcon
      push_neg at hcon
      have hsub : akeys g2.nodes ⊆ akeys m.core_2 := fun b hb => hcon b hb
      have := nodup_subset_length (wf_nodup hwf2) hsub
      have hlen2 : (akeys g2.nodes).length = g2.node_count := by
        simp [DiGraph.node_count, akeys]
      have hlen3 : (akeys m.core_2).length = m.core_2.length := by
        simp [akeys]
      rw [hlen2, hlen3] at this
      exact Nat.not_lt.2 this hlt
    obtain ⟨b, hb1, hb2⟩ := hex
    have hbm : b ∈ m.g2_nodes.filter (fun name => ¬ name ∈ akeys m.core_2) :=
      List.mem_filter.2 ⟨(hg2nodes b).2 hb1, by simpa using hb2⟩
    exact List.ne_nil_of_mem hbm
  obtain ⟨hps, hhs⟩ := candidate_pairs_mem hok hmem h2a h2b h2c hdiff
  refine ⟨?_, ?_, ?_, ?_⟩
  · rcases hps with hp | hp | hp
    · exact hout1sub p (List.mem_filter.1 hp).1
    · exact hin1sub p (List.mem_filter.1 hp).1
    · have := hp.1
      rw [hinv.hg1n] at this
      have h2 := mem_hsetOf g1.get_nodes p
      rw [DiGraph.get_nodes] at h2
      exact h2.1 this
  · rcases hps with hp | hp | hp
    · have := (List.mem_filter.1 hp).2
      simp [acontains_iff] at this
      exact this
    · have := (List.mem_filter.1 hp).2
      simp [acontains_iff] at this
      exact this
    · exact hp.2
  · rcases hhs with hh | hh | hh
    · exact hout2sub h (List.mem_filter.1 hh).1
    · exact hin2sub h (List.mem_filter.1 hh).1
    · exact (hg2nodes h).1 hh.1
  · rcases hhs with hh | hh | hh
    · have := (List.mem_filter.1 hh).2
      simp [acontains_iff] at this
      exact this
    · have := (List.mem_filter.1 hh).2
      simp [acontains_iff] at this
      exact this
    · exact hh.2

theorem map_get_name_nodeRec (g : DiGraph) (hnm : NameMatch g)
    (l : List String) : (l.map g.nodeRec).map DiNode.get_name = l := by
  rw [List.map_map]
  have hfun : (DiNode.get_name ∘ g.nodeRec) = fun q => q :=
    funext (fun q => nodeRec_name_default hnm q)
  rw [hfun]
  exact List.map_id' l

theorem table_step_spec
    (adj : String → Except GraphError (List DiNode)) (f : String → List String)
    (core : List (String × String)) (x other : String)
    (tbl : List (String × Nat)) (names : List String) (d : Nat)
    (hx2 : x ∉ akeys core)
    (hadj : ∀ c ∈ akeys (ainsert core x other), ∃ l,
      adj c = Except.ok l ∧ l.map DiNode.get_name = f c)
    (hcol : collectAdjacentNew adj (ainsert core x other) = Except.ok names)
    (hchar : ∀ k, k ∈ akeys tbl ↔
      (k ∈ akeys core ∨ ∃ c ∈ akeys core, k ∈ f c))
    (hdep : ∀ e ∈ tbl, e.2 < d) (hnd : (akeys tbl).Nodup) :
    (∀ k, k ∈ akeys (names.foldl (fun t name => aorinsert t name d)
        (aorinsert tbl x d)) ↔
      (k ∈ akeys (ainsert core x other) ∨
        ∃ c ∈ akeys (ainsert core x other), k ∈ f c)) ∧
    (∀ e ∈ names.foldl (fun t name => aorinsert t name d)
        (aorinsert tbl x d), e.2 < d + 1) ∧
    (akeys (names.foldl (fun t name => aorinsert t name d)
        (aorinsert tbl x d))).Nodup := by
  obtain ⟨names2, hcol2, hnd2, hmem2⟩ :=
    collectAdjacentNew_ok_spec adj (ainsert core x other) f
      (fun c hc => Or.inr (hadj c hc))
  have hne : names = names2 := by
    rw [hcol] at hcol2
    injection hcol2
  subst hne
  have hcore' : ∀ k, k ∈ akeys (ainsert core x other) ↔
      (k ∈ akeys core ∨ k = x) := by
    intro k
    rw [ainsert_of_not_mem core x other hx2, akeys_append]
    have hs : akeys [(x, other)] = [x] := rfl
    rw [hs]
    simp
  refine ⟨?_, ?_, ?_⟩
  · intro k
    rw [mem_akeys_foldl_aorinsert, mem_akeys_aorinsert]
    constructor
    · rintro (⟨hk | rfl⟩ | hk)
      · rcases (hchar k).1 hk with hk2 | ⟨c, hc, hcf⟩
        · exact Or.inl ((hcore' k).2 (Or.inl hk2))
        · exact Or.inr ⟨c, (hcore' c).2 (Or.inl hc), hcf⟩
      · exact Or.inl ((hcore' k).2 (Or.inr rfl))
      · obtain ⟨⟨c, hc, hcf⟩, _⟩ := (hmem2 k).1 hk
        exact Or.inr ⟨c, hc, hcf⟩
    · rintro (hk | ⟨c, hc, hcf⟩)
      · rcases (hcore' k).1 hk with hk2 | rfl
        · exact Or.inl (Or.inl ((hchar k).2 (Or.inl hk2)))
        · exact Or.inl (Or.inr rfl)
      · by_cases hkc : k ∈ akeys (ainsert core x other)
        · rcases (hcore' k).1 hkc with hk2 | rfl
          · exact Or.inl (Or.inl ((hchar k).2 (Or.inl hk2)))
          · exact Or.inl (Or.inr rfl)
        · exact Or.inr ((hmem2 k).2 ⟨⟨c, hc, hcf⟩, hkc⟩)
  · intro e he
    rcases mem_of_foldl_aorinsert he with he2 | he2
    · rcases mem_aorinsert he2 with he3 | he3
      · exact Nat.lt_succ_of_lt (hdep e he3)
      · rw [he3]
        exact Nat.lt_succ_self d
    · rw [he2]
      exact Nat.lt_succ_self d
  · exact nodup_akeys_foldl_aorinsert (nodup_akeys_aorinsert tbl x d hnd)

theorem alookup_append {α : Type} (l1 l2 : List (String × α)) (k : String) :
    alookup (l1 ++ l2) k = (alookup l1 k).or (alookup l2 k) := by
  induction l1 with
  | nil => simp [alookup]
  | cons e rest ih =>
    obtain ⟨k0, v0⟩ := e
    by_cases hk : k0 = k <;> simp [alookup, hk, ih]

theorem inv_create_step {g1 g2 : DiGraph} {m m' : DiGraphMatcher}
    {st : DiGMState} {p h : String}
    (hwf1 : g1.WellFormed) (hwf2 : g2.WellFormed)
    (hinv : MatcherInv g1 g2 m)
    (hp1 : p ∈ akeys g1.nodes) (hp2 : p ∉ akeys m.core_1)
    (hh1 : h ∈ akeys g2.nodes) (hh2 : h ∉ akeys m.core_2)
    (hc : DiGMState.create m (some p) (some h) = Except.ok (m', st)) :
    MatcherInv g1 g2 m' := by
  obtain ⟨n1, n2, o1, o2, hc1, hc2, hc3, hc4, hst, hm'⟩ := create_some_ok_spec hc
  have hg1 := hinv.hg1
  have hg2 := hinv.hg2
  have hsub1k : ∀ k, k ∈ akeys m.core_1 → k ∈ akeys g1.nodes := by
    intro k hk
    obtain ⟨v, hv⟩ := exists_val_of_mem_akeys hk
    exact hinv.hsub1 (k, v) hv
  have hsub2k : ∀ k, k ∈ akeys m.core_2 → k ∈ akeys g2.nodes := by
    intro k hk
    obtain ⟨v, hv⟩ := exists_val_of_mem_akeys hk
    exact hinv.hsub2 (k, v) hv
  have hadj1p : ∀ c ∈ akeys (ainsert m.core_1 p h), ∃ l,
      m.g1.predecessors c = Except.ok l ∧
      l.map DiNode.get_name = g1.predNames c := by
    intro c hcm
    have hcg : c ∈ akeys g1.nodes := by
      rw [ainsert_of_not_mem _ _ _ hp2, akeys_append] at hcm
      rcases List.mem_append.1 hcm with hcm | hcm
      · exact hsub1k c hcm
      · have : c = p := by simpa using hcm
        rw [this]
        exact hp1
    refine ⟨(g1.predNames c).map g1.nodeRec, ?_, ?_⟩
    · rw [hg1]
      exact predecessors_ok_of_closed (wf_closed hwf1) hcg
    · exact map_get_name_nodeRec g1 (wf_nameMatch hwf1) _
  have hadj1s : ∀ c ∈ akeys (ainsert m.core_1 p h), ∃ l,
      m.g1.successors c = Except.ok l ∧
      l.map DiNode.get_name = g1.succNames c := by
    intro c hcm
    have hcg : c ∈ akeys g1.nodes := by
      rw [ainsert_of_not_mem _ _ _ hp2, akeys_append] at hcm
      rcases List.mem_append.1 hcm with hcm | hcm
      · exact hsub1k c hcm
      · have : c = p := by simpa using hcm
        rw [this]
        exact hp1
    refine ⟨(g1.succNames c).map g1.nodeRec, ?_, ?_⟩
    · rw [hg1]
      exact successors_ok_of_closed (wf_closed hwf1) hcg
    · exact map_get_name_nodeRec g1 (wf_nameMatch hwf1) _
  have hadj2p : ∀ c ∈ akeys (ainsert m.core_2 h p), ∃ l,
      m.g2.predecessors c = Except.ok l ∧
      l.map DiNode.get_name = g2.predNames c := by
    intro c hcm
    have hcg : c ∈ akeys g2.nodes := by
      rw [ainsert_of_not_mem _ _ _ hh2, akeys_append] at hcm
      rcases List.mem_append.1 hcm with hcm | hcm
      · exact hsub2k c hcm
      · have : c = h := by simpa using hcm
        rw [this]
        exact hh1
    refine ⟨(g2.predNames c).map g2.nodeRec, ?_, ?_⟩
    · rw [hg2]
      exact predecessors_ok_of_closed (wf_closed hwf2) hcg
    · exact map_get_name_nodeRec g2 (wf_nameMatch hwf2) _
  have hadj2s : ∀ c ∈ akeys (ainsert m.core_2 h p), ∃ l,
      m.g2.successors c = Except.ok l ∧
      l.map DiNode.get_name = g2.succNames c := by
    intro c hcm
    have hcg : c ∈ akeys g2.nodes := by
      rw [ainsert_of_not_mem _ _ _ hh2, akeys_append] at hcm
      rcases List.mem_append.1 hcm with hcm | hcm
      · exact hsub2k c hcm
      · have : c = h := by simpa using hcm
        rw [this]
        exact hh1
    refine ⟨(g2.succNames c).map g2.nodeRec, ?_, ?_⟩
    · rw [hg2]
      exact successors_ok_of_closed (wf_closed hwf2) hcg
    · exact map_get_name_nodeRec g2 (wf_nameMatch hwf2) _
  have hlen2 : m.core_2.length = m.core_1.length := hinv.hlen.symm
  have t1 := table_step_spec m.g1.predecessors (g1.predNames) m.core_1 p h
    m.in_1 n1 m.core_1.length hp2 hadj1p hc1 hinv.hin1 hinv.hdin1 hinv.hndin1
  have t2 := table_step_spec m.g2.predecessors (g2.predNames) m.core_2 h p
    m.in_2 n2 m.core_1.length hh2 hadj2p hc2 hinv.hin2
    (fun e he => hinv.hdin2 e he) hinv.hndin2
  have t3 := table_step_spec m.g1.successors (g1.succNames) m.core_1 p h
    m.out_1 o1 m.core_1.length hp2 hadj1s hc3 hinv.hout1 hinv.hdout1
    hinv.hndout1
  have t4 := table_step_spec m.g2.successors (g2.succNames) m.core_2 h p
    m.out_2 o2 m.core_1.length hh2 hadj2s hc4 hinv.hout2
    (fun e he => hinv.hdout2 e he) hinv.hndout2
  have hlen' : (ainsert m.core_1 p h).length = m.core_1.length + 1 :=
    length_ainsert_of_not_mem _ _ _ hp2
  subst hm'
  refine ⟨hinv.hg1, hinv.hg2, hinv.htest, hinv.hg1n, hinv.hg2n, hinv.hord,
    ?_, ?_, ?_, ?_, ?_, ?_, ?_, ?_, ?_, ?_, ?_, ?_, ?_, ?_, ?_, ?_, ?_, ?_, ?_⟩
  · exact nodup_akeys_ainsert _ _ _ hinv.hnd1
  · exact nodup_akeys_ainsert _ _ _ hinv.hnd2
  · -- hinv12
    intro e he
    show alookup (ainsert m.core_2 h p) e.2 = some e.1
    rw [ainsert_of_not_mem _ _ _ hp2] at he
    rw [ainsert_of_not_mem _ _ _ hh2, alookup_append]
    rcases List.mem_append.1 he with he | he
    · rw [hinv.hinv12 e he]
      rfl
    · have : e = (p, h) := by simpa using he
      subst this
      rw [alookup_eq_none m.core_2 h hh2]
      simp [alookup]
  · -- hinv21
    intro e he
    show alookup (ainsert m.core_1 p h) e.2 = some e.1
    rw [ainsert_of_not_mem _ _ _ hh2] at he
    rw [ainsert_of_not_mem _ _ _ hp2, alookup_append]
    rcases List.mem_append.1 he with he | he
    · rw [hinv.hinv21 e he]
      rfl
    · have : e = (h, p) := by simpa using he
      subst this
      rw [alookup_eq_none m.core_1 p hp2]
      simp [alookup]
  · -- hsub1
    intro e he
    rw [ainsert_of_not_mem _ _ _ hp2] at he
    rcases List.mem_append.1 he with he | he
    · exact hinv.hsub1 e he
    · have : e = (p, h) := by simpa using he
      subst this
      exact hp1
  · -- hsub2
    intro e he
    rw [ainsert_of_not_mem _ _ _ hh2] at he
    rcases List.mem_append.1 he with he | he
    · exact hinv.hsub2 e he
    · have : e = (h, p) := by simpa using he
      subst this
      exact hh1
  · -- hlen
    show (ainsert m.core_1 p h).length = (ainsert m.core_2 h p).length
    rw [length_ainsert_of_not_mem _ _ _ hp2,
      length_ainsert_of_not_mem _ _ _ hh2, hinv.hlen]
  · exact t1.1
  · exact t3.1
  · exact t2.1
  · exact t4.1
  · -- hdin1
    intro e he
    show e.2 < (ainsert m.core_1 p h).length
    rw [hlen']
    exact t1.2.1 e he
  · intro e he
    show e.2 < (ainsert m.core_1 p h).length
    rw [hlen']
    exact t3.2.1 e he
  · intro e he
    show e.2 < (ainsert m.core_1 p h).length
    rw [hlen']
    exact t2.2.1 e he
  · intro e he
    show e.2 < (ainsert m.core_1 p h).length
    rw [hlen']
    exact t4.2.1 e he
  · exact t1.2.2
  · exact t3.2.2
  · exact t2.2.2
  · exact t4.2.2

theorem inv_matcherStart (g1 g2 : DiGraph) :
    MatcherInv g1 g2 (matcherStart g1 g2) := by
  have hc1 : (matcherStart g1 g2).core_1 = [] := rfl
  have hc2 : (matcherStart g1 g2).core_2 = [] := rfl
  have hi1 : (matcherStart g1 g2).in_1 = [] := rfl
  have hi2 : (matcherStart g1 g2).in_2 = [] := rfl
  have ho1 : (matcherStart g1 g2).out_1 = [] := rfl
  have ho2 : (matcherStart g1 g2).out_2 = [] := rfl
  refine ⟨rfl, rfl, rfl, rfl, rfl, rfl, List.nodup_nil, List.nodup_nil,
    by simp [hc1], by simp [hc2], by simp [hc1], by simp [hc2], rfl,
    by simp [hc1, hi1, akeys], by simp [hc1, ho1, akeys],
    by simp [hc2, hi2, akeys], by simp [hc2, ho2, akeys],
    by simp [hi1], by simp [ho1], by simp [hi2], by simp [ho2],
    List.nodup_nil, List.nodup_nil, List.nodup_nil, List.nodup_nil⟩

theorem reach_inv {g1 g2 : DiGraph} (hwf1 : g1.WellFormed)
    (hwf2 : g2.WellFormed) (hsz : g2.node_count ≤ usizeMax)
    {m : DiGraphMatcher} (hr : Reach g1 g2 m) : MatcherInv g1 g2 m := by
  induction hr with
  | init => exact inv_matcherStart g1 g2
  | @step m pairs p h m' st hr hne hok hmem hsem hsyn hc ih =>
    have hne2 : m.core_1.length ≠ g2.node_count := by
      rw [← ih.hg2]
      exact hne
    obtain ⟨f1, f2, f3, f4⟩ :=
      candidate_facts hwf1 hwf2 hsz ih hne2 hok hmem
    exact inv_create_step hwf1 hwf2 ih f1 f2 f3 f4 hc

/-- C6: in every matcher state reachable by the search over well-formed
graphs, `core_P` (`core_1`) and `core_H` (`core_2`) have equal cardinality
and are mutual inverses: looking up the image of any mapped pair in the
other core returns the original key. -/
theorem C6_cores_mutual_inverse {g1 g2 : DiGraph}
    (hwf1 : g1.WellFormed) (hwf2 : g2.WellFormed)
    (hsz : g2.node_count ≤ usizeMax)
    {m : DiGraphMatcher} (hr : Reach g1 g2 m) :
    m.core_1.length = m.core_2.length ∧
    (∀ e ∈ m.core_1, alookup m.core_2 e.2 = some e.1) ∧
    (∀ e ∈ m.core_2, alookup m.core_1 e.2 = some e.1) := by
  have hinv := reach_inv hwf1 hwf2 hsz hr
  exact ⟨hinv.hlen, hinv.hinv12, hinv.hinv21⟩

/-- C4: at every reachable state, extending by any candidate pair and
then restoring the returned delta leaves the whole matcher — in
particular all six tables — exactly equal to its pre-extend value. -/
theorem C4_extend_restore_identity {g1 g2 : DiGraph}
    (hwf1 : g1.WellFormed) (hwf2 : g2.WellFormed)
    (hsz : g2.node_count ≤ usizeMax)
    {m : DiGraphMatcher} (hr : Reach g1 g2 m)
    (hne : m.core_1.length ≠ m.g2.node_count)
    {pairs : List (String × String)}
    (hok : m.candidate_paris_iter = Except.ok pairs)
    {p h : String} (hmem : (p, h) ∈ pairs)
    {r : DiGraphMatcher × DiGMState}
    (hc : DiGMState.create m (some p) (some h) = Except.ok r) :
    r.2.restore r.1 = m := by
  have hinv := reach_inv hwf1 hwf2 hsz hr
  have hne2 : m.core_1.length ≠ g2.node_count := by
    rw [← hinv.hg2]
    exact hne
  obtain ⟨f1, f2, f3, f4⟩ := candidate_facts hwf1 hwf2 hsz hinv hne2 hok hmem
  obtain ⟨m', st⟩ := r
  exact create_restore_id hc f2 f4 hinv.hdin1 hinv.hdin2 hinv.hdout1
    hinv.hdout2 hinv.hndin1 hinv.hndin2 hinv.hndout1 hinv.hndout2

/-- Witness for C4 at a concrete one-node extension from the entry
state. -/
theorem C4_witness :
    (DiGMState.mk (some kx) (some ka) 0).restore
      { matcherStart exPat1 exHost1 with
        core_1 := [(kx, ka)]
        core_2 := [(ka, kx)]
        in_1 := [(kx, 0)]
        in_2 := [(ka, 0)]
        out_1 := [(kx, 0)]
        out_2 := [(ka, 0)] } = matcherStart exPat1 exHost1 :=
  C4_extend_restore_identity (by decide) (by decide) (by decide)
    Reach.init (by decide)
    (by decide :
      (matcherStart exPat1 exHost1).candidate_paris_iter =
        Except.ok [(kx, ka)])
    (by decide)
    (by decide :
      DiGMState.create (matcherStart exPat1 exHost1) (some kx) (some ka) =
        Except.ok
          ({ matcherStart exPat1 exHost1 with
             core_1 := [(kx, ka)]
             core_2 := [(ka, kx)]
             in_1 := [(kx, 0)]
             in_2 := [(ka, 0)]
             out_1 := [(kx, 0)]
             out_2 := [(ka, 0)] },
           DiGMState.mk (some kx) (some ka) 0))

/-- Witness for C6 at the state reached by one feasible extension. -/
theorem C6_witness :
    ({ matcherStart exPat1 exHost1 with
       core_1 := [(kx, ka)]
       core_2 := [(ka, kx)]
       in_1 := [(kx, 0)]
       in_2 := [(ka, 0)]
       out_1 := [(kx, 0)]
       out_2 := [(ka, 0)] } : DiGraphMatcher).core_1.length =
      ({ matcherStart exPat1 exHost1 with
         core_1 := [(kx, ka)]
         core_2 := [(ka, kx)]
         in_1 := [(kx, 0)]
         in_2 := [(ka, 0)]
         out_1 := [(kx, 0)]
         out_2 := [(ka, 0)] } : DiGraphMatcher).core_2.length ∧
    (∀ e ∈ ({ matcherStart exPat1 exHost1 with
       core_1 := [(kx, ka)]
       core_2 := [(ka, kx)]
       in_1 := [(kx, 0)]
       in_2 := [(ka, 0)]
       out_1 := [(kx, 0)]
       out_2 := [(ka, 0)] } : DiGraphMatcher).core_1,
      alookup [(ka, kx)] e.2 = some e.1) ∧
    (∀ e ∈ ([(ka, kx)] : List (String × String)),
      alookup [(kx, ka)] e.2 = some e.1) :=
  C6_cores_mutual_inverse (by decide) (by decide) (by decide)
    (Reach.step Reach.init (by decide)
      (by decide :
        (matcherStart exPat1 exHost1).candidate_paris_iter =
          Except.ok [(kx, ka)])
      (by decide) (by decide) (by decide)
      (by decide :
        DiGMState.create (matcherStart exPat1 exHost1) (some kx) (some ka) =
          Except.ok
            ({ matcherStart exPat1 exHost1 with
               core_1 := [(kx, ka)]
               core_2 := [(ka, kx)]
               in_1 := [(kx, 0)]
               in_2 := [(ka, 0)]
               out_1 := [(kx, 0)]
               out_2 := [(ka, 0)] },
             DiGMState.mk (some kx) (some ka) 0)))

/-! ## The search restores the matcher and only appends to the sink -/

theorem try_pairs_preserves {g1 g2 : DiGraph}
    (hwf1 : g1.WellFormed) (hwf2 : g2.WellFormed)
    (hsz : g2.node_count ≤ usizeMax) (fuel : Nat)
    (IH : ∀ {m : DiGraphMatcher}, MatcherInv g1 g2 m →
      ∀ (sink : List GMapping) {m' : DiGraphMatcher} {out : List GMapping},
      DiGraphMatcher.try_match_aux fuel m sink = Except.ok (m', out) →
      ∃ ext, m' = m ∧ out = sink ++ ext ∧
        ∀ sink2, DiGraphMatcher.try_match_aux fuel m sink2 =
          Except.ok (m, sink2 ++ ext))
    {m0 : DiGraphMatcher} (hinv : MatcherInv g1 g2 m0)
    (hne : m0.core_1.length ≠ m0.g2.node_count)
    {pairs : List (String × String)}
    (hcand : m0.candidate_paris_iter = Except.ok pairs) :
    ∀ (rest : List (String × String)), (∀ pr ∈ rest, pr ∈ pairs) →
      ∀ (sink : List GMapping) {m' : DiGraphMatcher} {out : List GMapping},
      DiGraphMatcher.try_pairs_go (DiGraphMatcher.try_match_aux fuel) rest m0 sink = Except.ok (m', out) →
      ∃ ext, m' = m0 ∧ out = sink ++ ext ∧
        ∀ sink2, DiGraphMatcher.try_pairs_go (DiGraphMatcher.try_match_aux fuel) rest m0 sink2 =
          Except.ok (m0, sink2 ++ ext) := by
  have hne2 : m0.core_1.length ≠ g2.node_count := by
    rw [← hinv.hg2]
    exact hne
  intro rest
  induction rest with
  | nil =>
    intro _ sink m' out hrun
    rw [DiGraphMatcher.try_pairs_go] at hrun
    have hpair : (m0, sink) = (m', out) := by
      simpa [pure, Except.pure] using hrun
    refine ⟨[], (congrArg Prod.fst hpair).symm, ?_, ?_⟩
    · rw [List.append_nil]
      exact (congrArg Prod.snd hpair).symm
    · intro sink2
      rw [DiGraphMatcher.try_pairs_go, List.append_nil]
  | cons pr rest ih =>
    obtain ⟨p, q⟩ := pr
    intro hsub sink m' out hrun
    rw [DiGraphMatcher.try_pairs_go] at hrun
    by_cases hsem : m0.semantic_feasibility p q
    · rw [if_pos hsem] at hrun
      cases hsyn : m0.syntactic_feasibility p q with
      | error e =>
        simp only [hsyn] at hrun
        exact Except.noConfusion hrun
      | ok b =>
        cases b with
        | false =>
          simp only [hsyn] at hrun
          obtain ⟨ext, hm', hout, hall⟩ :=
            ih (fun pr2 h2 => hsub pr2 (by simp [h2])) sink hrun
          refine ⟨ext, hm', hout, ?_⟩
          intro sink2
          rw [DiGraphMatcher.try_pairs_go, if_pos hsem]
          simp only [hsyn]
          exact hall sink2
        | true =>
          simp only [hsyn] at hrun
          cases hcr : DiGMState.create m0 (some p) (some q) with
          | error e =>
            simp only [hcr] at hrun
            exact Except.noConfusion hrun
          | ok r =>
            obtain ⟨m1, st⟩ := r
            simp only [hcr] at hrun
            cases htm : DiGraphMatcher.try_match_aux fuel m1 sink with
            | error e =>
              simp only [htm] at hrun
              exact Except.noConfusion hrun
            | ok r2 =>
              obtain ⟨m2, sink2a⟩ := r2
              simp only [htm] at hrun
              obtain ⟨f1, f2, f3, f4⟩ := candidate_facts hwf1 hwf2 hsz hinv
                hne2 hcand (hsub (p, q) (by simp))
              have hinv1 : MatcherInv g1 g2 m1 :=
                inv_create_step hwf1 hwf2 hinv f1 f2 f3 f4 hcr
              obtain ⟨ext1, hm2, hs2, hall1⟩ := IH hinv1 sink htm
              have hrest : st.restore m1 = m0 :=
                create_restore_id hcr f2 f4 hinv.hdin1 hinv.hdin2
                  hinv.hdout1 hinv.hdout2 hinv.hndin1 hinv.hndin2
                  hinv.hndout1 hinv.hndout2
              rw [hm2, hrest] at hrun
              obtain ⟨ext2, hm', hout, hall2⟩ :=
                ih (fun pr2 h2 => hsub pr2 (by simp [h2])) sink2a hrun
              refine ⟨ext1 ++ ext2, hm', ?_, ?_⟩
              · rw [hout, hs2, List.append_assoc]
              · intro sinkb
                rw [DiGraphMatcher.try_pairs_go, if_pos hsem]
                simp only [hsyn, hcr, hall1 sinkb, hrest]
                rw [← List.append_assoc]
                exact hall2 (sinkb ++ ext1)
    · rw [if_neg hsem] at hrun
      obtain ⟨ext, hm', hout, hall⟩ :=
        ih (fun pr2 h2 => hsub pr2 (by simp [h2])) sink hrun
      refine ⟨ext, hm', hout, ?_⟩
      intro sink2
      rw [DiGraphMatcher.try_pairs_go, if_neg hsem]
      exact hall sink2

theorem try_match_preserves {g1 g2 : DiGraph}
    (hwf1 : g1.WellFormed) (hwf2 : g2.WellFormed)
    (hsz : g2.node_count ≤ usizeMax) :
    ∀ (fuel : Nat) {m : DiGraphMatcher}, MatcherInv g1 g2 m →
      ∀ (sink : List GMapping) {m' : DiGraphMatcher} {out : List GMapping},
      DiGraphMatcher.try_match_aux fuel m sink = Except.ok (m', out) →
      ∃ ext, m' = m ∧ out = sink ++ ext ∧
        ∀ sink2, DiGraphMatcher.try_match_aux fuel m sink2 =
          Except.ok (m, sink2 ++ ext) := by
  intro fuel
  induction fuel with
  | zero =>
    intro m hinv sink m' out h
    rw [DiGraphMatcher.try_match_aux] at h
    exact Except.noConfusion h
  | succ fuel ih =>
    intro m hinv sink m' out h
    rw [DiGraphMatcher.try_match_aux] at h
    by_cases hdone : m.core_1.length = m.g2.node_count
    · rw [if_pos hdone] at h
      have hpair : (m, sink ++ [m.core_1]) = (m', out) := by
        simpa [pure, Except.pure] using h
      refine ⟨[m.core_1], (congrArg Prod.fst hpair).symm,
        (congrArg Prod.snd hpair).symm, ?_⟩
      intro sink2
      rw [DiGraphMatcher.try_match_aux, if_pos hdone]
      rfl
    · rw [if_neg hdone] at h
      cases hcand : m.candidate_paris_iter with
      | error e =>
        simp only [hcand] at h
        exact Except.noConfusion h
      | ok pairs =>
        simp only [hcand] at h
        obtain ⟨ext, hm', hout, hall⟩ :=
          try_pairs_preserves hwf1 hwf2 hsz fuel (fun hm => ih hm)
            hinv hdone hcand pairs (fun pr h2 => h2) sink h
        refine ⟨ext, hm', hout, ?_⟩
        intro sink2
        rw [DiGraphMatcher.try_match_aux, if_neg hdone]
        simp only [hcand]
        exact hall sink2

/-! ## Claim C9: repeated enumeration -/

theorem subgraph_iter_eq (m : DiGraphMatcher) (sink : List GMapping) :
    m.subgraph_isomorphisms_iter sink =
      DiGraphMatcher.try_match_aux (m.g2.node_count + 1) (clearedOf m) sink := by
  rw [DiGraphMatcher.subgraph_isomorphisms_iter]
  rw [except_bind_ok_forward (create_none_ok _)]
  rfl

theorem inv_mapping_update {g1 g2 : DiGraph} {m : DiGraphMatcher}
    (hinv : MatcherInv g1 g2 m) (w : List (String × String)) :
    MatcherInv g1 g2 { m with mapping := w } :=
  ⟨hinv.hg1, hinv.hg2, hinv.htest, hinv.hg1n, hinv.hg2n, hinv.hord,
   hinv.hnd1, hinv.hnd2, hinv.hinv12, hinv.hinv21, hinv.hsub1, hinv.hsub2,
   hinv.hlen, hinv.hin1, hinv.hout1, hinv.hin2, hinv.hout2,
   hinv.hdin1, hinv.hdout1, hinv.hdin2, hinv.hdout2,
   hinv.hndin1, hinv.hndout1, hinv.hndin2, hinv.hndout2⟩

theorem inv_start_any (g1 g2 : DiGraph) (w : List (String × String)) :
    MatcherInv g1 g2 { matcherStart g1 g2 with mapping := w } :=
  inv_mapping_update (inv_matcherStart g1 g2) w

/-- C9: a call of `subgraph_isomorphisms_iter` on a constructed matcher
clears the six tables on entry, appends its mapping sequence to the
caller's sink, and returns with all six tables empty; every further call
on the same matcher appends the identical sequence again — `k` calls in a
row append `k` identical copies. -/
theorem C9_repeat_enumeration {g1 g2 : DiGraph}
    (hwf1 : g1.WellFormed) (hwf2 : g2.WellFormed)
    (hsz : g2.node_count ≤ usizeMax) (m : DiGraphMatcher)
    (hstat : clearedOf m = { matcherStart g1 g2 with mapping := m.mapping })
    (sink : List GMapping) {m1 : DiGraphMatcher} {out1 : List GMapping}
    (hrun : m.subgraph_isomorphisms_iter sink = Except.ok (m1, out1)) :
    ∃ ext, out1 = sink ++ ext ∧ m1 = clearedOf m ∧
      m1.core_1 = [] ∧ m1.core_2 = [] ∧ m1.in_1 = [] ∧ m1.in_2 = [] ∧
      m1.out_1 = [] ∧ m1.out_2 = [] ∧
      (∀ k sink2, iterCalls k m1 sink2 =
        Except.ok (m1, sink2 ++ (List.replicate k ext).flatten)) := by
  rw [subgraph_iter_eq] at hrun
  have hinv : MatcherInv g1 g2 (clearedOf m) := by
    rw [hstat]
    exact inv_start_any g1 g2 m.mapping
  obtain ⟨ext, hm1, hout, hall⟩ :=
    try_match_preserves hwf1 hwf2 hsz (m.g2.node_count + 1) hinv sink hrun
  have hg2m : m.g2 = g2 := hinv.hg2
  refine ⟨ext, hout, hm1, by rw [hm1]; rfl, by rw [hm1]; rfl,
    by rw [hm1]; rfl, by rw [hm1]; rfl, by rw [hm1]; rfl,
    by rw [hm1]; rfl, ?_⟩
  intro k
  induction k with
  | zero =>
    intro sink2
    rw [iterCalls]
    simp
  | succ k ih =>
    intro sink2
    rw [iterCalls]
    have hstep : m1.subgraph_isomorphisms_iter sink2 =
        Except.ok (m1, sink2 ++ ext) := by
      rw [subgraph_iter_eq]
      have hcc : clearedOf m1 = clearedOf m := by
        rw [hm1]
        rfl
      have hg2c : m1.g2 = m.g2 := by
        rw [hm1]
        rfl
      rw [hcc, hg2c]
      have := hall sink2
      rw [this, hm1]
    rw [except_bind_ok_forward hstep]
    have := ih (sink2 ++ ext)
    rw [this]
    rw [List.replicate_succ, List.flatten_cons, List.append_assoc]

/-- Witness for C9 at a concrete one-node instance. -/
theorem C9_witness :
    ∃ ext, ([[(kx, ka)]] : List GMapping) = [] ++ ext ∧
      clearedOf (DiGraphMatcher.new exPat1 exHost1) =
        clearedOf (DiGraphMatcher.new exPat1 exHost1) ∧
      (clearedOf (DiGraphMatcher.new exPat1 exHost1)).core_1 = [] ∧
      (clearedOf (DiGraphMatcher.new exPat1 exHost1)).core_2 = [] ∧
      (clearedOf (DiGraphMatcher.new exPat1 exHost1)).in_1 = [] ∧
      (clearedOf (DiGraphMatcher.new exPat1 exHost1)).in_2 = [] ∧
      (clearedOf (DiGraphMatcher.new exPat1 exHost1)).out_1 = [] ∧
      (clearedOf (DiGraphMatcher.new exPat1 exHost1)).out_2 = [] ∧
      (∀ k sink2, iterCalls k (clearedOf (DiGraphMatcher.new exPat1 exHost1))
          sink2 =
        Except.ok (clearedOf (DiGraphMatcher.new exPat1 exHost1),
          sink2 ++ (List.replicate k ext).flatten)) :=
  @C9_repeat_enumeration exPat1 exHost1 (by decide) (by decide) (by decide)
    (DiGraphMatcher.new exPat1 exHost1) (by decide) []
    (clearedOf (DiGraphMatcher.new exPat1 exHost1)) [[(kx, ka)]]
    (by decide)

/-! ## Claim C3: the completion test -/

theorem restore_preserves_g2 (st : DiGMState) (M : DiGraphMatcher) :
    (st.restore M).g2 = M.g2 := by
  rw [DiGMState.restore]
  cases st.g1_node <;> cases st.g2_node <;> rfl


theorem try_pairs_go_run_basic
    (tm : DiGraphMatcher → List GMapping →
      Except GraphError (DiGraphMatcher × List GMapping))
    (IH : ∀ {m : DiGraphMatcher} (sink : List GMapping)
      {m' : DiGraphMatcher} {out : List GMapping},
      tm m sink = Except.ok (m', out) →
      m'.g2 = m.g2 ∧ ∀ l ∈ out, l ∈ sink ∨ l.length = m.g2.node_count) :
    ∀ (rest : List (String × String)) {m0 : DiGraphMatcher}
      (sink : List GMapping) {m' : DiGraphMatcher} {out : List GMapping},
      DiGraphMatcher.try_pairs_go tm rest m0 sink = Except.ok (m', out) →
      m'.g2 = m0.g2 ∧ ∀ l ∈ out, l ∈ sink ∨ l.length = m0.g2.node_count := by
  intro rest
  induction rest with
  | nil =>
    intro m0 sink m' out hrun
    rw [DiGraphMatcher.try_pairs_go] at hrun
    have hpair : (m0, sink) = (m', out) := by
      simpa [pure, Except.pure] using hrun
    have h1 : m' = m0 := (congrArg Prod.fst hpair).symm
    have h2 : out = sink := (congrArg Prod.snd hpair).symm
    subst h1
    subst h2
    exact ⟨rfl, fun l hl => Or.inl hl⟩
  | cons pr rest ih =>
    obtain ⟨p, q⟩ := pr
    intro m0 sink m' out hrun
    rw [DiGraphMatcher.try_pairs_go] at hrun
    by_cases hsem : m0.semantic_feasibility p q
    · rw [if_pos hsem] at hrun
      cases hsyn : m0.syntactic_feasibility p q with
      | error e =>
        simp only [hsyn] at hrun
        exact Except.noConfusion hrun
      | ok b =>
        cases b with
        | false =>
          simp only [hsyn] at hrun
          exact ih sink hrun
        | true =>
          simp only [hsyn] at hrun
          cases hcr : DiGMState.create m0 (some p) (some q) with
          | error e =>
            simp only [hcr] at hrun
            exact Except.noConfusion hrun
          | ok r =>
            obtain ⟨m1, st⟩ := r
            simp only [hcr] at hrun
            cases htm : tm m1 sink with
            | error e =>
              simp only [htm] at hrun
              exact Except.noConfusion hrun
            | ok r2 =>
              obtain ⟨m2, sink2⟩ := r2
              simp only [htm] at hrun
              have hg21 : m1.g2 = m0.g2 := by
                obtain ⟨n1, n2, o1, o2, _, _, _, _, _, hm'⟩ :=
                  create_some_ok_spec hcr
                rw [hm']
              obtain ⟨hg22, hlen1⟩ := IH sink htm
              obtain ⟨hg23, hlen2⟩ := ih sink2 hrun
              have hg2r : (st.restore m2).g2 = m0.g2 := by
                rw [restore_preserves_g2, hg22, hg21]
              refine ⟨by rw [hg23, hg2r], ?_⟩
              intro l hl
              rcases hlen2 l hl with hl2 | hl2
              · rcases hlen1 l hl2 with hl3 | hl3
                · exact Or.inl hl3
                · rw [hg21] at hl3
                  exact Or.inr hl3
              · rw [hg2r] at hl2
                exact Or.inr hl2
    · rw [if_neg hsem] at hrun
      exact ih sink hrun

theorem try_match_run_basic :
    ∀ (fuel : Nat) {m : DiGraphMatcher} (sink : List GMapping)
      {m' : DiGraphMatcher} {out : List GMapping},
      DiGraphMatcher.try_match_aux fuel m sink = Except.ok (m', out) →
      m'.g2 = m.g2 ∧ ∀ l ∈ out, l ∈ sink ∨ l.length = m.g2.node_count := by
  intro fuel
  induction fuel with
  | zero =>
    intro m sink m' out h
    rw [DiGraphMatcher.try_match_aux] at h
    exact Except.noConfusion h
  | succ fuel ih =>
    intro m sink m' out h
    rw [DiGraphMatcher.try_match_aux] at h
    by_cases hdone : m.core_1.length = m.g2.node_count
    · rw [if_pos hdone] at h
      have hpair : (m, sink ++ [m.core_1]) = (m', out) := by
        simpa [pure, Except.pure] using h
      have h1 : m' = m := (congrArg Prod.fst hpair).symm
      have h2 : out = sink ++ [m.core_1] := (congrArg Prod.snd hpair).symm
      rw [h1, h2]
      refine ⟨rfl, ?_⟩
      intro l hl
      rcases List.mem_append.1 hl with hl | hl
      · exact Or.inl hl
      · have : l = m.core_1 := by simpa using hl
        rw [this]
        exact Or.inr hdone
    · rw [if_neg hdone] at h
      cases hcand : m.candidate_paris_iter with
      | error e =>
        simp only [hcand] at h
        exact Except.noConfusion h
      | ok pairs =>
        simp only [hcand] at h
        exact try_pairs_go_run_basic _ (fun {mm} sink {mk} {ok} h2 => ih sink h2) pairs sink h

/-- C3: the driver's completion test compares `|core_1|` (the partial
mapping, `core_P`) with `|V(H)|` (`g2.node_count`), not with `|V(P)|`:
when they are equal, `try_match` appends exactly the snapshot of `core_1`
and returns without recursing (the state is untouched); and every mapping
any run appends was emitted at such a state, so it has size `|V(H)|`. -/
theorem C3_completion_test (m : DiGraphMatcher) (fuel : Nat)
    (sink : List GMapping) :
    (m.core_1.length = m.g2.node_count →
      DiGraphMatcher.try_match_aux (fuel + 1) m sink =
        Except.ok (m, sink ++ [m.core_1])) ∧
    (∀ m' : DiGraphMatcher, ∀ out : List GMapping,
      DiGraphMatcher.try_match_aux fuel m sink = Except.ok (m', out) →
      ∀ l ∈ out, l ∈ sink ∨ l.length = m.g2.node_count) := by
  constructor
  · intro hdone
    rw [DiGraphMatcher.try_match_aux, if_pos hdone]
    rfl
  · intro m' out h
    exact (try_match_run_basic fuel sink h).2

/-- Witness for C3 at the concrete completed one-node state. -/
theorem C3_witness :
    DiGraphMatcher.try_match_aux 1
      { matcherStart exPat1 exHost1 with
        core_1 := [(kx, ka)]
        core_2 := [(ka, kx)]
        in_1 := [(kx, 0)]
        in_2 := [(ka, 0)]
        out_1 := [(kx, 0)]
        out_2 := [(ka, 0)] } [] =
      Except.ok
        ({ matcherStart exPat1 exHost1 with
           core_1 := [(kx, ka)]
           core_2 := [(ka, kx)]
           in_1 := [(kx, 0)]
           in_2 := [(ka, 0)]
           out_1 := [(kx, 0)]
           out_2 := [(ka, 0)] },
          [] ++ [[(kx, ka)]]) ∧
    (∀ l ∈ ([[(kx, ka)]] : List GMapping),
      l ∈ ([] : List GMapping) ∨ l.length = 1) := by
  refine ⟨(C3_completion_test _ 0 []).1 (by decide), ?_⟩
  have h := (C3_completion_test
    ({ matcherStart exPat1 exHost1 with
       core_1 := [(kx, ka)]
       core_2 := [(ka, kx)]
       in_1 := [(kx, 0)]
       in_2 := [(ka, 0)]
       out_1 := [(kx, 0)]
       out_2 := [(ka, 0)] }) 1 []).2
    ({ matcherStart exPat1 exHost1 with
       core_1 := [(kx, ka)]
       core_2 := [(ka, kx)]
       in_1 := [(kx, 0)]
       in_2 := [(ka, 0)]
       out_1 := [(kx, 0)]
       out_2 := [(ka, 0)] }) [[(kx, ka)]] (by decide)
  have e : ({ matcherStart exPat1 exHost1 with
       core_1 := [(kx, ka)]
       core_2 := [(ka, kx)]
       in_1 := [(kx, 0)]
       in_2 := [(ka, 0)]
       out_1 := [(kx, 0)]
       out_2 := [(ka, 0)] } : DiGraphMatcher).g2.node_count = 1 := by decide
  rw [e] at h
  exact h

/-! ## Claim C5: the Tout branch of the candidate generator -/

/-- C5: at every reachable state over well-formed graphs where both
out-terminal sets are non-empty, the candidate generator returns exactly
`{(p, h*) : p ∈ Tout_P}`: the enumerated side ranges over the pattern's
out-terminal set, and `h*` is the unique member of the host's out-terminal
set minimizing the host node order frozen at construction. -/
theorem C5_candidate_tout_argmin {g1 g2 : DiGraph}
    (hwf1 : g1.WellFormed) (hwf2 : g2.WellFormed)
    (hsz : g2.node_count ≤ usizeMax)
    {m : DiGraphMatcher} (hr : Reach g1 g2 m)
    (h1 : m.tout1 ≠ []) (h2 : m.tout2 ≠ []) :
    m.g2_node_order = (DiGraphMatcher.new g1 g2).g2_node_order ∧
    ∃ hstar : String, ∃ i : Nat,
      hstar ∈ m.tout2 ∧
      alookup m.g2_node_order hstar = some i ∧
      (∀ k ∈ m.tout2, ∀ v, alookup m.g2_node_order k = some v → i ≤ v) ∧
      (∀ k ∈ m.tout2, ∀ v, alookup m.g2_node_order k = some v →
        v ≤ i → k = hstar) ∧
      m.candidate_paris_iter =
        Except.ok (m.tout1.map (fun p => (p, hstar))) := by
  have hinv := reach_inv hwf1 hwf2 hsz hr
  have horder : ∀ k ∈ akeys g2.nodes, ∃ i,
      alookup m.g2_node_order k = some i ∧ i < usizeMax := by
    intro k hk
    rw [hinv.hord]
    obtain ⟨i, hi, hlt⟩ := @order_lookup_mem g1 g2 (wf_nodup hwf2) k hk
    exact ⟨i, hi, Nat.lt_of_lt_of_le hlt hsz⟩
  have hsub2k : ∀ k, k ∈ akeys m.core_2 → k ∈ akeys g2.nodes := by
    intro k hk
    obtain ⟨v, hv⟩ := exists_val_of_mem_akeys hk
    exact hinv.hsub2 (k, v) hv
  have hout2sub : ∀ k ∈ akeys m.out_2, k ∈ akeys g2.nodes := by
    intro k hk
    rcases (hinv.hout2 k).1 hk with hk2 | ⟨c, hc, hks⟩
    · exact hsub2k k hk2
    · exact closed_succNames (wf_closed hwf2) hks
  have hord2 : ∀ k ∈ m.tout2, ∃ i,
      alookup m.g2_node_order k = some i ∧ i < usizeMax := by
    intro k hk
    exact horder k (hout2sub k (List.mem_filter.1 hk).1)
  obtain ⟨best, hscan, hmem, hlook, hmin, hcand⟩ :=
    candidate_tout_branch h1 h2 hord2
  refine ⟨hinv.hord, best.1, best.2, hmem, hlook, hmin, ?_, hcand⟩
  intro k hk v hv hle
  have hge := hmin k hk v hv
  have hveq : v = best.2 := Nat.le_antisymm hle hge
  rw [hveq] at hv
  rw [hinv.hord] at hv hlook
  exact order_lookup_inj (wf_nodup hwf2) hv hlook

/-- Witness for C5 at the state reached by mapping `x ↦ a` in the
single-edge pattern/host pair, where `Tout_P = \x7by\x7d` and
`Tout_H = \x7bb\x7d`. -/
theorem C5_witness :
    ({ matcherStart exPatEdge exHostEdge with
       core_1 := [(kx, ka)]
       core_2 := [(ka, kx)]
       in_1 := [(kx, 0)]
       in_2 := [(ka, 0)]
       out_1 := [(kx, 0), (ky, 0)]
       out_2 := [(ka, 0), (kb, 0)] } : DiGraphMatcher).g2_node_order =
      (DiGraphMatcher.new exPatEdge exHostEdge).g2_node_order ∧
    ∃ hstar : String, ∃ i : Nat,
      hstar ∈ ({ matcherStart exPatEdge exHostEdge with
        core_1 := [(kx, ka)]
        core_2 := [(ka, kx)]
        in_1 := [(kx, 0)]
        in_2 := [(ka, 0)]
        out_1 := [(kx, 0), (ky, 0)]
        out_2 := [(ka, 0), (kb, 0)] } : DiGraphMatcher).tout2 ∧
      alookup ({ matcherStart exPatEdge exHostEdge with
        core_1 := [(kx, ka)]
        core_2 := [(ka, kx)]
        in_1 := [(kx, 0)]
        in_2 := [(ka, 0)]
        out_1 := [(kx, 0), (ky, 0)]
        out_2 := [(ka, 0), (kb, 0)] } : DiGraphMatcher).g2_node_order hstar =
        some i ∧
      (∀ k ∈ ({ matcherStart exPatEdge exHostEdge with
        core_1 := [(kx, ka)]
        core_2 := [(ka, kx)]
        in_1 := [(kx, 0)]
        in_2 := [(ka, 0)]
        out_1 := [(kx, 0), (ky, 0)]
        out_2 := [(ka, 0), (kb, 0)] } : DiGraphMatcher).tout2, ∀ v,
        alookup ({ matcherStart exPatEdge exHostEdge with
          core_1 := [(kx, ka)]
          core_2 := [(ka, kx)]
          in_1 := [(kx, 0)]
          in_2 := [(ka, 0)]
          out_1 := [(kx, 0), (ky, 0)]
          out_2 := [(ka, 0), (kb, 0)] } : DiGraphMatcher).g2_node_order k =
          some v → i ≤ v) ∧
      (∀ k ∈ ({ matcherStart exPatEdge exHostEdge with
        core_1 := [(kx, ka)]
        core_2 := [(ka, kx)]
        in_1 := [(kx, 0)]
        in_2 := [(ka, 0)]
        out_1 := [(kx, 0), (ky, 0)]
        out_2 := [(ka, 0), (kb, 0)] } : DiGraphMatcher).tout2, ∀ v,
        alookup ({ matcherStart exPatEdge exHostEdge with
          core_1 := [(kx, ka)]
          core_2 := [(ka, kx)]
          in_1 := [(kx, 0)]
          in_2 := [(ka, 0)]
          out_1 := [(kx, 0), (ky, 0)]
          out_2 := [(ka, 0), (kb, 0)] } : DiGraphMatcher).g2_node_order k =
          some v → v ≤ i → k = hstar) ∧
      ({ matcherStart exPatEdge exHostEdge with
        core_1 := [(kx, ka)]
        core_2 := [(ka, kx)]
        in_1 := [(kx, 0)]
        in_2 := [(ka, 0)]
        out_1 := [(kx, 0), (ky, 0)]
        out_2 := [(ka, 0), (kb, 0)] } : DiGraphMatcher).candidate_paris_iter =
        Except.ok (({ matcherStart exPatEdge exHostEdge with
          core_1 := [(kx, ka)]
          core_2 := [(ka, kx)]
          in_1 := [(kx, 0)]
          in_2 := [(ka, 0)]
          out_1 := [(kx, 0), (ky, 0)]
          out_2 := [(ka, 0), (kb, 0)] } : DiGraphMatcher).tout1.map
            (fun p => (p, hstar))) :=
  C5_candidate_tout_argmin (by decide) (by decide) (by decide)
    (Reach.step Reach.init (by decide)
      (by decide :
        (matcherStart exPatEdge exHostEdge).candidate_paris_iter =
          Except.ok [(kx, ka), (ky, ka)])
      (by decide) (by decide) (by decide)
      (by decide :
        DiGMState.create (matcherStart exPatEdge exHostEdge)
            (some kx) (some ka) =
          Except.ok
            ({ matcherStart exPatEdge exHostEdge with
               core_1 := [(kx, ka)]
               core_2 := [(ka, kx)]
               in_1 := [(kx, 0)]
               in_2 := [(ka, 0)]
               out_1 := [(kx, 0), (ky, 0)]
               out_2 := [(ka, 0), (kb, 0)] },
             DiGMState.mk (some kx) (some ka) 0)))
    (by decide) (by decide)

/-! ## Claim C8: error-freedom on well-formed graphs -/

theorem exists_ok_ite {ε α : Type} (c : Prop) [Decidable c]
    {x y : Except ε α} (hx : ∃ a, x = Except.ok a)
    (hy : ∃ a, y = Except.ok a) :
    ∃ a, (if c then x else y) = Except.ok a := by
  by_cases h : c
  · rw [if_pos h]
    exact hx
  · rw [if_neg h]
    exact hy

theorem exists_ok_bind {ε α β : Type} {x : Except ε α} {f : α → Except ε β}
    (hx : ∃ a, x = Except.ok a)
    (hf : ∀ a, x = Except.ok a → ∃ b, f a = Except.ok b) :
    ∃ b, (x >>= f) = Except.ok b := by
  obtain ⟨a, ha⟩ := hx
  obtain ⟨b, hb⟩ := hf a ha
  exact ⟨b, by rw [except_bind_ok_forward ha]; exact hb⟩

theorem collectAdjacentNew_ok_of
    (adj : String → Except GraphError (List DiNode))
    (core : List (String × String))
    (hadj : ∀ c ∈ akeys core, ∃ l, adj c = Except.ok l) :
    ∃ names, collectAdjacentNew adj core = Except.ok names := by
  rw [collectAdjacentNew]
  have main : ∀ (ks : List String), (∀ c ∈ ks, ∃ l, adj c = Except.ok l) →
      ∀ acc : List String,
      ∃ names, ks.foldlM (fun acc2 name => do
          let nodes ← adj name
          pure (nodes.foldl (fun acc3 node =>
            if acontains core node.get_name then acc3
            else sinsert acc3 node.get_name) acc2)) acc = Except.ok names := by
    intro ks
    induction ks with
    | nil => intro _ acc; exact ⟨acc, rfl⟩
    | cons c rest ih =>
      intro hks acc
      obtain ⟨l, hl⟩ := hks c (by simp)
      rw [List.foldlM_cons]
      refine exists_ok_bind (exists_ok_bind ⟨l, hl⟩
        (fun a _ => ⟨_, rfl⟩)) ?_
      intro acc2 _
      exact ih (fun c2 h2 => hks c2 (by simp [h2])) acc2
  exact main (akeys core) hadj []

theorem create_some_ok_exists {m : DiGraphMatcher} {p h : String}
    (h1 : ∀ c ∈ akeys (ainsert m.core_1 p h),
      ∃ l, m.g1.predecessors c = Except.ok l)
    (h2 : ∀ c ∈ akeys (ainsert m.core_2 h p),
      ∃ l, m.g2.predecessors c = Except.ok l)
    (h3 : ∀ c ∈ akeys (ainsert m.core_1 p h),
      ∃ l, m.g1.successors c = Except.ok l)
    (h4 : ∀ c ∈ akeys (ainsert m.core_2 h p),
      ∃ l, m.g2.successors c = Except.ok l) :
    ∃ r, DiGMState.create m (some p) (some h) = Except.ok r := by
  rw [DiGMState.create]
  simp only [Option.isNone_some, Bool.false_eq_true, or_self, if_false]
  obtain ⟨n1, hn1⟩ := collectAdjacentNew_ok_of m.g1.predecessors
    (ainsert m.core_1 p h) h1
  obtain ⟨n2, hn2⟩ := collectAdjacentNew_ok_of m.g2.predecessors
    (ainsert m.core_2 h p) h2
  obtain ⟨o1, ho1⟩ := collectAdjacentNew_ok_of m.g1.successors
    (ainsert m.core_1 p h) h3
  obtain ⟨o2, ho2⟩ := collectAdjacentNew_ok_of m.g2.successors
    (ainsert m.core_2 h p) h4
  rw [except_bind_ok_forward hn1, except_bind_ok_forward hn2,
    except_bind_ok_forward ho1, except_bind_ok_forward ho2]
  exact ⟨_, rfl⟩

theorem r_self_ok {m : DiGraphMatcher}
    (hc1 : m.g1.Closed) (hnm1 : NameMatch m.g1)
    (hc2 : m.g2.Closed) (hnm2 : NameMatch m.g2)
    {n1 n2 : DiNode}
    (hn1 : n1.get_name ∈ akeys m.g1.nodes)
    (hn2 : n2.get_name ∈ akeys m.g2.nodes) :
    ∃ b, m.r_self n1 n2 = Except.ok b := by
  rw [DiGraphMatcher.r_self]
  refine exists_ok_bind ⟨_, edge_count_ok_of_closed hc1 hnm1 hn1 _⟩ ?_
  intro c1 _
  refine exists_ok_bind ⟨_, edge_count_ok_of_closed hc2 hnm2 hn2 _⟩ ?_
  intro c2 _
  exact exists_ok_ite _ ⟨true, rfl⟩ ⟨false, rfl⟩

theorem r_pred_loop1_ok {m : DiGraphMatcher}
    (hc1 : m.g1.Closed) (hnm1 : NameMatch m.g1)
    (hc2 : m.g2.Closed) (hnm2 : NameMatch m.g2)
    {n1 n2 : DiNode}
    (hn2 : n2.get_name ∈ akeys m.g2.nodes)
    (hmapped : ∀ k v, alookup m.core_1 k = some v → v ∈ akeys m.g2.nodes) :
    ∀ preds : List DiNode, (∀ nd ∈ preds, nd.get_name ∈ akeys m.g1.nodes) →
      ∃ b, r_pred_loop1 m n1 n2 preds = Except.ok b := by
  intro preds
  induction preds with
  | nil => intro _; exact ⟨true, rfl⟩
  | cons nd rest ih =>
    intro hall
    cases halk : alookup m.core_1 nd.get_name with
    | none =>
      simp only [r_pred_loop1, halk]
      exact ih (fun x hx => hall x (by simp [hx]))
    | some mapped =>
      simp only [r_pred_loop1, halk, predecessors_ok_of_closed hc2 hn2]
      refine exists_ok_ite _ ⟨false, rfl⟩ ?_
      refine exists_ok_bind
        ⟨_, edge_count_ok_of_closed hc1 hnm1 (hall nd (by simp)) _⟩ ?_
      intro c1 _
      refine exists_ok_bind
        ⟨_, edge_count_ok_of_closed hc2 hnm2 (hmapped _ _ halk) _⟩ ?_
      intro c2 _
      exact exists_ok_ite _ ⟨false, rfl⟩ (ih (fun x hx => hall x (by simp [hx])))

theorem r_pred_loop2_ok {m : DiGraphMatcher}
    (hc1 : m.g1.Closed) (hnm1 : NameMatch m.g1)
    (hc2 : m.g2.Closed) (hnm2 : NameMatch m.g2)
    {n1 n2 : DiNode}
    (hn1 : n1.get_name ∈ akeys m.g1.nodes)
    (hmapped : ∀ k v, alookup m.core_2 k = some v → v ∈ akeys m.g1.nodes) :
    ∀ preds : List DiNode, (∀ nd ∈ preds, nd.get_name ∈ akeys m.g2.nodes) →
      ∃ b, r_pred_loop2 m n1 n2 preds = Except.ok b := by
  intro preds
  induction preds with
  | nil => intro _; exact ⟨true, rfl⟩
  | cons nd rest ih =>
    intro hall
    cases halk : alookup m.core_2 nd.get_name with
    | none =>
      simp only [r_pred_loop2, halk]
      exact ih (fun x hx => hall x (by simp [hx]))
    | some mapped =>
      simp only [r_pred_loop2, halk, predecessors_ok_of_closed hc1 hn1]
      refine exists_ok_ite _ ⟨false, rfl⟩ ?_
      refine exists_ok_bind
        ⟨_, edge_count_ok_of_closed hc2 hnm2 (hall nd (by simp)) _⟩ ?_
      intro c2 _
      refine exists_ok_bind
        ⟨_, edge_count_ok_of_closed hc1 hnm1 (hmapped _ _ halk) _⟩ ?_
      intro c1 _
      exact exists_ok_ite _ ⟨false, rfl⟩ (ih (fun x hx => hall x (by simp [hx])))

theorem r_succ_loop1_ok {m : DiGraphMatcher}
    (hc1 : m.g1.Closed) (hnm1 : NameMatch m.g1)
    (hc2 : m.g2.Closed) (hnm2 : NameMatch m.g2)
    {n1 n2 : DiNode}
    (hn1 : n1.get_name ∈ akeys m.g1.nodes)
    (hn2 : n2.get_name ∈ akeys m.g2.nodes) :
    ∀ succs : List DiNode, (∀ nd ∈ succs, nd.get_name ∈ akeys m.g1.nodes) →
      ∃ b, r_succ_loop1 m n1 n2 succs = Except.ok b := by
  intro succs
  induction succs with
  | nil => intro _; exact ⟨true, rfl⟩
  | cons nd rest ih =>
    intro hall
    cases halk : alookup m.core_1 nd.get_name with
    | none =>
      simp only [r_succ_loop1, halk]
      exact ih (fun x hx => hall x (by simp [hx]))
    | some mapped =>
      simp only [r_succ_loop1, halk, successors_ok_of_closed hc2 hn2]
      refine exists_ok_ite _ ⟨false, rfl⟩ ?_
      refine exists_ok_bind
        ⟨_, edge_count_ok_of_closed hc1 hnm1 hn1 _⟩ ?_
      intro c1 _
      refine exists_ok_bind
        ⟨_, edge_count_ok_of_closed hc2 hnm2 hn2 _⟩ ?_
      intro c2 _
      exact exists_ok_ite _ ⟨false, rfl⟩ (ih (fun x hx => hall x (by simp [hx])))

theorem r_succ_loop2_ok {m : DiGraphMatcher}
    (hc1 : m.g1.Closed) (hnm1 : NameMatch m.g1)
    (hc2 : m.g2.Closed) (hnm2 : NameMatch m.g2)
    {n1 n2 : DiNode}
    (hn1 : n1.get_name ∈ akeys m.g1.nodes)
    (hn2 : n2.get_name ∈ akeys m.g2.nodes) :
    ∀ succs : List DiNode, (∀ nd ∈ succs, nd.get_name ∈ akeys m.g2.nodes) →
      ∃ b, r_succ_loop2 m n1 n2 succs = Except.ok b := by
  intro succs
  induction succs with
  | nil => intro _; exact ⟨true, rfl⟩
  | cons nd rest ih =>
    intro hall
    cases halk : alookup m.core_2 nd.get_name with
    | none =>
      simp only [r_succ_loop2, halk]
      exact ih (fun x hx => hall x (by simp [hx]))
    | some mapped =>
      simp only [r_succ_loop2, halk, successors_ok_of_closed hc1 hn1]
      refine exists_ok_ite _ ⟨false, rfl⟩ ?_
      refine exists_ok_bind
        ⟨_, edge_count_ok_of_closed hc2 hnm2 hn2 _⟩ ?_
      intro c2 _
      refine exists_ok_bind
        ⟨_, edge_count_ok_of_closed hc1 hnm1 hn1 _⟩ ?_
      intro c1 _
      exact exists_ok_ite _ ⟨false, rfl⟩ (ih (fun x hx => hall x (by simp [hx])))

theorem nodeRec_get_name {g : DiGraph} (hnm : NameMatch g) (q : String) :
    (g.nodeRec q).get_name = q := nodeRec_name_default hnm q

theorem r_pred_ok {m : DiGraphMatcher}
    (hc1 : m.g1.Closed) (hnm1 : NameMatch m.g1)
    (hc2 : m.g2.Closed) (hnm2 : NameMatch m.g2)
    {n1 n2 : DiNode}
    (hn1 : n1.get_name ∈ akeys m.g1.nodes)
    (hn2 : n2.get_name ∈ akeys m.g2.nodes)
    (hmapped1 : ∀ k v, alookup m.core_1 k = some v → v ∈ akeys m.g2.nodes)
    (hmapped2 : ∀ k v, alookup m.core_2 k = some v → v ∈ akeys m.g1.nodes) :
    ∃ b, m.r_pred n1 n2 = Except.ok b := by
  rw [DiGraphMatcher.r_pred,
    except_bind_ok_forward (predecessors_ok_of_closed hc1 hn1)]
  have hall1 : ∀ nd ∈ (m.g1.predNames n1.get_name).map m.g1.nodeRec,
      nd.get_name ∈ akeys m.g1.nodes := by
    intro nd hnd
    obtain ⟨q, hq, hqe⟩ := List.mem_map.1 hnd
    rw [← hqe, nodeRec_get_name hnm1 q]
    exact closed_predNames hc1 hq
  refine exists_ok_bind (r_pred_loop1_ok hc1 hnm1 hc2 hnm2 hn2 hmapped1 _ hall1) ?_
  intro b1 _
  cases b1 with
  | false => exact ⟨false, rfl⟩
  | true =>
    rw [except_bind_ok_forward (predecessors_ok_of_closed hc2 hn2)]
    have hall2 : ∀ nd ∈ (m.g2.predNames n2.get_name).map m.g2.nodeRec,
        nd.get_name ∈ akeys m.g2.nodes := by
      intro nd hnd
      obtain ⟨q, hq, hqe⟩ := List.mem_map.1 hnd
      rw [← hqe, nodeRec_get_name hnm2 q]
      exact closed_predNames hc2 hq
    refine exists_ok_bind
      (r_pred_loop2_ok hc1 hnm1 hc2 hnm2 hn1 hmapped2 _ hall2) ?_
    intro b2 _
    cases b2 with
    | false => exact ⟨false, rfl⟩
    | true => exact ⟨true, rfl⟩

theorem r_succ_ok {m : DiGraphMatcher}
    (hc1 : m.g1.Closed) (hnm1 : NameMatch m.g1)
    (hc2 : m.g2.Closed) (hnm2 : NameMatch m.g2)
    {n1 n2 : DiNode}
    (hn1 : n1.get_name ∈ akeys m.g1.nodes)
    (hn2 : n2.get_name ∈ akeys m.g2.nodes) :
    ∃ b, m.r_succ n1 n2 = Except.ok b := by
  rw [DiGraphMatcher.r_succ,
    except_bind_ok_forward (successors_ok_of_closed hc1 hn1)]
  have hall1 : ∀ nd ∈ (m.g1.succNames n1.get_name).map m.g1.nodeRec,
      nd.get_name ∈ akeys m.g1.nodes := by
    intro nd hnd
    obtain ⟨q, hq, hqe⟩ := List.mem_map.1 hnd
    rw [← hqe, nodeRec_get_name hnm1 q]
    exact closed_succNames hc1 hq
  refine exists_ok_bind (r_succ_loop1_ok hc1 hnm1 hc2 hnm2 hn1 hn2 _ hall1) ?_
  intro b1 _
  cases b1 with
  | false => exact ⟨false, rfl⟩
  | true =>
    rw [except_bind_ok_forward (successors_ok_of_closed hc2 hn2)]
    have hall2 : ∀ nd ∈ (m.g2.succNames n2.get_name).map m.g2.nodeRec,
        nd.get_name ∈ akeys m.g2.nodes := by
      intro nd hnd
      obtain ⟨q, hq, hqe⟩ := List.mem_map.1 hnd
      rw [← hqe, nodeRec_get_name hnm2 q]
      exact closed_succNames hc2 hq
    refine exists_ok_bind
      (r_succ_loop2_ok hc1 hnm1 hc2 hnm2 hn1 hn2 _ hall2) ?_
    intro b2 _
    cases b2 with
    | false => exact ⟨false, rfl⟩
    | true => exact ⟨true, rfl⟩

theorem r_in_ok {m : DiGraphMatcher}
    (hc1 : m.g1.Closed) (hc2 : m.g2.Closed)
    {n1 n2 : DiNode}
    (hn1 : n1.get_name ∈ akeys m.g1.nodes)
    (hn2 : n2.get_name ∈ akeys m.g2.nodes) :
    ∃ b, m.r_in n1 n2 = Except.ok b := by
  rw [DiGraphMatcher.r_in]
  refine exists_ok_bind ⟨_, predecessors_ok_of_closed hc1 hn1⟩ ?_
  intro p1 _
  refine exists_ok_bind ⟨_, predecessors_ok_of_closed hc2 hn2⟩ ?_
  intro p2 _
  refine exists_ok_ite _ ?_ ⟨false, rfl⟩
  refine exists_ok_bind ⟨_, successors_ok_of_closed hc1 hn1⟩ ?_
  intro s1 _
  refine exists_ok_bind ⟨_, successors_ok_of_closed hc2 hn2⟩ ?_
  intro s2 _
  exact exists_ok_ite _ ⟨true, rfl⟩ ⟨false, rfl⟩

theorem r_out_ok {m : DiGraphMatcher}
    (hc1 : m.g1.Closed) (hc2 : m.g2.Closed)
    {n1 n2 : DiNode}
    (hn1 : n1.get_name ∈ akeys m.g1.nodes)
    (hn2 : n2.get_name ∈ akeys m.g2.nodes) :
    ∃ b, m.r_out n1 n2 = Except.ok b := by
  rw [DiGraphMatcher.r_out]
  refine exists_ok_bind ⟨_, predecessors_ok_of_closed hc1 hn1⟩ ?_
  intro p1 _
  refine exists_ok_bind ⟨_, predecessors_ok_of_closed hc2 hn2⟩ ?_
  intro p2 _
  refine exists_ok_ite _ ?_ ⟨false, rfl⟩
  refine exists_ok_bind ⟨_, successors_ok_of_closed hc1 hn1⟩ ?_
  intro s1 _
  refine exists_ok_bind ⟨_, successors_ok_of_closed hc2 hn2⟩ ?_
  intro s2 _
  exact exists_ok_ite _ ⟨true, rfl⟩ ⟨false, rfl⟩

theorem r_new_ok {m : DiGraphMatcher}
    (hc1 : m.g1.Closed) (hc2 : m.g2.Closed)
    {n1 n2 : DiNode}
    (hn1 : n1.get_name ∈ akeys m.g1.nodes)
    (hn2 : n2.get_name ∈ akeys m.g2.nodes) :
    ∃ b, m.r_new n1 n2 = Except.ok b := by
  rw [DiGraphMatcher.r_new]
  refine exists_ok_bind ⟨_, predecessors_ok_of_closed hc1 hn1⟩ ?_
  intro p1 _
  refine exists_ok_bind ⟨_, predecessors_ok_of_closed hc2 hn2⟩ ?_
  intro p2 _
  refine exists_ok_ite _ ?_ ⟨false, rfl⟩
  refine exists_ok_bind ⟨_, successors_ok_of_closed hc1 hn1⟩ ?_
  intro s1 _
  refine exists_ok_bind ⟨_, successors_ok_of_closed hc2 hn2⟩ ?_
  intro s2 _
  exact exists_ok_ite _ ⟨true, rfl⟩ ⟨false, rfl⟩

theorem syntactic_feasibility_ok {m : DiGraphMatcher}
    (hwf1 : m.g1.WellFormed) (hwf2 : m.g2.WellFormed)
    (hmapped1 : ∀ k v, alookup m.core_1 k = some v → v ∈ akeys m.g2.nodes)
    (hmapped2 : ∀ k v, alookup m.core_2 k = some v → v ∈ akeys m.g1.nodes)
    {p h : String} (hp : p ∈ akeys m.g1.nodes) (hh : h ∈ akeys m.g2.nodes) :
    ∃ b, m.syntactic_feasibility p h = Except.ok b := by
  obtain ⟨nd1, hnd1⟩ := Option.isSome_iff_exists.1 (alookup_isSome_of_mem hp)
  obtain ⟨nd2, hnd2⟩ := Option.isSome_iff_exists.1 (alookup_isSome_of_mem hh)
  have hgn1 : m.g1.get_node p = some nd1 := hnd1
  have hgn2 : m.g2.get_node h = some nd2 := hnd2
  have hname1 : nd1.get_name = p :=
    wf_nameMatch hwf1 (p, nd1) (mem_of_alookup_eq_some hnd1)
  have hname2 : nd2.get_name = h :=
    wf_nameMatch hwf2 (h, nd2) (mem_of_alookup_eq_some hnd2)
  have hpn : nd1.get_name ∈ akeys m.g1.nodes := by rw [hname1]; exact hp
  have hhn : nd2.get_name ∈ akeys m.g2.nodes := by rw [hname2]; exact hh
  rw [DiGraphMatcher.syntactic_feasibility]
  simp only [hgn1, hgn2]
  refine exists_ok_bind (r_self_ok (wf_closed hwf1) (wf_nameMatch hwf1)
    (wf_closed hwf2) (wf_nameMatch hwf2) hpn hhn) ?_
  intro b1 _
  cases b1 with
  | false => exact ⟨false, rfl⟩
  | true =>
    refine exists_ok_bind (r_pred_ok (wf_closed hwf1) (wf_nameMatch hwf1)
      (wf_closed hwf2) (wf_nameMatch hwf2) hpn hhn hmapped1 hmapped2) ?_
    intro b2 _
    cases b2 with
    | false => exact ⟨false, rfl⟩
    | true =>
      refine exists_ok_bind (r_succ_ok (wf_closed hwf1) (wf_nameMatch hwf1)
        (wf_closed hwf2) (wf_nameMatch hwf2) hpn hhn) ?_
      intro b3 _
      cases b3 with
      | false => exact ⟨false, rfl⟩
      | true =>
        refine exists_ok_bind (r_in_ok (wf_closed hwf1)
          (wf_closed hwf2) hpn hhn) ?_
        intro b4 _
        cases b4 with
        | false => exact ⟨false, rfl⟩
        | true =>
          refine exists_ok_bind (r_out_ok (wf_closed hwf1)
            (wf_closed hwf2) hpn hhn) ?_
          intro b5 _
          cases b5 with
          | false => exact ⟨false, rfl⟩
          | true =>
            refine exists_ok_bind (r_new_ok (wf_closed hwf1)
              (wf_closed hwf2) hpn hhn) ?_
            intro b6 _
            cases b6 with
            | false => exact ⟨false, rfl⟩
            | true => exact ⟨true, rfl⟩

theorem candidate_ok {g1 g2 : DiGraph} {m : DiGraphMatcher}
    (hwf2 : g2.WellFormed) (hinv : MatcherInv g1 g2 m) :
    ∃ pairs, m.candidate_paris_iter = Except.ok pairs := by
  have hkeys : ∀ k ∈ akeys g2.nodes, k ∈ akeys m.g2_node_order := by
    intro k hk
    rw [hinv.hord]
    obtain ⟨i, hi, _⟩ := @order_lookup_mem g1 g2 (wf_nodup hwf2) k hk
    exact mem_akeys_of_alookup hi
  have hsub2k : ∀ k, k ∈ akeys m.core_2 → k ∈ akeys g2.nodes := by
    intro k hk
    obtain ⟨v, hv⟩ := exists_val_of_mem_akeys hk
    exact hinv.hsub2 (k, v) hv
  have hout2sub : ∀ k ∈ akeys m.out_2, k ∈ akeys g2.nodes := by
    intro k hk
    rcases (hinv.hout2 k).1 hk with hk2 | ⟨c, hc, hks⟩
    · exact hsub2k k hk2
    · exact closed_succNames (wf_closed hwf2) hks
  have hin2sub : ∀ k ∈ akeys m.in_2, k ∈ akeys g2.nodes := by
    intro k hk
    rcases (hinv.hin2 k).1 hk with hk2 | ⟨c, hc, hks⟩
    · exact hsub2k k hk2
    · exact closed_predNames (wf_closed hwf2) hks
  have hg2nodes : ∀ k, k ∈ m.g2_nodes → k ∈ akeys g2.nodes := by
    intro k hk
    rw [hinv.hg2n] at hk
    have : k ∈ hsetOf g2.get_nodes := hk
    rw [mem_hsetOf] at this
    exact this
  rw [candidate_paris_iter_eq]
  by_cases hb1 : 0 < m.tout1.length ∧ 0 < m.tout2.length
  · rw [if_pos hb1]
    obtain ⟨best, hb⟩ := minOrderScan_ok m.g2_node_order m.tout2
      (emptyName, usizeMax)
      (fun k hk => hkeys k (hout2sub k (List.mem_filter.1 hk).1))
    rw [except_bind_ok_forward hb]
    exact ⟨_, rfl⟩
  · rw [if_neg hb1]
    by_cases hb2 : 0 < m.tin1.length ∧ 0 < m.tin2.length
    · rw [if_pos hb2]
      obtain ⟨best, hb⟩ := minOrderScan_ok m.g2_node_order m.tin2
        (emptyName, usizeMax)
        (fun k hk => hkeys k (hin2sub k (List.mem_filter.1 hk).1))
      rw [except_bind_ok_forward hb]
      exact ⟨_, rfl⟩
    · rw [if_neg hb2]
      obtain ⟨best, hb⟩ := minOrderScan_ok m.g2_node_order
        (m.g2_nodes.filter (fun name => ¬ name ∈ akeys m.core_2))
        (emptyName, usizeMax)
        (fun k hk => hkeys k (hg2nodes k (List.mem_filter.1 hk).1))
      rw [except_bind_ok_forward hb]
      exact ⟨_, rfl⟩

theorem core_lt_count {g1 g2 : DiGraph} {m : DiGraphMatcher}
    (hinv : MatcherInv g1 g2 m)
    (hne : m.core_1.length ≠ g2.node_count) :
    m.core_1.length < g2.node_count := by
  have hsub2k : ∀ k, k ∈ akeys m.core_2 → k ∈ akeys g2.nodes := by
    intro k hk
    obtain ⟨v, hv⟩ := exists_val_of_mem_akeys hk
    exact hinv.hsub2 (k, v) hv
  have hle : m.core_2.length ≤ g2.node_count := by
    have := @nodup_subset_length (akeys m.core_2) (akeys g2.nodes)
      hinv.hnd2 (fun k hk => hsub2k k hk)
    simpa [DiGraph.node_count, akeys] using this
  rw [hinv.hlen] at hne ⊢
  omega

theorem try_pairs_go_ok {g1 g2 : DiGraph}
    (hwf1 : g1.WellFormed) (hwf2 : g2.WellFormed)
    (hsz : g2.node_count ≤ usizeMax) (fuel : Nat)
    (IH : ∀ m1 : DiGraphMatcher, ∀ sink1 : List GMapping,
      MatcherInv g1 g2 m1 → g2.node_count - m1.core_1.length < fuel →
      ∃ r, DiGraphMatcher.try_match_aux fuel m1 sink1 = Except.ok r)
    {m0 : DiGraphMatcher} (hinv : MatcherInv g1 g2 m0)
    (hne : m0.core_1.length ≠ g2.node_count)
    (hflt : g2.node_count - m0.core_1.length < fuel + 1)
    {pairs : List (String × String)}
    (hcand : m0.candidate_paris_iter = Except.ok pairs) :
    ∀ rest : List (String × String), (∀ pr ∈ rest, pr ∈ pairs) →
      ∀ sink, ∃ r, DiGraphMatcher.try_pairs_go
        (DiGraphMatcher.try_match_aux fuel) rest m0 sink = Except.ok r := by
  intro rest
  induction rest with
  | nil =>
    intro _ sink
    rw [DiGraphMatcher.try_pairs_go]
    exact ⟨_, rfl⟩
  | cons pr rest ih =>
    obtain ⟨p, h⟩ := pr
    intro hsub sink
    rw [DiGraphMatcher.try_pairs_go]
    by_cases hsem : m0.semantic_feasibility p h = true
    · rw [if_pos hsem]
      obtain ⟨f1, f2, f3, f4⟩ :=
        candidate_facts hwf1 hwf2 hsz hinv hne hcand (hsub (p, h) (by simp))
      have hg1wf : m0.g1.WellFormed := by rw [hinv.hg1]; exact hwf1
      have hg2wf : m0.g2.WellFormed := by rw [hinv.hg2]; exact hwf2
      have hsub1k : ∀ k, k ∈ akeys m0.core_1 → k ∈ akeys g1.nodes := by
        intro k hk
        obtain ⟨v, hv⟩ := exists_val_of_mem_akeys hk
        exact hinv.hsub1 (k, v) hv
      have hsub2k : ∀ k, k ∈ akeys m0.core_2 → k ∈ akeys g2.nodes := by
        intro k hk
        obtain ⟨v, hv⟩ := exists_val_of_mem_akeys hk
        exact hinv.hsub2 (k, v) hv
      have hmapped1 : ∀ k v, alookup m0.core_1 k = some v →
          v ∈ akeys m0.g2.nodes := by
        intro k v hkv
        have h2 := hinv.hinv12 (k, v) (mem_of_alookup_eq_some hkv)
        rw [hinv.hg2]
        exact hsub2k v (mem_akeys_of_alookup h2)
      have hmapped2 : ∀ k v, alookup m0.core_2 k = some v →
          v ∈ akeys m0.g1.nodes := by
        intro k v hkv
        have h2 := hinv.hinv21 (k, v) (mem_of_alookup_eq_some hkv)
        rw [hinv.hg1]
        exact hsub1k v (mem_akeys_of_alookup h2)
      have hp : p ∈ akeys m0.g1.nodes := by rw [hinv.hg1]; exact f1
      have hh : h ∈ akeys m0.g2.nodes := by rw [hinv.hg2]; exact f3
      obtain ⟨b, hsyn⟩ :=
        syntactic_feasibility_ok hg1wf hg2wf hmapped1 hmapped2 hp hh
      cases b with
      | false =>
        simp only [hsyn]
        exact ih (fun x hx => hsub x (by simp [hx])) sink
      | true =>
        simp only [hsyn]
        have hkeys1 : ∀ c ∈ akeys (ainsert m0.core_1 p h),
            c ∈ akeys g1.nodes := by
          intro c hc
          rw [ainsert_of_not_mem _ _ _ f2, akeys_append] at hc
          rcases List.mem_append.1 hc with hc | hc
          · exact hsub1k c hc
          · have hcp : c = p := by simpa [akeys] using hc
            rw [hcp]
            exact f1
        have hkeys2 : ∀ c ∈ akeys (ainsert m0.core_2 h p),
            c ∈ akeys g2.nodes := by
          intro c hc
          rw [ainsert_of_not_mem _ _ _ f4, akeys_append] at hc
          rcases List.mem_append.1 hc with hc | hc
          · exact hsub2k c hc
          · have hch : c = h := by simpa [akeys] using hc
            rw [hch]
            exact f3
        obtain ⟨⟨m1, st⟩, hcr⟩ := create_some_ok_exists
          (fun c hc => ⟨_, by
            rw [hinv.hg1]
            exact predecessors_ok_of_closed (wf_closed hwf1) (hkeys1 c hc)⟩)
          (fun c hc => ⟨_, by
            rw [hinv.hg2]
            exact predecessors_ok_of_closed (wf_closed hwf2) (hkeys2 c hc)⟩)
          (fun c hc => ⟨_, by
            rw [hinv.hg1]
            exact successors_ok_of_closed (wf_closed hwf1) (hkeys1 c hc)⟩)
          (fun c hc => ⟨_, by
            rw [hinv.hg2]
            exact successors_ok_of_closed (wf_closed hwf2) (hkeys2 c hc)⟩)
        simp only [hcr]
        have hinv1 : MatcherInv g1 g2 m1 :=
          inv_create_step hwf1 hwf2 hinv f1 f2 f3 f4 hcr
        obtain ⟨n1, n2, o1, o2, _, _, _, _, hst, hm1eq⟩ :=
          create_some_ok_spec hcr
        have hlen1 : m1.core_1.length = m0.core_1.length + 1 := by
          rw [hm1eq]
          exact length_ainsert_of_not_mem _ _ _ f2
        have hcore_lt := core_lt_count hinv hne
        have hflt2 : g2.node_count - m1.core_1.length < fuel := by
          rw [hlen1]
          omega
        obtain ⟨⟨m2, sink2⟩, hrun⟩ := IH m1 sink hinv1 hflt2
        simp only [hrun]
        obtain ⟨ext, hm2, -, -⟩ :=
          try_match_preserves hwf1 hwf2 hsz fuel hinv1 sink hrun
        have hrest : st.restore m1 = m0 :=
          create_restore_id hcr f2 f4 hinv.hdin1 hinv.hdin2
            hinv.hdout1 hinv.hdout2 hinv.hndin1 hinv.hndin2
            hinv.hndout1 hinv.hndout2
        rw [hm2, hrest]
        exact ih (fun x hx => hsub x (by simp [hx])) sink2
    · rw [if_neg hsem]
      exact ih (fun x hx => hsub x (by simp [hx])) sink

theorem try_match_ok {g1 g2 : DiGraph}
    (hwf1 : g1.WellFormed) (hwf2 : g2.WellFormed)
    (hsz : g2.node_count ≤ usizeMax) :
    ∀ fuel : Nat, ∀ m : DiGraphMatcher, ∀ sink : List GMapping,
      MatcherInv g1 g2 m → g2.node_count - m.core_1.length < fuel →
      ∃ r, DiGraphMatcher.try_match_aux fuel m sink = Except.ok r := by
  intro fuel
  induction fuel with
  | zero =>
    intro m sink _ hflt
    exact absurd hflt (Nat.not_lt_zero _)
  | succ fuel ih =>
    intro m sink hinv hflt
    rw [DiGraphMatcher.try_match_aux]
    by_cases hdone : m.core_1.length = m.g2.node_count
    · rw [if_pos hdone]
      exact ⟨_, rfl⟩
    · rw [if_neg hdone]
      have hne : m.core_1.length ≠ g2.node_count := by
        rw [← hinv.hg2]
        exact hdone
      obtain ⟨pairs, hcand⟩ := candidate_ok hwf2 hinv
      simp only [hcand]
      exact try_pairs_go_ok hwf1 hwf2 hsz fuel
        (fun m1 sink1 h1 h2 => ih m1 sink1 h1 h2) hinv hne hflt hcand
        pairs (fun x hx => hx) sink

/-- C8: over well-formed input graphs — every key appearing in any node's
predecessor or successor set is itself a node of that graph, node records
are named after their keys, and adjacency sets respect the `HashSet`
representation — matcher construction and a full subgraph enumeration
return without ever reaching an error branch: every adjacency resolution
and every unwrap in the feasibility predicates, the candidate generator
and the state updates succeeds, so an unknown-node error can arise only
from a graph whose adjacency lists reference a missing key. -/
theorem C8_no_error_on_wellformed (g1 g2 : DiGraph)
    (hwf1 : g1.WellFormed) (hwf2 : g2.WellFormed)
    (hsz : g2.node_count ≤ usizeMax) :
    ∃ r, subgraphIsomorphisms g1 g2 = Except.ok r := by
  rw [subgraphIsomorphisms, subgraph_iter_eq]
  have hinv0 : MatcherInv g1 g2 (clearedOf (DiGraphMatcher.new g1 g2)) :=
    inv_matcherStart g1 g2
  exact try_match_ok hwf1 hwf2 hsz (g2.node_count + 1)
    (clearedOf (DiGraphMatcher.new g1 g2)) [] hinv0
    (Nat.lt_succ_of_le (Nat.sub_le _ _))

/-- Witness for C8 on the concrete single-edge pattern/host pair. -/
theorem C8_witness :
    ∃ r, subgraphIsomorphisms exPatEdge exHostEdge = Except.ok r :=
  C8_no_error_on_wellformed exPatEdge exHostEdge (by decide) (by decide)
    (by decide)

/-! ## Extraction lemmas: what a passed feasibility test guarantees -/

theorem ecount_pos_iff (g : DiGraph) (u v : String) :
    0 < ecount g u v ↔ v ∈ g.succNames u := by
  rw [ecount, List.length_pos]
  constructor
  · intro hne
    obtain ⟨x, hx⟩ := List.exists_mem_of_ne_nil _ hne
    have hm := List.mem_filter.1 hx
    have hv : x = v := by simpa using hm.2
    rw [← hv]
    exact hm.1
  · intro hv hnil
    rw [List.filter_eq_nil_iff] at hnil
    exact hnil v hv (by simp)

theorem succ_of_pred {g : DiGraph} (hwf : g.WellFormed) {u v : String}
    (hv : v ∈ akeys g.nodes) (h : u ∈ g.predNames v) : v ∈ g.succNames u := by
  obtain ⟨nd, hnd⟩ := Option.isSome_iff_exists.1 (alookup_isSome_of_mem hv)
  have hpn : g.predNames v = nd.predecessors := by
    simp [DiGraph.predNames, DiGraph.nodeRec, hnd]
  rw [hpn] at h
  exact hwf.2.2.2.1 (v, nd) (mem_of_alookup_eq_some hnd) u h

theorem pred_of_succ {g : DiGraph} (hwf : g.WellFormed) {u v : String}
    (hu : u ∈ akeys g.nodes) (h : v ∈ g.succNames u) : u ∈ g.predNames v := by
  obtain ⟨nd, hnd⟩ := Option.isSome_iff_exists.1 (alookup_isSome_of_mem hu)
  have hsn : g.succNames u = nd.successors := by
    simp [DiGraph.succNames, DiGraph.nodeRec, hnd]
  rw [hsn] at h
  exact hwf.2.2.2.2 (u, nd) (mem_of_alookup_eq_some hnd) v h

theorem r_self_true {m : DiGraphMatcher}
    (hc1 : m.g1.Closed) (hnm1 : NameMatch m.g1)
    (hc2 : m.g2.Closed) (hnm2 : NameMatch m.g2)
    {n1 n2 : DiNode}
    (hn1 : n1.get_name ∈ akeys m.g1.nodes)
    (hn2 : n2.get_name ∈ akeys m.g2.nodes)
    (h : m.r_self n1 n2 = Except.ok true) :
    ecount m.g1 n1.get_name n1.get_name =
      ecount m.g2 n2.get_name n2.get_name := by
  rw [DiGraphMatcher.r_self,
    except_bind_ok_forward (edge_count_ok_of_closed hc1 hnm1 hn1 _),
    except_bind_ok_forward (edge_count_ok_of_closed hc2 hnm2 hn2 _)] at h
  by_cases he : ecount m.g1 n1.get_name n1.get_name =
      ecount m.g2 n2.get_name n2.get_name
  · exact he
  · rw [if_neg he] at h
    simp [pure, Except.pure] at h

theorem r_pred_loop1_true {m : DiGraphMatcher}
    (hc1 : m.g1.Closed) (hnm1 : NameMatch m.g1)
    (hc2 : m.g2.Closed) (hnm2 : NameMatch m.g2)
    {n1 n2 : DiNode}
    (hn2 : n2.get_name ∈ akeys m.g2.nodes)
    (hmapped : ∀ k v, alookup m.core_1 k = some v → v ∈ akeys m.g2.nodes) :
    ∀ l : List DiNode, (∀ nd ∈ l, nd.get_name ∈ akeys m.g1.nodes) →
      r_pred_loop1 m n1 n2 l = Except.ok true →
      ∀ nd ∈ l, ∀ mp, alookup m.core_1 nd.get_name = some mp →
        ecount m.g1 nd.get_name n1.get_name =
          ecount m.g2 mp n2.get_name := by
  intro l
  induction l with
  | nil => intro _ _ nd hnd; simp at hnd
  | cons nd rest ih =>
    intro hall h nd' hmem mp hmp
    cases halk : alookup m.core_1 nd.get_name with
    | none =>
      simp only [r_pred_loop1, halk] at h
      rcases List.mem_cons.1 hmem with rfl | hmem'
      · rw [hmp] at halk
        exact Option.noConfusion halk
      · exact ih (fun x hx => hall x (by simp [hx])) h nd' hmem' mp hmp
    | some mapped =>
      simp only [r_pred_loop1, halk, predecessors_ok_of_closed hc2 hn2] at h
      split at h
      · simp [pure, Except.pure] at h
      · rw [except_bind_ok_forward
            (edge_count_ok_of_closed hc1 hnm1 (hall nd (by simp)) _),
          except_bind_ok_forward
            (edge_count_ok_of_closed hc2 hnm2 (hmapped _ _ halk) _)] at h
        split at h
        · simp [pure, Except.pure] at h
        · next hne =>
          rcases List.mem_cons.1 hmem with rfl | hmem'
          · rw [hmp] at halk
            injection halk with halk
            rw [halk]
            exact Decidable.not_not.1 hne
          · exact ih (fun x hx => hall x (by simp [hx])) h nd' hmem' mp hmp

theorem r_pred_loop2_true {m : DiGraphMatcher}
    (hc1 : m.g1.Closed) (hnm1 : NameMatch m.g1)
    (hc2 : m.g2.Closed) (hnm2 : NameMatch m.g2)
    {n1 n2 : DiNode}
    (hn1 : n1.get_name ∈ akeys m.g1.nodes)
    (hmapped : ∀ k v, alookup m.core_2 k = some v → v ∈ akeys m.g1.nodes) :
    ∀ l : List DiNode, (∀ nd ∈ l, nd.get_name ∈ akeys m.g2.nodes) →
      r_pred_loop2 m n1 n2 l = Except.ok true →
      ∀ nd ∈ l, ∀ mp, alookup m.core_2 nd.get_name = some mp →
        ecount m.g2 nd.get_name n2.get_name =
          ecount m.g1 mp n1.get_name := by
  intro l
  induction l with
  | nil => intro _ _ nd hnd; simp at hnd
  | cons nd rest ih =>
    intro hall h nd' hmem mp hmp
    cases halk : alookup m.core_2 nd.get_name with
    | none =>
      simp only [r_pred_loop2, halk] at h
      rcases List.mem_cons.1 hmem with rfl | hmem'
      · rw [hmp] at halk
        exact Option.noConfusion halk
      · exact ih (fun x hx => hall x (by simp [hx])) h nd' hmem' mp hmp
    | some mapped =>
      simp only [r_pred_loop2, halk, predecessors_ok_of_closed hc1 hn1] at h
      split at h
      · simp [pure, Except.pure] at h
      · rw [except_bind_ok_forward
            (edge_count_ok_of_closed hc2 hnm2 (hall nd (by simp)) _),
          except_bind_ok_forward
            (edge_count_ok_of_closed hc1 hnm1 (hmapped _ _ halk) _)] at h
        split at h
        · simp [pure, Except.pure] at h
        · next hne =>
          rcases List.mem_cons.1 hmem with rfl | hmem'
          · rw [hmp] at halk
            injection halk with halk
            rw [halk]
            exact Decidable.not_not.1 hne
          · exact ih (fun x hx => hall x (by simp [hx])) h nd' hmem' mp hmp

theorem r_succ_loop1_true {m : DiGraphMatcher}
    (hc1 : m.g1.Closed) (hnm1 : NameMatch m.g1)
    (hc2 : m.g2.Closed) (hnm2 : NameMatch m.g2)
    {n1 n2 : DiNode}
    (hn1 : n1.get_name ∈ akeys m.g1.nodes)
    (hn2 : n2.get_name ∈ akeys m.g2.nodes) :
    ∀ l : List DiNode, (∀ nd ∈ l, nd.get_name ∈ akeys m.g1.nodes) →
      r_succ_loop1 m n1 n2 l = Except.ok true →
      ∀ nd ∈ l, ∀ mp, alookup m.core_1 nd.get_name = some mp →
        ecount m.g1 n1.get_name nd.get_name =
          ecount m.g2 n2.get_name mp := by
  intro l
  induction l with
  | nil => intro _ _ nd hnd; simp at hnd
  | cons nd rest ih =>
    intro hall h nd' hmem mp hmp
    cases halk : alookup m.core_1 nd.get_name with
    | none =>
      simp only [r_succ_loop1, halk] at h
      rcases List.mem_cons.1 hmem with rfl | hmem'
      · rw [hmp] at halk
        exact Option.noConfusion halk
      · exact ih (fun x hx => hall x (by simp [hx])) h nd' hmem' mp hmp
    | some mapped =>
      simp only [r_succ_loop1, halk, successors_ok_of_closed hc2 hn2] at h
      split at h
      · simp [pure, Except.pure] at h
      · rw [except_bind_ok_forward
            (edge_count_ok_of_closed hc1 hnm1 hn1 _),
          except_bind_ok_forward
            (edge_count_ok_of_closed hc2 hnm2 hn2 _)] at h
        split at h
        · simp [pure, Except.pure] at h
        · next hne =>
          rcases List.mem_cons.1 hmem with rfl | hmem'
          · rw [hmp] at halk
            injection halk with halk
            rw [halk]
            exact Decidable.not_not.1 hne
          · exact ih (fun x hx => hall x (by simp [hx])) h nd' hmem' mp hmp

theorem r_succ_loop2_true {m : DiGraphMatcher}
    (hc1 : m.g1.Closed) (hnm1 : NameMatch m.g1)
    (hc2 : m.g2.Closed) (hnm2 : NameMatch m.g2)
    {n1 n2 : DiNode}
    (hn1 : n1.get_name ∈ akeys m.g1.nodes)
    (hn2 : n2.get_name ∈ akeys m.g2.nodes) :
    ∀ l : List DiNode, (∀ nd ∈ l, nd.get_name ∈ akeys m.g2.nodes) →
      r_succ_loop2 m n1 n2 l = Except.ok true →
      ∀ nd ∈ l, ∀ mp, alookup m.core_2 nd.get_name = some mp →
        ecount m.g2 n2.get_name nd.get_name =
          ecount m.g1 n1.get_name mp := by
  intro l
  induction l with
  | nil => intro _ _ nd hnd; simp at hnd
  | cons nd rest ih =>
    intro hall h nd' hmem mp hmp
    cases halk : alookup m.core_2 nd.get_name with
    | none =>
      simp only [r_succ_loop2, halk] at h
      rcases List.mem_cons.1 hmem with rfl | hmem'
      · rw [hmp] at halk
        exact Option.noConfusion halk
      · exact ih (fun x hx => hall x (by simp [hx])) h nd' hmem' mp hmp
    | some mapped =>
      simp only [r_succ_loop2, halk, successors_ok_of_closed hc1 hn1] at h
      split at h
      · simp [pure, Except.pure] at h
      · rw [except_bind_ok_forward
            (edge_count_ok_of_closed hc2 hnm2 hn2 _),
          except_bind_ok_forward
            (edge_count_ok_of_closed hc1 hnm1 hn1 _)] at h
        split at h
        · simp [pure, Except.pure] at h
        · next hne =>
          rcases List.mem_cons.1 hmem with rfl | hmem'
          · rw [hmp] at halk
            injection halk with halk
            rw [halk]
            exact Decidable.not_not.1 hne
          · exact ih (fun x hx => hall x (by simp [hx])) h nd' hmem' mp hmp

theorem r_pred_true {m : DiGraphMatcher}
    (hwf1 : m.g1.WellFormed) (hwf2 : m.g2.WellFormed)
    {n1 n2 : DiNode}
    (hn1 : n1.get_name ∈ akeys m.g1.nodes)
    (hn2 : n2.get_name ∈ akeys m.g2.nodes)
    (hmapped1 : ∀ k v, alookup m.core_1 k = some v → v ∈ akeys m.g2.nodes)
    (hmapped2 : ∀ k v, alookup m.core_2 k = some v → v ∈ akeys m.g1.nodes)
    (h : m.r_pred n1 n2 = Except.ok true) :
    r_pred_loop1 m n1 n2
      ((m.g1.predNames n1.get_name).map m.g1.nodeRec) = Except.ok true ∧
    r_pred_loop2 m n1 n2
      ((m.g2.predNames n2.get_name).map m.g2.nodeRec) = Except.ok true := by
  have hc1 := wf_closed hwf1
  have hnm1 := wf_nameMatch hwf1
  have hc2 := wf_closed hwf2
  have hnm2 := wf_nameMatch hwf2
  rw [DiGraphMatcher.r_pred,
    except_bind_ok_forward (predecessors_ok_of_closed hc1 hn1)] at h
  have hall1 : ∀ nd ∈ (m.g1.predNames n1.get_name).map m.g1.nodeRec,
      nd.get_name ∈ akeys m.g1.nodes := by
    intro nd hnd
    obtain ⟨q, hq, hqe⟩ := List.mem_map.1 hnd
    rw [← hqe, nodeRec_get_name hnm1 q]
    exact closed_predNames hc1 hq
  obtain ⟨b1, hb1⟩ :=
    r_pred_loop1_ok hc1 hnm1 hc2 hnm2 hn2 hmapped1 _ hall1
  rw [except_bind_ok_forward hb1] at h
  cases b1 with
  | false => simp [pure, Except.pure] at h
  | true =>
    rw [if_pos rfl,
      except_bind_ok_forward (predecessors_ok_of_closed hc2 hn2)] at h
    have hall2 : ∀ nd ∈ (m.g2.predNames n2.get_name).map m.g2.nodeRec,
        nd.get_name ∈ akeys m.g2.nodes := by
      intro nd hnd
      obtain ⟨q, hq, hqe⟩ := List.mem_map.1 hnd
      rw [← hqe, nodeRec_get_name hnm2 q]
      exact closed_predNames hc2 hq
    obtain ⟨b2, hb2⟩ :=
      r_pred_loop2_ok hc1 hnm1 hc2 hnm2 hn1 hmapped2 _ hall2
    rw [except_bind_ok_forward hb2] at h
    cases b2 with
    | false => simp [pure, Except.pure] at h
    | true => exact ⟨hb1, hb2⟩

theorem r_succ_true {m : DiGraphMatcher}
    (hwf1 : m.g1.WellFormed) (hwf2 : m.g2.WellFormed)
    {n1 n2 : DiNode}
    (hn1 : n1.get_name ∈ akeys m.g1.nodes)
    (hn2 : n2.get_name ∈ akeys m.g2.nodes)
    (h : m.r_succ n1 n2 = Except.ok true) :
    r_succ_loop1 m n1 n2
      ((m.g1.succNames n1.get_name).map m.g1.nodeRec) = Except.ok true ∧
    r_succ_loop2 m n1 n2
      ((m.g2.succNames n2.get_name).map m.g2.nodeRec) = Except.ok true := by
  have hc1 := wf_closed hwf1
  have hnm1 := wf_nameMatch hwf1
  have hc2 := wf_closed hwf2
  have hnm2 := wf_nameMatch hwf2
  rw [DiGraphMatcher.r_succ,
    except_bind_ok_forward (successors_ok_of_closed hc1 hn1)] at h
  have hall1 : ∀ nd ∈ (m.g1.succNames n1.get_name).map m.g1.nodeRec,
      nd.get_name ∈ akeys m.g1.nodes := by
    intro nd hnd
    obtain ⟨q, hq, hqe⟩ := List.mem_map.1 hnd
    rw [← hqe, nodeRec_get_name hnm1 q]
    exact closed_succNames hc1 hq
  obtain ⟨b1, hb1⟩ := r_succ_loop1_ok hc1 hnm1 hc2 hnm2 hn1 hn2 _ hall1
  rw [except_bind_ok_forward hb1] at h
  cases b1 with
  | false => simp [pure, Except.pure] at h
  | true =>
    rw [if_pos rfl,
      except_bind_ok_forward (successors_ok_of_closed hc2 hn2)] at h
    have hall2 : ∀ nd ∈ (m.g2.succNames n2.get_name).map m.g2.nodeRec,
        nd.get_name ∈ akeys m.g2.nodes := by
      intro nd hnd
      obtain ⟨q, hq, hqe⟩ := List.mem_map.1 hnd
      rw [← hqe, nodeRec_get_name hnm2 q]
      exact closed_succNames hc2 hq
    obtain ⟨b2, hb2⟩ := r_succ_loop2_ok hc1 hnm1 hc2 hnm2 hn1 hn2 _ hall2
    rw [except_bind_ok_forward hb2] at h
    cases b2 with
    | false => simp [pure, Except.pure] at h
    | true => exact ⟨hb1, hb2⟩

theorem semantic_true_weights {m : DiGraphMatcher}
    {p h : String} (hp : p ∈ akeys m.g1.nodes) (hh : h ∈ akeys m.g2.nodes)
    (hsem : m.semantic_feasibility p h = true) :
    (m.g1.nodeRec p).weight = (m.g2.nodeRec h).weight := by
  obtain ⟨nd1, hnd1⟩ := Option.isSome_iff_exists.1 (alookup_isSome_of_mem hp)
  obtain ⟨nd2, hnd2⟩ := Option.isSome_iff_exists.1 (alookup_isSome_of_mem hh)
  have hgn1 : m.g1.get_node p = some nd1 := hnd1
  have hgn2 : m.g2.get_node h = some nd2 := hnd2
  have hr1 : m.g1.nodeRec p = nd1 := by rw [DiGraph.nodeRec, hnd1]; rfl
  have hr2 : m.g2.nodeRec h = nd2 := by rw [DiGraph.nodeRec, hnd2]; rfl
  rw [DiGraphMatcher.semantic_feasibility] at hsem
  simp only [hgn1, hgn2] at hsem
  rw [hr1, hr2]
  cases hw1 : nd1.weight with
  | none =>
    cases hw2 : nd2.weight with
    | none => rfl
    | some v2 =>
      simp only [DiNode.get_weight, hw1, hw2] at hsem
      exact Bool.noConfusion hsem
  | some v1 =>
    cases hw2 : nd2.weight with
    | none =>
      simp only [DiNode.get_weight, hw1, hw2] at hsem
      exact Bool.noConfusion hsem
    | some v2 =>
      simp only [DiNode.get_weight, hw1, hw2] at hsem
      have : v1 = v2 := by simpa using hsem
      rw [this]

theorem syntactic_true {m : DiGraphMatcher}
    (hwf1 : m.g1.WellFormed) (hwf2 : m.g2.WellFormed)
    (hmapped1 : ∀ k v, alookup m.core_1 k = some v → v ∈ akeys m.g2.nodes)
    (hmapped2 : ∀ k v, alookup m.core_2 k = some v → v ∈ akeys m.g1.nodes)
    {p h : String} (hp : p ∈ akeys m.g1.nodes) (hh : h ∈ akeys m.g2.nodes)
    (hsyn : m.syntactic_feasibility p h = Except.ok true) :
    m.r_self (m.g1.nodeRec p) (m.g2.nodeRec h) = Except.ok true ∧
    m.r_pred (m.g1.nodeRec p) (m.g2.nodeRec h) = Except.ok true ∧
    m.r_succ (m.g1.nodeRec p) (m.g2.nodeRec h) = Except.ok true := by
  obtain ⟨nd1, hnd1⟩ := Option.isSome_iff_exists.1 (alookup_isSome_of_mem hp)
  obtain ⟨nd2, hnd2⟩ := Option.isSome_iff_exists.1 (alookup_isSome_of_mem hh)
  have hgn1 : m.g1.get_node p = some nd1 := hnd1
  have hgn2 : m.g2.get_node h = some nd2 := hnd2
  have hr1 : m.g1.nodeRec p = nd1 := by rw [DiGraph.nodeRec, hnd1]; rfl
  have hr2 : m.g2.nodeRec h = nd2 := by rw [DiGraph.nodeRec, hnd2]; rfl
  have hname1 : nd1.get_name = p :=
    wf_nameMatch hwf1 (p, nd1) (mem_of_alookup_eq_some hnd1)
  have hname2 : nd2.get_name = h :=
    wf_nameMatch hwf2 (h, nd2) (mem_of_alookup_eq_some hnd2)
  have hpn : nd1.get_name ∈ akeys m.g1.nodes := by rw [hname1]; exact hp
  have hhn : nd2.get_name ∈ akeys m.g2.nodes := by rw [hname2]; exact hh
  rw [DiGraphMatcher.syntactic_feasibility] at hsyn
  simp only [hgn1, hgn2] at hsyn
  obtain ⟨b1, hb1⟩ := r_self_ok (wf_closed hwf1) (wf_nameMatch hwf1)
    (wf_closed hwf2) (wf_nameMatch hwf2) hpn hhn
  rw [except_bind_ok_forward hb1] at hsyn
  cases b1 with
  | false => simp [pure, Except.pure] at hsyn
  | true =>
    rw [if_pos rfl] at hsyn
    obtain ⟨b2, hb2⟩ := r_pred_ok (wf_closed hwf1) (wf_nameMatch hwf1)
      (wf_closed hwf2) (wf_nameMatch hwf2) hpn hhn hmapped1 hmapped2
    rw [except_bind_ok_forward hb2] at hsyn
    cases b2 with
    | false => simp [pure, Except.pure] at hsyn
    | true =>
      rw [if_pos rfl] at hsyn
      obtain ⟨b3, hb3⟩ := r_succ_ok (wf_closed hwf1) (wf_nameMatch hwf1)
        (wf_closed hwf2) (wf_nameMatch hwf2) hpn hhn
      rw [except_bind_ok_forward hb3] at hsyn
      cases b3 with
      | false => simp [pure, Except.pure] at hsyn
      | true =>
        rw [hr1, hr2]
        exact ⟨hb1, hb2, hb3⟩

theorem corecompat_step {g1 g2 : DiGraph}
    (hwf1 : g1.WellFormed) (hwf2 : g2.WellFormed)
    {m : DiGraphMatcher} (hinv : MatcherInv g1 g2 m)
    (hcc : CoreCompat g1 g2 m)
    {p h : String}
    (f1 : p ∈ akeys g1.nodes) (f2 : p ∉ akeys m.core_1)
    (f3 : h ∈ akeys g2.nodes) (f4 : h ∉ akeys m.core_2)
    (hsem : m.semantic_feasibility p h = true)
    (hsyn : m.syntactic_feasibility p h = Except.ok true)
    {m' : DiGraphMatcher} {st : DiGMState}
    (hc : DiGMState.create m (some p) (some h) = Except.ok (m', st)) :
    CoreCompat g1 g2 m' := by
  have hwf1m : m.g1.WellFormed := by rw [hinv.hg1]; exact hwf1
  have hwf2m : m.g2.WellFormed := by rw [hinv.hg2]; exact hwf2
  have hnm1 := wf_nameMatch hwf1m
  have hnm2 := wf_nameMatch hwf2m
  have hsub1k : ∀ k, k ∈ akeys m.core_1 → k ∈ akeys m.g1.nodes := by
    intro k hk
    obtain ⟨v, hv⟩ := exists_val_of_mem_akeys hk
    rw [hinv.hg1]
    exact hinv.hsub1 (k, v) hv
  have hsub2k : ∀ k, k ∈ akeys m.core_2 → k ∈ akeys m.g2.nodes := by
    intro k hk
    obtain ⟨v, hv⟩ := exists_val_of_mem_akeys hk
    rw [hinv.hg2]
    exact hinv.hsub2 (k, v) hv
  have hmapped1 : ∀ k v, alookup m.core_1 k = some v →
      v ∈ akeys m.g2.nodes := by
    intro k v hkv
    exact hsub2k v (mem_akeys_of_alookup (hinv.hinv12 (k, v)
      (mem_of_alookup_eq_some hkv)))
  have hmapped2 : ∀ k v, alookup m.core_2 k = some v →
      v ∈ akeys m.g1.nodes := by
    intro k v hkv
    exact hsub1k v (mem_akeys_of_alookup (hinv.hinv21 (k, v)
      (mem_of_alookup_eq_some hkv)))
  have hp : p ∈ akeys m.g1.nodes := by rw [hinv.hg1]; exact f1
  have hh : h ∈ akeys m.g2.nodes := by rw [hinv.hg2]; exact f3
  obtain ⟨hself, hpred, hsucc⟩ :=
    syntactic_true hwf1m hwf2m hmapped1 hmapped2 hp hh hsyn
  obtain ⟨hl1, hl2⟩ := r_pred_true hwf1m hwf2m
    (by rw [nodeRec_get_name hnm1 p]; exact hp)
    (by rw [nodeRec_get_name hnm2 h]; exact hh) hmapped1 hmapped2 hpred
  obtain ⟨hs1, hs2⟩ := r_succ_true hwf1m hwf2m
    (by rw [nodeRec_get_name hnm1 p]; exact hp)
    (by rw [nodeRec_get_name hnm2 h]; exact hh) hsucc
  have hA : ecount m.g1 p p = ecount m.g2 h h := by
    have := r_self_true (wf_closed hwf1m) hnm1 (wf_closed hwf2m) hnm2
      (by rw [nodeRec_get_name hnm1 p]; exact hp)
      (by rw [nodeRec_get_name hnm2 h]; exact hh) hself
    rwa [nodeRec_get_name hnm1 p, nodeRec_get_name hnm2 h] at this
  have hall1p : ∀ nd ∈ (m.g1.predNames
      (m.g1.nodeRec p).get_name).map m.g1.nodeRec,
      nd.get_name ∈ akeys m.g1.nodes := by
    intro nd hnd
    obtain ⟨q, hq, hqe⟩ := List.mem_map.1 hnd
    rw [← hqe, nodeRec_get_name hnm1 q]
    exact closed_predNames (wf_closed hwf1m) hq
  have hall2p : ∀ nd ∈ (m.g2.predNames
      (m.g2.nodeRec h).get_name).map m.g2.nodeRec,
      nd.get_name ∈ akeys m.g2.nodes := by
    intro nd hnd
    obtain ⟨q, hq, hqe⟩ := List.mem_map.1 hnd
    rw [← hqe, nodeRec_get_name hnm2 q]
    exact closed_predNames (wf_closed hwf2m) hq
  have hall1s : ∀ nd ∈ (m.g1.succNames
      (m.g1.nodeRec p).get_name).map m.g1.nodeRec,
      nd.get_name ∈ akeys m.g1.nodes := by
    intro nd hnd
    obtain ⟨q, hq, hqe⟩ := List.mem_map.1 hnd
    rw [← hqe, nodeRec_get_name hnm1 q]
    exact closed_succNames (wf_closed hwf1m) hq
  have hall2s : ∀ nd ∈ (m.g2.succNames
      (m.g2.nodeRec h).get_name).map m.g2.nodeRec,
      nd.get_name ∈ akeys m.g2.nodes := by
    intro nd hnd
    obtain ⟨q, hq, hqe⟩ := List.mem_map.1 hnd
    rw [← hqe, nodeRec_get_name hnm2 q]
    exact closed_succNames (wf_closed hwf2m) hq
  have hB : ∀ e ∈ m.core_1, ecount m.g1 e.1 p = ecount m.g2 e.2 h := by
    intro e he
    by_cases hpos1 : 0 < ecount m.g1 e.1 p
    · have hsucc1 : p ∈ m.g1.succNames e.1 := (ecount_pos_iff _ _ _).1 hpos1
      have hpred1 : e.1 ∈ m.g1.predNames p :=
        pred_of_succ hwf1m (hsub1k e.1 (List.mem_map_of_mem Prod.fst he)) hsucc1
      have hmem : m.g1.nodeRec e.1 ∈ (m.g1.predNames
          (m.g1.nodeRec p).get_name).map m.g1.nodeRec := by
        rw [nodeRec_get_name hnm1 p]
        exact List.mem_map_of_mem _ hpred1
      have hlk : alookup m.core_1 (m.g1.nodeRec e.1).get_name = some e.2 := by
        rw [nodeRec_get_name hnm1 e.1]
        exact alookup_eq_some_of_mem hinv.hnd1 he
      have := r_pred_loop1_true (wf_closed hwf1m) hnm1 (wf_closed hwf2m)
        hnm2 (by rw [nodeRec_get_name hnm2 h]; exact hh) hmapped1 _
        hall1p hl1 _ hmem e.2 hlk
      rwa [nodeRec_get_name hnm1 e.1, nodeRec_get_name hnm1 p,
        nodeRec_get_name hnm2 h] at this
    · by_cases hpos2 : 0 < ecount m.g2 e.2 h
      · have hsucc2 : h ∈ m.g2.succNames e.2 := (ecount_pos_iff _ _ _).1 hpos2
        have he2k : e.2 ∈ akeys m.g2.nodes :=
          hsub2k e.2 (mem_akeys_of_alookup (hinv.hinv12 e he))
        have hpred2 : e.2 ∈ m.g2.predNames h := pred_of_succ hwf2m he2k hsucc2
        have hmem : m.g2.nodeRec e.2 ∈ (m.g2.predNames
            (m.g2.nodeRec h).get_name).map m.g2.nodeRec := by
          rw [nodeRec_get_name hnm2 h]
          exact List.mem_map_of_mem _ hpred2
        have hlk : alookup m.core_2 (m.g2.nodeRec e.2).get_name =
            some e.1 := by
          rw [nodeRec_get_name hnm2 e.2]
          exact hinv.hinv12 e he
        have := r_pred_loop2_true (wf_closed hwf1m) hnm1 (wf_closed hwf2m)
          hnm2 (by rw [nodeRec_get_name hnm1 p]; exact hp) hmapped2 _
          hall2p hl2 _ hmem e.1 hlk
        rw [nodeRec_get_name hnm2 e.2, nodeRec_get_name hnm2 h,
          nodeRec_get_name hnm1 p] at this
        exact this.symm
      · omega
  have hC : ∀ e ∈ m.core_1, ecount m.g1 p e.1 = ecount m.g2 h e.2 := by
    intro e he
    by_cases hpos1 : 0 < ecount m.g1 p e.1
    · have hsucc1 : e.1 ∈ m.g1.succNames p := (ecount_pos_iff _ _ _).1 hpos1
      have hmem : m.g1.nodeRec e.1 ∈ (m.g1.succNames
          (m.g1.nodeRec p).get_name).map m.g1.nodeRec := by
        rw [nodeRec_get_name hnm1 p]
        exact List.mem_map_of_mem _ hsucc1
      have hlk : alookup m.core_1 (m.g1.nodeRec e.1).get_name = some e.2 := by
        rw [nodeRec_get_name hnm1 e.1]
        exact alookup_eq_some_of_mem hinv.hnd1 he
      have := r_succ_loop1_true (wf_closed hwf1m) hnm1 (wf_closed hwf2m)
        hnm2 (by rw [nodeRec_get_name hnm1 p]; exact hp)
        (by rw [nodeRec_get_name hnm2 h]; exact hh) _ hall1s hs1 _ hmem e.2 hlk
      rwa [nodeRec_get_name hnm1 e.1, nodeRec_get_name hnm1 p,
        nodeRec_get_name hnm2 h] at this
    · by_cases hpos2 : 0 < ecount m.g2 h e.2
      · have hsucc2 : e.2 ∈ m.g2.succNames h := (ecount_pos_iff _ _ _).1 hpos2
        have hmem : m.g2.nodeRec e.2 ∈ (m.g2.succNames
            (m.g2.nodeRec h).get_name).map m.g2.nodeRec := by
          rw [nodeRec_get_name hnm2 h]
          exact List.mem_map_of_mem _ hsucc2
        have hlk : alookup m.core_2 (m.g2.nodeRec e.2).get_name =
            some e.1 := by
          rw [nodeRec_get_name hnm2 e.2]
          exact hinv.hinv12 e he
        have := r_succ_loop2_true (wf_closed hwf1m) hnm1 (wf_closed hwf2m)
          hnm2 (by rw [nodeRec_get_name hnm1 p]; exact hp)
          (by rw [nodeRec_get_name hnm2 h]; exact hh) _ hall2s hs2 _ hmem
          e.1 hlk
        rw [nodeRec_get_name hnm2 e.2, nodeRec_get_name hnm2 h,
          nodeRec_get_name hnm1 p] at this
        exact this.symm
      · omega
  obtain ⟨n1, n2, o1, o2, _, _, _, _, hst, hm'eq⟩ := create_some_ok_spec hc
  have hcore : m'.core_1 = m.core_1 ++ [(p, h)] := by
    rw [hm'eq]
    exact ainsert_of_not_mem _ _ _ f2
  constructor
  · intro e he e' he'
    rw [hcore] at he he'
    rw [← hinv.hg1, ← hinv.hg2]
    rcases List.mem_append.1 he with he | he
    · rcases List.mem_append.1 he' with he' | he'
      · have := hcc.1 e he e' he'
        rwa [hinv.hg1, hinv.hg2]
      · have hpe : e' = (p, h) := by simpa using he'
        rw [hpe]
        exact hB e he
    · have hpe : e = (p, h) := by simpa using he
      rcases List.mem_append.1 he' with he' | he'
      · rw [hpe]
        exact hC e' he'
      · have hpe' : e' = (p, h) := by simpa using he'
        rw [hpe, hpe']
        exact hA
  · intro e he
    rw [hcore] at he
    rcases List.mem_append.1 he with he | he
    · exact hcc.2 e he
    · have hpe : e = (p, h) := by simpa using he
      rw [hpe]
      rw [← hinv.hg1, ← hinv.hg2]
      exact semantic_true_weights hp hh hsem

theorem core_snd_nodup {g1 g2 : DiGraph} {m : DiGraphMatcher}
    (hinv : MatcherInv g1 g2 m) : (m.core_1.map Prod.snd).Nodup := by
  have hl : m.core_1.Nodup := List.Nodup.of_map Prod.fst hinv.hnd1
  refine List.Nodup.map_on ?_ hl
  intro x hx y hy hxy
  have h1 := hinv.hinv12 x hx
  have h2 := hinv.hinv12 y hy
  rw [hxy] at h1
  rw [h2] at h1
  injection h1 with h1
  exact Prod.ext h1.symm hxy

theorem core_snapshot_iso {g1 g2 : DiGraph} (hwf2 : g2.WellFormed)
    {m : DiGraphMatcher} (hinv : MatcherInv g1 g2 m)
    (hcc : CoreCompat g1 g2 m)
    (hdone : m.core_1.length = g2.node_count) :
    IsIsoMapping g1 g2 m.core_1 := by
  have hsnd : (m.core_1.map Prod.snd).Nodup := core_snd_nodup hinv
  have hsnd_sub : ∀ b ∈ m.core_1.map Prod.snd, b ∈ akeys g2.nodes := by
    intro b hb
    obtain ⟨e, he, hbe⟩ := List.mem_map.1 hb
    rw [← hbe]
    obtain ⟨v, hv⟩ := exists_val_of_mem_akeys
      (mem_akeys_of_alookup (hinv.hinv12 e he))
    exact hinv.hsub2 (e.2, v) hv
  refine ⟨hinv.hnd1, hsnd, ?_, ?_, hcc.2, hcc.1⟩
  · intro e he
    refine ⟨hinv.hsub1 e he, ?_⟩
    exact hsnd_sub e.2 (List.mem_map_of_mem Prod.snd he)
  · intro b hb
    have hS : (m.core_1.map Prod.snd).toFinset ⊆
        (akeys g2.nodes).toFinset := by
      intro x hx
      rw [List.mem_toFinset] at hx ⊢
      exact hsnd_sub x hx
    have hlenS : (m.core_1.map Prod.snd).toFinset.card =
        (akeys g2.nodes).toFinset.card := by
      rw [List.toFinset_card_of_nodup hsnd,
        List.toFinset_card_of_nodup (wf_nodup hwf2)]
      simp [akeys, hdone, DiGraph.node_count]
    have hEq := Finset.eq_of_subset_of_card_le hS (Nat.le_of_eq hlenS.symm)
    have hbS : b ∈ (m.core_1.map Prod.snd).toFinset := by
      rw [hEq, List.mem_toFinset]
      exact hb
    rw [List.mem_toFinset] at hbS
    obtain ⟨e, he, hbe⟩ := List.mem_map.1 hbS
    exact ⟨e, he, hbe⟩

theorem try_pairs_sound {g1 g2 : DiGraph}
    (hwf1 : g1.WellFormed) (hwf2 : g2.WellFormed)
    (hsz : g2.node_count ≤ usizeMax) (fuel : Nat)
    (IH : ∀ {m1 : DiGraphMatcher} (sink1 : List GMapping)
      {m' : DiGraphMatcher} {out : List GMapping},
      MatcherInv g1 g2 m1 → CoreCompat g1 g2 m1 →
      DiGraphMatcher.try_match_aux fuel m1 sink1 = Except.ok (m', out) →
      ∀ l ∈ out, l ∈ sink1 ∨
        (IsIsoMapping g1 g2 l ∧ l.length = g2.node_count))
    {m0 : DiGraphMatcher} (hinv : MatcherInv g1 g2 m0)
    (hcc : CoreCompat g1 g2 m0)
    (hne : m0.core_1.length ≠ g2.node_count)
    {pairs : List (String × String)}
    (hcand : m0.candidate_paris_iter = Except.ok pairs) :
    ∀ rest : List (String × String), (∀ pr ∈ rest, pr ∈ pairs) →
      ∀ (sink : List GMapping) {m' : DiGraphMatcher} {out : List GMapping},
      DiGraphMatcher.try_pairs_go (DiGraphMatcher.try_match_aux fuel)
        rest m0 sink = Except.ok (m', out) →
      ∀ l ∈ out, l ∈ sink ∨
        (IsIsoMapping g1 g2 l ∧ l.length = g2.node_count) := by
  intro rest
  induction rest with
  | nil =>
    intro _ sink m' out hrun
    rw [DiGraphMatcher.try_pairs_go] at hrun
    have hpair : (m0, sink) = (m', out) := by
      simpa [pure, Except.pure] using hrun
    have hout : out = sink := (congrArg Prod.snd hpair).symm
    rw [hout]
    exact fun l hl => Or.inl hl
  | cons pr rest ih =>
    obtain ⟨p, q⟩ := pr
    intro hsub sink m' out hrun
    rw [DiGraphMatcher.try_pairs_go] at hrun
    by_cases hsem : m0.semantic_feasibility p q
    · rw [if_pos hsem] at hrun
      cases hsyn : m0.syntactic_feasibility p q with
      | error e =>
        simp only [hsyn] at hrun
        exact Except.noConfusion hrun
      | ok b =>
        cases b with
        | false =>
          simp only [hsyn] at hrun
          exact ih (fun x hx => hsub x (by simp [hx])) sink hrun
        | true =>
          simp only [hsyn] at hrun
          cases hcr : DiGMState.create m0 (some p) (some q) with
          | error e =>
            simp only [hcr] at hrun
            exact Except.noConfusion hrun
          | ok r =>
            obtain ⟨m1, st⟩ := r
            simp only [hcr] at hrun
            cases htm : DiGraphMatcher.try_match_aux fuel m1 sink with
            | error e =>
              simp only [htm] at hrun
              exact Except.noConfusion hrun
            | ok r2 =>
              obtain ⟨m2, sink2⟩ := r2
              simp only [htm] at hrun
              obtain ⟨f1, f2, f3, f4⟩ := candidate_facts hwf1 hwf2 hsz hinv
                hne hcand (hsub (p, q) (by simp))
              have hinv1 : MatcherInv g1 g2 m1 :=
                inv_create_step hwf1 hwf2 hinv f1 f2 f3 f4 hcr
              have hcc1 : CoreCompat g1 g2 m1 :=
                corecompat_step hwf1 hwf2 hinv hcc f1 f2 f3 f4 hsem hsyn hcr
              have hlem := IH sink hinv1 hcc1 htm
              obtain ⟨ext1, hm2, -, -⟩ :=
                try_match_preserves hwf1 hwf2 hsz fuel hinv1 sink htm
              have hrest : st.restore m1 = m0 :=
                create_restore_id hcr f2 f4 hinv.hdin1 hinv.hdin2
                  hinv.hdout1 hinv.hdout2 hinv.hndin1 hinv.hndin2
                  hinv.hndout1 hinv.hndout2
              rw [hm2, hrest] at hrun
              intro l hl
              rcases ih (fun x hx => hsub x (by simp [hx])) sink2 hrun
                  l hl with hl2 | hl2
              · rcases hlem l hl2 with hl3 | hl3
                · exact Or.inl hl3
                · exact Or.inr hl3
              · exact Or.inr hl2
    · rw [if_neg hsem] at hrun
      exact ih (fun x hx => hsub x (by simp [hx])) sink hrun

theorem emitted_sound {g1 g2 : DiGraph}
    (hwf1 : g1.WellFormed) (hwf2 : g2.WellFormed)
    (hsz : g2.node_count ≤ usizeMax) :
    ∀ (fuel : Nat) {m : DiGraphMatcher} (sink : List GMapping)
      {m' : DiGraphMatcher} {out : List GMapping},
      MatcherInv g1 g2 m → CoreCompat g1 g2 m →
      DiGraphMatcher.try_match_aux fuel m sink = Except.ok (m', out) →
      ∀ l ∈ out, l ∈ sink ∨
        (IsIsoMapping g1 g2 l ∧ l.length = g2.node_count) := by
  intro fuel
  induction fuel with
  | zero =>
    intro m sink m' out _ _ h
    rw [DiGraphMatcher.try_match_aux] at h
    exact Except.noConfusion h
  | succ fuel ih =>
    intro m sink m' out hinv hcc h
    rw [DiGraphMatcher.try_match_aux] at h
    by_cases hdone : m.core_1.length = m.g2.node_count
    · rw [if_pos hdone] at h
      have hpair : (m, sink ++ [m.core_1]) = (m', out) := by
        simpa [pure, Except.pure] using h
      have hout : out = sink ++ [m.core_1] := (congrArg Prod.snd hpair).symm
      rw [hout]
      intro l hl
      rcases List.mem_append.1 hl with hl | hl
      · exact Or.inl hl
      · have hleq : l = m.core_1 := by simpa using hl
        have hdone2 : m.core_1.length = g2.node_count := by
          rw [← hinv.hg2]
          exact hdone
        rw [hleq]
        exact Or.inr ⟨core_snapshot_iso hwf2 hinv hcc hdone2, hdone2⟩
    · rw [if_neg hdone] at h
      have hne : m.core_1.length ≠ g2.node_count := by
        rw [← hinv.hg2]
        exact hdone
      cases hcand : m.candidate_paris_iter with
      | error e =>
        simp only [hcand] at h
        exact Except.noConfusion h
      | ok pairs =>
        simp only [hcand] at h
        exact try_pairs_sound hwf1 hwf2 hsz fuel
          (fun {mi} sink1 {mo} {outo} h1 h2 h3 => ih sink1 h1 h2 h3) hinv hcc hne hcand
          pairs (fun x hx => hx) sink h

/-! ## Claim C2: the shape of emitted mappings -/

/-- C2 (amended): every mapping a full enumeration over well-formed
graphs pushes into the sink is an injective set of
(pattern key, host key) pairs of cardinality `|V(H)|` — the host node
count, not `|V(P)|` — and for every two mapped pairs `(u, b)` and
`(v, c)` the pattern and host edge multiplicities agree exactly in both
directions, `ec_P(u, v) = ec_H(b, c)`: strict equality, even in subgraph
mode, and only for edges between mapped pattern nodes. -/
theorem C2_emitted_shape {g1 g2 : DiGraph}
    (hwf1 : g1.WellFormed) (hwf2 : g2.WellFormed)
    (hsz : g2.node_count ≤ usizeMax)
    {r : DiGraphMatcher × List GMapping}
    (hrun : subgraphIsomorphisms g1 g2 = Except.ok r) :
    ∀ l ∈ r.2,
      (akeys l).Nodup ∧ (l.map Prod.snd).Nodup ∧
      l.length = g2.node_count ∧
      (∀ e ∈ l, ∀ e' ∈ l, ecount g1 e.1 e'.1 = ecount g2 e.2 e'.2) := by
  rw [subgraphIsomorphisms, subgraph_iter_eq] at hrun
  have hinv0 : MatcherInv g1 g2 (clearedOf (DiGraphMatcher.new g1 g2)) :=
    inv_matcherStart g1 g2
  have hcc0 : CoreCompat g1 g2 (clearedOf (DiGraphMatcher.new g1 g2)) := by
    constructor
    · intro e he
      exact absurd he (List.not_mem_nil e)
    · intro e he
      exact absurd he (List.not_mem_nil e)
  obtain ⟨m', out⟩ := r
  intro l hl
  rcases emitted_sound hwf1 hwf2 hsz _ [] hinv0 hcc0 hrun l hl with hl2 | hl2
  · exact absurd hl2 (List.not_mem_nil l)
  · obtain ⟨⟨hnd1, hnd2, _, _, _, hcounts⟩, hlen⟩ := hl2
    exact ⟨hnd1, hnd2, hlen, hcounts⟩

/-- C2 counterexample: on the two-isolated-node pattern and the
one-node host the run emits mappings of cardinality `1 = |V(H)|`,
not `|V(P)| = 2` as the claim states. -/
theorem C2_counterexample :
    subgraphIsoOut exPat2 exHost1 = some [[(kx, ka)], [(ky, ka)]] ∧
    exPat2.node_count = 2 ∧
    ¬ (∀ l ∈ [[(kx, ka)], [(ky, ka)]],
      (l : GMapping).length = exPat2.node_count) := by decide

/-- Witness for C2 (amended) on the concrete single-edge pair, at the
one mapping the run emits. -/
theorem C2_witness :
    (akeys [(kx, ka), (ky, kb)]).Nodup ∧
    (([(kx, ka), (ky, kb)] : GMapping).map Prod.snd).Nodup ∧
    ([(kx, ka), (ky, kb)] : GMapping).length = exHostEdge.node_count ∧
    (∀ e ∈ ([(kx, ka), (ky, kb)] : GMapping),
      ∀ e' ∈ ([(kx, ka), (ky, kb)] : GMapping),
        ecount exPatEdge e.1 e'.1 = ecount exHostEdge e.2 e'.2) :=
  C2_emitted_shape (by decide) (by decide) (by decide)
    (by decide :
      subgraphIsomorphisms exPatEdge exHostEdge =
        Except.ok (matcherStart exPatEdge exHostEdge,
          [[(kx, ka), (ky, kb)]]))
    [(kx, ka), (ky, kb)] (by decide)

/-! ## Claim C1: the enumeration, soundness and completeness -/

theorem pairs_fst_inj {mp : GMapping} (hnd : (akeys mp).Nodup)
    {w c c' : String} (h1 : (w, c) ∈ mp) (h2 : (w, c') ∈ mp) : c = c' := by
  have e1 := alookup_eq_some_of_mem hnd h1
  have e2 := alookup_eq_some_of_mem hnd h2
  rw [e1] at e2
  injection e2

theorem pairs_snd_inj {mp : GMapping} (hnd : (mp.map Prod.snd).Nodup)
    {w w' c : String} (h1 : (w, c) ∈ mp) (h2 : (w', c) ∈ mp) : w = w' := by
  have := List.inj_on_of_nodup_map hnd h1 h2 rfl
  injection this

theorem iso_len {g1 g2 : DiGraph} (hwf2 : g2.WellFormed) {mp : GMapping}
    (hiso : IsIsoMapping g1 g2 mp) : mp.length = g2.node_count := by
  obtain ⟨-, hsnd, hmem, honto, -, -⟩ := hiso
  have hS : (mp.map Prod.snd).toFinset ⊆ (akeys g2.nodes).toFinset := by
    intro x hx
    rw [List.mem_toFinset] at hx ⊢
    obtain ⟨e, he, hbe⟩ := List.mem_map.1 hx
    rw [← hbe]
    exact (hmem e he).2
  have hT : (akeys g2.nodes).toFinset ⊆ (mp.map Prod.snd).toFinset := by
    intro x hx
    rw [List.mem_toFinset] at hx ⊢
    obtain ⟨e, he, hbe⟩ := honto x hx
    rw [← hbe]
    exact List.mem_map_of_mem Prod.snd he
  have hEq := Finset.Subset.antisymm hS hT
  have := congrArg Finset.card hEq
  rw [List.toFinset_card_of_nodup hsnd,
    List.toFinset_card_of_nodup (wf_nodup hwf2)] at this
  simpa [akeys, DiGraph.node_count] using this

theorem core_snd_onto {g1 g2 : DiGraph} (hwf2 : g2.WellFormed)
    {m : DiGraphMatcher} (hinv : MatcherInv g1 g2 m)
    (hdone : m.core_1.length = g2.node_count) :
    ∀ b ∈ akeys g2.nodes, ∃ e ∈ m.core_1, e.2 = b := by
  have hsnd : (m.core_1.map Prod.snd).Nodup := core_snd_nodup hinv
  have hsnd_sub : ∀ b ∈ m.core_1.map Prod.snd, b ∈ akeys g2.nodes := by
    intro b hb
    obtain ⟨e, he, hbe⟩ := List.mem_map.1 hb
    rw [← hbe]
    obtain ⟨v, hv⟩ := exists_val_of_mem_akeys
      (mem_akeys_of_alookup (hinv.hinv12 e he))
    exact hinv.hsub2 (e.2, v) hv
  intro b hb
  have hS : (m.core_1.map Prod.snd).toFinset ⊆
      (akeys g2.nodes).toFinset := by
    intro x hx
    rw [List.mem_toFinset] at hx ⊢
    exact hsnd_sub x hx
  have hlenS : (m.core_1.map Prod.snd).toFinset.card =
      (akeys g2.nodes).toFinset.card := by
    rw [List.toFinset_card_of_nodup hsnd,
      List.toFinset_card_of_nodup (wf_nodup hwf2)]
    simp [akeys, hdone, DiGraph.node_count]
  have hEq := Finset.eq_of_subset_of_card_le hS (Nat.le_of_eq hlenS.symm)
  have hbS : b ∈ (m.core_1.map Prod.snd).toFinset := by
    rw [hEq, List.mem_toFinset]
    exact hb
  rw [List.mem_toFinset] at hbS
  obtain ⟨e, he, hbe⟩ := List.mem_map.1 hbS
  exact ⟨e, he, hbe⟩

theorem complete_snapshot_eq {g1 g2 : DiGraph} (hwf2 : g2.WellFormed)
    {m : DiGraphMatcher} (hinv : MatcherInv g1 g2 m)
    {mp : GMapping} (hiso : IsIsoMapping g1 g2 mp)
    (hsubmp : ∀ e ∈ m.core_1, e ∈ mp)
    (hdone : m.core_1.length = g2.node_count) :
    pairsSetEq m.core_1 mp := by
  refine ⟨hsubmp, ?_⟩
  intro e he
  have hb : e.2 ∈ akeys g2.nodes := (hiso.2.2.1 e he).2
  obtain ⟨e', he', hbe⟩ := core_snd_onto hwf2 hinv hdone e.2 hb
  have hmp' : e' ∈ mp := hsubmp e' he'
  have hmp2 : (e'.1, e.2) ∈ mp := by
    rw [← hbe]
    exact hmp'
  have hfst : e.1 = e'.1 :=
    pairs_snd_inj hiso.2.1 (show (e.1, e.2) ∈ mp from he) hmp2
  have : e = e' := Prod.ext hfst (hbe.symm)
  rw [this]
  exact he'

theorem filter_map_nodeRec_length {g : DiGraph} (hnm : NameMatch g)
    (names : List String) (p : String → Bool) :
    ((names.map g.nodeRec).filter (fun nd => p nd.get_name)).length =
      (names.filter p).length := by
  rw [List.filter_map, List.length_map]
  congr 1
  apply List.filter_congr
  intro q _
  simp [Function.comp, nodeRec_get_name hnm q]

theorem filter_count_le {mp : GMapping} (hfstnd : (akeys mp).Nodup)
    (names2 : List String) (hnd2 : names2.Nodup)
    (names1 : List String) (hnd1 : names1.Nodup)
    (P2 P1 : String → Bool)
    (hlift : ∀ c ∈ names2, P2 c = true →
      ∃ w, (w, c) ∈ mp ∧ w ∈ names1 ∧ P1 w = true) :
    (names2.filter P2).length ≤ (names1.filter P1).length := by
  classical
  have hndf2 : (names2.filter P2).Nodup := List.Nodup.filter _ hnd2
  have hndf1 : (names1.filter P1).Nodup := List.Nodup.filter _ hnd1
  rw [← List.toFinset_card_of_nodup hndf2, ← List.toFinset_card_of_nodup hndf1]
  have hmain := fun (c : String) (hc : ∃ w, (w, c) ∈ mp ∧ w ∈ names1 ∧
    P1 w = true) => hc.choose_spec
  refine Finset.card_le_card_of_injOn
    (fun c => if hc : ∃ w, (w, c) ∈ mp ∧ w ∈ names1 ∧ P1 w = true
      then hc.choose else c) ?_ ?_
  · intro c hcmem
    rw [List.mem_toFinset, List.mem_filter] at hcmem
    have hex := hlift c hcmem.1 hcmem.2
    show (if hc : ∃ w, (w, c) ∈ mp ∧ w ∈ names1 ∧ P1 w = true
      then hc.choose else c) ∈ (names1.filter P1).toFinset
    rw [dif_pos hex]
    obtain ⟨-, hw1, hw2⟩ := hex.choose_spec
    rw [List.mem_toFinset, List.mem_filter]
    exact ⟨hw1, hw2⟩
  · intro c hc c' hc' heq
    rw [Finset.mem_coe, List.mem_toFinset, List.mem_filter] at hc hc'
    have hex := hlift c hc.1 hc.2
    have hex' := hlift c' hc'.1 hc'.2
    have heq2 : (if hc : ∃ w, (w, c) ∈ mp ∧ w ∈ names1 ∧ P1 w = true
        then hc.choose else c) =
        (if hc : ∃ w, (w, c') ∈ mp ∧ w ∈ names1 ∧ P1 w = true
        then hc.choose else c') := heq
    rw [dif_pos hex, dif_pos hex'] at heq2
    have h1 := hex.choose_spec.1
    have h2 := hex'.choose_spec.1
    rw [heq2] at h1
    exact pairs_fst_inj hfstnd h1 h2

theorem iso_counts {g1 g2 : DiGraph} {mp : GMapping}
    (hiso : IsIsoMapping g1 g2 mp) {w c v d : String}
    (h1 : (w, c) ∈ mp) (h2 : (v, d) ∈ mp) :
    ecount g1 w v = ecount g2 c d :=
  hiso.2.2.2.2.2 (w, c) h1 (v, d) h2

theorem iso_fst_keys {g1 g2 : DiGraph} {mp : GMapping}
    (hiso : IsIsoMapping g1 g2 mp) {w c : String} (h : (w, c) ∈ mp) :
    w ∈ akeys g1.nodes := (hiso.2.2.1 (w, c) h).1

theorem iso_snd_keys {g1 g2 : DiGraph} {mp : GMapping}
    (hiso : IsIsoMapping g1 g2 mp) {w c : String} (h : (w, c) ∈ mp) :
    c ∈ akeys g2.nodes := (hiso.2.2.1 (w, c) h).2

theorem core_pair_mp {g1 g2 : DiGraph} {m : DiGraphMatcher}
    (hinv : MatcherInv g1 g2 m) {mp : GMapping}
    (hsubmp : ∀ e ∈ m.core_1, e ∈ mp) {d : String}
    (hd : d ∈ akeys m.core_2) :
    ∃ v, (v, d) ∈ m.core_1 ∧ (v, d) ∈ mp ∧ v ∈ akeys m.core_1 := by
  obtain ⟨v, hv⟩ := exists_val_of_mem_akeys hd
  have hc1 : (v, d) ∈ m.core_1 :=
    mem_of_alookup_eq_some (hinv.hinv21 (d, v) hv)
  exact ⟨v, hc1, hsubmp _ hc1, List.mem_map_of_mem Prod.fst hc1⟩

theorem mp_pred_transfer_fwd {g1 g2 : DiGraph}
    (hwf1 : g1.WellFormed) (hwf2 : g2.WellFormed) {mp : GMapping}
    (hiso : IsIsoMapping g1 g2 mp) {u b q mq : String}
    (hub : (u, b) ∈ mp) (hq : (q, mq) ∈ mp)
    (hpred : q ∈ g1.predNames u) : mq ∈ g2.predNames b := by
  have h1 : 0 < ecount g1 q u := (ecount_pos_iff g1 q u).2
    (succ_of_pred hwf1 (iso_fst_keys hiso hub) hpred)
  have h2 : 0 < ecount g2 mq b := by
    rw [← iso_counts hiso hq hub]
    exact h1
  exact pred_of_succ hwf2 (iso_snd_keys hiso hq)
    ((ecount_pos_iff g2 mq b).1 h2)

theorem mp_pred_transfer_bwd {g1 g2 : DiGraph}
    (hwf1 : g1.WellFormed) (hwf2 : g2.WellFormed) {mp : GMapping}
    (hiso : IsIsoMapping g1 g2 mp) {u b c w : String}
    (hub : (u, b) ∈ mp) (hc : (w, c) ∈ mp)
    (hpred : c ∈ g2.predNames b) : w ∈ g1.predNames u := by
  have h1 : 0 < ecount g2 c b := (ecount_pos_iff g2 c b).2
    (succ_of_pred hwf2 (iso_snd_keys hiso hub) hpred)
  have h2 : 0 < ecount g1 w u := by
    rw [iso_counts hiso hc hub]
    exact h1
  exact pred_of_succ hwf1 (iso_fst_keys hiso hc)
    ((ecount_pos_iff g1 w u).1 h2)

theorem mp_succ_transfer_fwd {g1 g2 : DiGraph}
    (hwf1 : g1.WellFormed) (hwf2 : g2.WellFormed) {mp : GMapping}
    (hiso : IsIsoMapping g1 g2 mp) {u b q mq : String}
    (hub : (u, b) ∈ mp) (hq : (q, mq) ∈ mp)
    (hsucc : q ∈ g1.succNames u) : mq ∈ g2.succNames b := by
  have h1 : 0 < ecount g1 u q := (ecount_pos_iff g1 u q).2 hsucc
  have h2 : 0 < ecount g2 b mq := by
    rw [← iso_counts hiso hub hq]
    exact h1
  exact (ecount_pos_iff g2 b mq).1 h2

theorem mp_succ_transfer_bwd {g1 g2 : DiGraph}
    (hwf1 : g1.WellFormed) (hwf2 : g2.WellFormed) {mp : GMapping}
    (hiso : IsIsoMapping g1 g2 mp) {u b c w : String}
    (hub : (u, b) ∈ mp) (hc : (w, c) ∈ mp)
    (hsucc : c ∈ g2.succNames b) : w ∈ g1.succNames u := by
  have h1 : 0 < ecount g2 b c := (ecount_pos_iff g2 b c).2 hsucc
  have h2 : 0 < ecount g1 u w := by
    rw [iso_counts hiso hub hc]
    exact h1
  exact (ecount_pos_iff g1 u w).1 h2

theorem mp_not_core1 {g1 g2 : DiGraph} {m : DiGraphMatcher}
    (hinv : MatcherInv g1 g2 m) {mp : GMapping}
    (hfstnd : (akeys mp).Nodup)
    (hsubmp : ∀ e ∈ m.core_1, e ∈ mp) {w c : String}
    (hwc : (w, c) ∈ mp) (hc : c ∉ akeys m.core_2) :
    w ∉ akeys m.core_1 := by
  intro hw
  obtain ⟨x, hx⟩ := exists_val_of_mem_akeys hw
  have hx2 : (w, x) ∈ mp := hsubmp _ hx
  have : x = c := pairs_fst_inj hfstnd hx2 hwc
  rw [this] at hx
  exact hc (mem_akeys_of_alookup (hinv.hinv12 (w, c) hx))

theorem mp_mem_in1 {g1 g2 : DiGraph}
    (hwf1 : g1.WellFormed) (hwf2 : g2.WellFormed) {m : DiGraphMatcher}
    (hinv : MatcherInv g1 g2 m) {mp : GMapping}
    (hiso : IsIsoMapping g1 g2 mp)
    (hsubmp : ∀ e ∈ m.core_1, e ∈ mp) {w c : String}
    (hwc : (w, c) ∈ mp) (hcin : c ∈ akeys m.in_2)
    (hccore : c ∉ akeys m.core_2) : w ∈ akeys m.in_1 := by
  rcases (hinv.hin2 c).1 hcin with hc2 | ⟨d, hd, hcpred⟩
  · exact absurd hc2 hccore
  · obtain ⟨v, hvc1, hvmp, hvkeys⟩ := core_pair_mp hinv hsubmp hd
    have hdkeys : d ∈ akeys g2.nodes := by
      obtain ⟨x, hx⟩ := exists_val_of_mem_akeys hd
      exact hinv.hsub2 (d, x) hx
    have hw : w ∈ g1.predNames v :=
      mp_pred_transfer_bwd hwf1 hwf2 hiso hvmp hwc hcpred
    exact (hinv.hin1 w).2 (Or.inr ⟨v, hvkeys, hw⟩)

theorem mp_mem_out1 {g1 g2 : DiGraph}
    (hwf1 : g1.WellFormed) (hwf2 : g2.WellFormed) {m : DiGraphMatcher}
    (hinv : MatcherInv g1 g2 m) {mp : GMapping}
    (hiso : IsIsoMapping g1 g2 mp)
    (hsubmp : ∀ e ∈ m.core_1, e ∈ mp) {w c : String}
    (hwc : (w, c) ∈ mp) (hcout : c ∈ akeys m.out_2)
    (hccore : c ∉ akeys m.core_2) : w ∈ akeys m.out_1 := by
  rcases (hinv.hout2 c).1 hcout with hc2 | ⟨d, hd, hcsucc⟩
  · exact absurd hc2 hccore
  · obtain ⟨v, hvc1, hvmp, hvkeys⟩ := core_pair_mp hinv hsubmp hd
    have hw : w ∈ g1.succNames v :=
      mp_succ_transfer_bwd hwf1 hwf2 hiso hvmp hwc hcsucc
    exact (hinv.hout1 w).2 (Or.inr ⟨v, hvkeys, hw⟩)

theorem mp_mem_in2_rev {g1 g2 : DiGraph}
    (hwf1 : g1.WellFormed) (hwf2 : g2.WellFormed) {m : DiGraphMatcher}
    (hinv : MatcherInv g1 g2 m) {mp : GMapping}
    (hiso : IsIsoMapping g1 g2 mp)
    (hfstnd : (akeys mp).Nodup)
    (hsubmp : ∀ e ∈ m.core_1, e ∈ mp) {w c : String}
    (hwc : (w, c) ∈ mp) (hwin : w ∈ akeys m.in_1) : c ∈ akeys m.in_2 := by
  rcases (hinv.hin1 w).1 hwin with hw1 | ⟨v, hv, hwpred⟩
  · obtain ⟨x, hx⟩ := exists_val_of_mem_akeys hw1
    have : x = c := pairs_fst_inj hfstnd (hsubmp _ hx) hwc
    rw [this] at hx
    exact (hinv.hin2 c).2
      (Or.inl (mem_akeys_of_alookup (hinv.hinv12 (w, c) hx)))
  · obtain ⟨d, hvd⟩ := exists_val_of_mem_akeys hv
    have hvmp : (v, d) ∈ mp := hsubmp _ hvd
    have hdcore : d ∈ akeys m.core_2 :=
      mem_akeys_of_alookup (hinv.hinv12 (v, d) hvd)
    have hc : c ∈ g2.predNames d :=
      mp_pred_transfer_fwd hwf1 hwf2 hiso hvmp hwc hwpred
    exact (hinv.hin2 c).2 (Or.inr ⟨d, hdcore, hc⟩)

theorem mp_mem_out2_rev {g1 g2 : DiGraph}
    (hwf1 : g1.WellFormed) (hwf2 : g2.WellFormed) {m : DiGraphMatcher}
    (hinv : MatcherInv g1 g2 m) {mp : GMapping}
    (hiso : IsIsoMapping g1 g2 mp)
    (hfstnd : (akeys mp).Nodup)
    (hsubmp : ∀ e ∈ m.core_1, e ∈ mp) {w c : String}
    (hwc : (w, c) ∈ mp) (hwout : w ∈ akeys m.out_1) : c ∈ akeys m.out_2 := by
  rcases (hinv.hout1 w).1 hwout with hw1 | ⟨v, hv, hwsucc⟩
  · obtain ⟨x, hx⟩ := exists_val_of_mem_akeys hw1
    have : x = c := pairs_fst_inj hfstnd (hsubmp _ hx) hwc
    rw [this] at hx
    exact (hinv.hout2 c).2
      (Or.inl (mem_akeys_of_alookup (hinv.hinv12 (w, c) hx)))
  · obtain ⟨d, hvd⟩ := exists_val_of_mem_akeys hv
    have hvmp : (v, d) ∈ mp := hsubmp _ hvd
    have hdcore : d ∈ akeys m.core_2 :=
      mem_akeys_of_alookup (hinv.hinv12 (v, d) hvd)
    have hc : c ∈ g2.succNames d :=
      mp_succ_transfer_fwd hwf1 hwf2 hiso hvmp hwc hwsucc
    exact (hinv.hout2 c).2 (Or.inr ⟨d, hdcore, hc⟩)

theorem r_self_of_iso {g1 g2 : DiGraph}
    (hwf1 : g1.WellFormed) (hwf2 : g2.WellFormed) {m : DiGraphMatcher}
    (hinv : MatcherInv g1 g2 m) {mp : GMapping}
    (hiso : IsIsoMapping g1 g2 mp) {u b : String} (hub : (u, b) ∈ mp) :
    m.r_self (m.g1.nodeRec u) (m.g2.nodeRec b) = Except.ok true := by
  have hwf1m : m.g1.WellFormed := by rw [hinv.hg1]; exact hwf1
  have hwf2m : m.g2.WellFormed := by rw [hinv.hg2]; exact hwf2
  have hun : (m.g1.nodeRec u).get_name ∈ akeys m.g1.nodes := by
    rw [nodeRec_get_name (wf_nameMatch hwf1m) u, hinv.hg1]
    exact iso_fst_keys hiso hub
  have hbn : (m.g2.nodeRec b).get_name ∈ akeys m.g2.nodes := by
    rw [nodeRec_get_name (wf_nameMatch hwf2m) b, hinv.hg2]
    exact iso_snd_keys hiso hub
  rw [DiGraphMatcher.r_self,
    except_bind_ok_forward (edge_count_ok_of_closed (wf_closed hwf1m)
      (wf_nameMatch hwf1m) hun _),
    except_bind_ok_forward (edge_count_ok_of_closed (wf_closed hwf2m)
      (wf_nameMatch hwf2m) hbn _)]
  rw [if_pos]
  · rfl
  · rw [nodeRec_get_name (wf_nameMatch hwf1m) u,
      nodeRec_get_name (wf_nameMatch hwf2m) b, hinv.hg1, hinv.hg2]
    exact iso_counts hiso hub hub

theorem r_pred_loop1_of_iso {g1 g2 : DiGraph}
    (hwf1 : g1.WellFormed) (hwf2 : g2.WellFormed) {m : DiGraphMatcher}
    (hinv : MatcherInv g1 g2 m) {mp : GMapping}
    (hiso : IsIsoMapping g1 g2 mp)
    (hsubmp : ∀ e ∈ m.core_1, e ∈ mp)
    {u b : String} (hub : (u, b) ∈ mp) :
    ∀ l : List DiNode,
      (∀ nd ∈ l, ∃ q, q ∈ g1.predNames u ∧ nd = m.g1.nodeRec q) →
      r_pred_loop1 m (m.g1.nodeRec u) (m.g2.nodeRec b) l = Except.ok true := by
  have hwf1m : m.g1.WellFormed := by rw [hinv.hg1]; exact hwf1
  have hwf2m : m.g2.WellFormed := by rw [hinv.hg2]; exact hwf2
  have hnm1m := wf_nameMatch hwf1m
  have hnm2m := wf_nameMatch hwf2m
  have hbn : (m.g2.nodeRec b).get_name ∈ akeys m.g2.nodes := by
    rw [nodeRec_get_name hnm2m b, hinv.hg2]
    exact iso_snd_keys hiso hub
  intro l
  induction l with
  | nil => intro _; rfl
  | cons nd rest ih =>
    intro hall
    obtain ⟨q, hq, hnd⟩ := hall nd (by simp)
    subst hnd
    have hgn : (m.g1.nodeRec q).get_name = q := nodeRec_get_name hnm1m q
    cases halk : alookup m.core_1 q with
    | none =>
      simp only [r_pred_loop1, hgn, halk]
      exact ih (fun x hx => hall x (by simp [hx]))
    | some mapped =>
      have hqmp : (q, mapped) ∈ mp :=
        hsubmp _ (mem_of_alookup_eq_some halk)
      have hmappedpred : mapped ∈ g2.predNames b :=
        mp_pred_transfer_fwd hwf1 hwf2 hiso hub hqmp hq
      simp only [r_pred_loop1, hgn, halk,
        predecessors_ok_of_closed (wf_closed hwf2m) hbn]
      simp only [hinv.hg1, hinv.hg2,
        nodeRec_get_name (wf_nameMatch hwf1) q,
        nodeRec_get_name (wf_nameMatch hwf1) u,
        nodeRec_get_name (wf_nameMatch hwf2) b]
      rw [if_neg (by
        simp only [List.all_eq_true, not_forall]
        simp
        exact ⟨mapped, hmappedpred,
          nodeRec_get_name (wf_nameMatch hwf2) mapped⟩)]
      have hqkeys : q ∈ akeys g1.nodes :=
        closed_predNames (wf_closed hwf1) hq
      rw [except_bind_ok_forward (edge_count_ok_of_closed (wf_closed hwf1)
        (wf_nameMatch hwf1) hqkeys _)]
      rw [except_bind_ok_forward (edge_count_ok_of_closed (wf_closed hwf2)
        (wf_nameMatch hwf2) (iso_snd_keys hiso hqmp) _)]
      rw [if_neg (Decidable.not_not.2 (iso_counts hiso hqmp hub))]
      have := ih (fun x hx => hall x (by simp [hx]))
      simpa [hinv.hg1, hinv.hg2] using this

theorem r_pred_loop2_of_iso {g1 g2 : DiGraph}
    (hwf1 : g1.WellFormed) (hwf2 : g2.WellFormed) {m : DiGraphMatcher}
    (hinv : MatcherInv g1 g2 m) {mp : GMapping}
    (hiso : IsIsoMapping g1 g2 mp)
    (hsubmp : ∀ e ∈ m.core_1, e ∈ mp)
    {u b : String} (hub : (u, b) ∈ mp) :
    ∀ l : List DiNode,
      (∀ nd ∈ l, ∃ c, c ∈ g2.predNames b ∧ nd = m.g2.nodeRec c) →
      r_pred_loop2 m (m.g1.nodeRec u) (m.g2.nodeRec b) l = Except.ok true := by
  have hwf1m : m.g1.WellFormed := by rw [hinv.hg1]; exact hwf1
  have hwf2m : m.g2.WellFormed := by rw [hinv.hg2]; exact hwf2
  have hnm1m := wf_nameMatch hwf1m
  have hnm2m := wf_nameMatch hwf2m
  have hun : (m.g1.nodeRec u).get_name ∈ akeys m.g1.nodes := by
    rw [nodeRec_get_name hnm1m u, hinv.hg1]
    exact iso_fst_keys hiso hub
  intro l
  induction l with
  | nil => intro _; rfl
  | cons nd rest ih =>
    intro hall
    obtain ⟨c, hc, hnd⟩ := hall nd (by simp)
    subst hnd
    have hgn : (m.g2.nodeRec c).get_name = c := nodeRec_get_name hnm2m c
    cases halk : alookup m.core_2 c with
    | none =>
      simp only [r_pred_loop2, hgn, halk]
      exact ih (fun x hx => hall x (by simp [hx]))
    | some mappedv =>
      have hvc1 : (mappedv, c) ∈ m.core_1 :=
        mem_of_alookup_eq_some (hinv.hinv21 (c, mappedv)
          (mem_of_alookup_eq_some halk))
      have hvmp : (mappedv, c) ∈ mp := hsubmp _ hvc1
      have hvpred : mappedv ∈ g1.predNames u :=
        mp_pred_transfer_bwd hwf1 hwf2 hiso hub hvmp hc
      simp only [r_pred_loop2, hgn, halk,
        predecessors_ok_of_closed (wf_closed hwf1m) hun]
      simp only [hinv.hg1, hinv.hg2,
        nodeRec_get_name (wf_nameMatch hwf1) u,
        nodeRec_get_name (wf_nameMatch hwf2) b,
        nodeRec_get_name (wf_nameMatch hwf2) c]
      rw [if_neg (by
        simp only [List.all_eq_true, not_forall]
        simp
        exact ⟨mappedv, hvpred,
          nodeRec_get_name (wf_nameMatch hwf1) mappedv⟩)]
      have hckeys : c ∈ akeys g2.nodes :=
        closed_predNames (wf_closed hwf2) hc
      rw [except_bind_ok_forward (edge_count_ok_of_closed (wf_closed hwf2)
        (wf_nameMatch hwf2) hckeys _)]
      rw [except_bind_ok_forward (edge_count_ok_of_closed (wf_closed hwf1)
        (wf_nameMatch hwf1) (iso_fst_keys hiso hvmp) _)]
      rw [if_neg (Decidable.not_not.2 (iso_counts hiso hvmp hub).symm)]
      have := ih (fun x hx => hall x (by simp [hx]))
      simpa [hinv.hg1, hinv.hg2] using this

theorem r_succ_loop1_of_iso {g1 g2 : DiGraph}
    (hwf1 : g1.WellFormed) (hwf2 : g2.WellFormed) {m : DiGraphMatcher}
    (hinv : MatcherInv g1 g2 m) {mp : GMapping}
    (hiso : IsIsoMapping g1 g2 mp)
    (hsubmp : ∀ e ∈ m.core_1, e ∈ mp)
    {u b : String} (hub : (u, b) ∈ mp) :
    ∀ l : List DiNode,
      (∀ nd ∈ l, ∃ q, q ∈ g1.succNames u ∧ nd = m.g1.nodeRec q) →
      r_succ_loop1 m (m.g1.nodeRec u) (m.g2.nodeRec b) l = Except.ok true := by
  have hwf1m : m.g1.WellFormed := by rw [hinv.hg1]; exact hwf1
  have hwf2m : m.g2.WellFormed := by rw [hinv.hg2]; exact hwf2
  have hnm1m := wf_nameMatch hwf1m
  have hnm2m := wf_nameMatch hwf2m
  have hbn : (m.g2.nodeRec b).get_name ∈ akeys m.g2.nodes := by
    rw [nodeRec_get_name hnm2m b, hinv.hg2]
    exact iso_snd_keys hiso hub
  intro l
  induction l with
  | nil => intro _; rfl
  | cons nd rest ih =>
    intro hall
    obtain ⟨q, hq, hnd⟩ := hall nd (by simp)
    subst hnd
    have hgn : (m.g1.nodeRec q).get_name = q := nodeRec_get_name hnm1m q
    cases halk : alookup m.core_1 q with
    | none =>
      simp only [r_succ_loop1, hgn, halk]
      exact ih (fun x hx => hall x (by simp [hx]))
    | some mapped =>
      have hqmp : (q, mapped) ∈ mp :=
        hsubmp _ (mem_of_alookup_eq_some halk)
      have hmappedsucc : mapped ∈ g2.succNames b :=
        mp_succ_transfer_fwd hwf1 hwf2 hiso hub hqmp hq
      simp only [r_succ_loop1, hgn, halk,
        successors_ok_of_closed (wf_closed hwf2m) hbn]
      simp only [hinv.hg1, hinv.hg2,
        nodeRec_get_name (wf_nameMatch hwf1) q,
        nodeRec_get_name (wf_nameMatch hwf1) u,
        nodeRec_get_name (wf_nameMatch hwf2) b]
      rw [if_neg (by
        simp only [List.all_eq_true, not_forall]
        simp
        exact ⟨mapped, hmappedsucc,
          nodeRec_get_name (wf_nameMatch hwf2) mapped⟩)]
      have hukeys : u ∈ akeys g1.nodes := iso_fst_keys hiso hub
      rw [except_bind_ok_forward (edge_count_ok_of_closed (wf_closed hwf1)
        (wf_nameMatch hwf1) hukeys _)]
      rw [except_bind_ok_forward (edge_count_ok_of_closed (wf_closed hwf2)
        (wf_nameMatch hwf2) (iso_snd_keys hiso hub) _)]
      rw [if_neg (Decidable.not_not.2 (iso_counts hiso hub hqmp))]
      have := ih (fun x hx => hall x (by simp [hx]))
      simpa [hinv.hg1, hinv.hg2] using this

theorem r_succ_loop2_of_iso {g1 g2 : DiGraph}
    (hwf1 : g1.WellFormed) (hwf2 : g2.WellFormed) {m : DiGraphMatcher}
    (hinv : MatcherInv g1 g2 m) {mp : GMapping}
    (hiso : IsIsoMapping g1 g2 mp)
    (hsubmp : ∀ e ∈ m.core_1, e ∈ mp)
    {u b : String} (hub : (u, b) ∈ mp) :
    ∀ l : List DiNode,
      (∀ nd ∈ l, ∃ c, c ∈ g2.succNames b ∧ nd = m.g2.nodeRec c) →
      r_succ_loop2 m (m.g1.nodeRec u) (m.g2.nodeRec b) l = Except.ok true := by
  have hwf1m : m.g1.WellFormed := by rw [hinv.hg1]; exact hwf1
  have hwf2m : m.g2.WellFormed := by rw [hinv.hg2]; exact hwf2
  have hnm1m := wf_nameMatch hwf1m
  have hnm2m := wf_nameMatch hwf2m
  have hun : (m.g1.nodeRec u).get_name ∈ akeys m.g1.nodes := by
    rw [nodeRec_get_name hnm1m u, hinv.hg1]
    exact iso_fst_keys hiso hub
  intro l
  induction l with
  | nil => intro _; rfl
  | cons nd rest ih =>
    intro hall
    obtain ⟨c, hc, hnd⟩ := hall nd (by simp)
    subst hnd
    have hgn : (m.g2.nodeRec c).get_name = c := nodeRec_get_name hnm2m c
    cases halk : alookup m.core_2 c with
    | none =>
      simp only [r_succ_loop2, hgn, halk]
      exact ih (fun x hx => hall x (by simp [hx]))
    | some mappedv =>
      have hvc1 : (mappedv, c) ∈ m.core_1 :=
        mem_of_alookup_eq_some (hinv.hinv21 (c, mappedv)
          (mem_of_alookup_eq_some halk))
      have hvmp : (mappedv, c) ∈ mp := hsubmp _ hvc1
      have hvsucc : mappedv ∈ g1.succNames u :=
        mp_succ_transfer_bwd hwf1 hwf2 hiso hub hvmp hc
      simp only [r_succ_loop2, hgn, halk,
        successors_ok_of_closed (wf_closed hwf1m) hun]
      simp only [hinv.hg1, hinv.hg2,
        nodeRec_get_name (wf_nameMatch hwf1) u,
        nodeRec_get_name (wf_nameMatch hwf2) b,
        nodeRec_get_name (wf_nameMatch hwf2) c]
      rw [if_neg (by
        simp only [List.all_eq_true, not_forall]
        simp
        exact ⟨mappedv, hvsucc,
          nodeRec_get_name (wf_nameMatch hwf1) mappedv⟩)]
      have hbkeys : b ∈ akeys g2.nodes := iso_snd_keys hiso hub
      rw [except_bind_ok_forward (edge_count_ok_of_closed (wf_closed hwf2)
        (wf_nameMatch hwf2) hbkeys _)]
      rw [except_bind_ok_forward (edge_count_ok_of_closed (wf_closed hwf1)
        (wf_nameMatch hwf1) (iso_fst_keys hiso hub) _)]
      rw [if_neg (Decidable.not_not.2 (iso_counts hiso hub hvmp).symm)]
      have := ih (fun x hx => hall x (by simp [hx]))
      simpa [hinv.hg1, hinv.hg2] using this

theorem r_pred_of_iso {g1 g2 : DiGraph}
    (hwf1 : g1.WellFormed) (hwf2 : g2.WellFormed) {m : DiGraphMatcher}
    (hinv : MatcherInv g1 g2 m) {mp : GMapping}
    (hiso : IsIsoMapping g1 g2 mp)
    (hsubmp : ∀ e ∈ m.core_1, e ∈ mp)
    {u b : String} (hub : (u, b) ∈ mp) :
    m.r_pred (m.g1.nodeRec u) (m.g2.nodeRec b) = Except.ok true := by
  have hwf1m : m.g1.WellFormed := by rw [hinv.hg1]; exact hwf1
  have hwf2m : m.g2.WellFormed := by rw [hinv.hg2]; exact hwf2
  have hnm1m := wf_nameMatch hwf1m
  have hnm2m := wf_nameMatch hwf2m
  have hun : (m.g1.nodeRec u).get_name ∈ akeys m.g1.nodes := by
    rw [nodeRec_get_name hnm1m u, hinv.hg1]
    exact iso_fst_keys hiso hub
  have hbn : (m.g2.nodeRec b).get_name ∈ akeys m.g2.nodes := by
    rw [nodeRec_get_name hnm2m b, hinv.hg2]
    exact iso_snd_keys hiso hub
  have h1 := r_pred_loop1_of_iso hwf1 hwf2 hinv hiso hsubmp hub
    ((m.g1.predNames (m.g1.nodeRec u).get_name).map m.g1.nodeRec)
    (by
      intro nd hnd
      obtain ⟨q, hq, hqe⟩ := List.mem_map.1 hnd
      rw [nodeRec_get_name hnm1m u, hinv.hg1] at hq
      exact ⟨q, hq, hqe.symm⟩)
  have h2 := r_pred_loop2_of_iso hwf1 hwf2 hinv hiso hsubmp hub
    ((m.g2.predNames (m.g2.nodeRec b).get_name).map m.g2.nodeRec)
    (by
      intro nd hnd
      obtain ⟨c, hc, hce⟩ := List.mem_map.1 hnd
      rw [nodeRec_get_name hnm2m b, hinv.hg2] at hc
      exact ⟨c, hc, hce.symm⟩)
  rw [DiGraphMatcher.r_pred,
    except_bind_ok_forward (predecessors_ok_of_closed (wf_closed hwf1m) hun),
    except_bind_ok_forward h1, if_pos rfl,
    except_bind_ok_forward (predecessors_ok_of_closed (wf_closed hwf2m) hbn),
    except_bind_ok_forward h2, if_pos rfl]
  rfl

theorem r_succ_of_iso {g1 g2 : DiGraph}
    (hwf1 : g1.WellFormed) (hwf2 : g2.WellFormed) {m : DiGraphMatcher}
    (hinv : MatcherInv g1 g2 m) {mp : GMapping}
    (hiso : IsIsoMapping g1 g2 mp)
    (hsubmp : ∀ e ∈ m.core_1, e ∈ mp)
    {u b : String} (hub : (u, b) ∈ mp) :
    m.r_succ (m.g1.nodeRec u) (m.g2.nodeRec b) = Except.ok true := by
  have hwf1m : m.g1.WellFormed := by rw [hinv.hg1]; exact hwf1
  have hwf2m : m.g2.WellFormed := by rw [hinv.hg2]; exact hwf2
  have hnm1m := wf_nameMatch hwf1m
  have hnm2m := wf_nameMatch hwf2m
  have hun : (m.g1.nodeRec u).get_name ∈ akeys m.g1.nodes := by
    rw [nodeRec_get_name hnm1m u, hinv.hg1]
    exact iso_fst_keys hiso hub
  have hbn : (m.g2.nodeRec b).get_name ∈ akeys m.g2.nodes := by
    rw [nodeRec_get_name hnm2m b, hinv.hg2]
    exact iso_snd_keys hiso hub
  have h1 := r_succ_loop1_of_iso hwf1 hwf2 hinv hiso hsubmp hub
    ((m.g1.succNames (m.g1.nodeRec u).get_name).map m.g1.nodeRec)
    (by
      intro nd hnd
      obtain ⟨q, hq, hqe⟩ := List.mem_map.1 hnd
      rw [nodeRec_get_name hnm1m u, hinv.hg1] at hq
      exact ⟨q, hq, hqe.symm⟩)
  have h2 := r_succ_loop2_of_iso hwf1 hwf2 hinv hiso hsubmp hub
    ((m.g2.succNames (m.g2.nodeRec b).get_name).map m.g2.nodeRec)
    (by
      intro nd hnd
      obtain ⟨c, hc, hce⟩ := List.mem_map.1 hnd
      rw [nodeRec_get_name hnm2m b, hinv.hg2] at hc
      exact ⟨c, hc, hce.symm⟩)
  rw [DiGraphMatcher.r_succ,
    except_bind_ok_forward (successors_ok_of_closed (wf_closed hwf1m) hun),
    except_bind_ok_forward h1, if_pos rfl,
    except_bind_ok_forward (successors_ok_of_closed (wf_closed hwf2m) hbn),
    except_bind_ok_forward h2, if_pos rfl]
  rfl

theorem r_in_of_iso {g1 g2 : DiGraph}
    (hwf1 : g1.WellFormed) (hwf2 : g2.WellFormed) {m : DiGraphMatcher}
    (hinv : MatcherInv g1 g2 m) {mp : GMapping}
    (hiso : IsIsoMapping g1 g2 mp)
    (hsubmp : ∀ e ∈ m.core_1, e ∈ mp)
    {u b : String} (hub : (u, b) ∈ mp) :
    m.r_in (m.g1.nodeRec u) (m.g2.nodeRec b) = Except.ok true := by
  have hwf1m : m.g1.WellFormed := by rw [hinv.hg1]; exact hwf1
  have hwf2m : m.g2.WellFormed := by rw [hinv.hg2]; exact hwf2
  have hnm1m := wf_nameMatch hwf1m
  have hnm2m := wf_nameMatch hwf2m
  have hun : (m.g1.nodeRec u).get_name ∈ akeys m.g1.nodes := by
    rw [nodeRec_get_name hnm1m u, hinv.hg1]
    exact iso_fst_keys hiso hub
  have hbn : (m.g2.nodeRec b).get_name ∈ akeys m.g2.nodes := by
    rw [nodeRec_get_name hnm2m b, hinv.hg2]
    exact iso_snd_keys hiso hub
  have hmode : ∀ a c : Nat, c ≤ a → modeCmp m.test a c = true := by
    intro a c hle
    rw [modeCmp, if_neg]
    · simpa using hle
    · rw [hinv.htest]
      decide
  have hliftp : ∀ c ∈ m.g2.predNames (m.g2.nodeRec b).get_name,
      (acontains m.in_2 c && ¬ acontains m.core_2 c) = true →
      ∃ w, (w, c) ∈ mp ∧ w ∈ m.g1.predNames (m.g1.nodeRec u).get_name ∧
        (acontains m.in_1 w && ¬ acontains m.core_1 w) = true := by
    intro c hc hP
    rw [nodeRec_get_name hnm2m b, hinv.hg2] at hc
    rw [Bool.and_eq_true] at hP
    have hcin : c ∈ akeys m.in_2 := (acontains_iff _ _).1 hP.1
    have hccore : c ∉ akeys m.core_2 := by
      intro hmem
      have := (acontains_iff m.core_2 c).2 hmem
      simp [this] at hP
    have hckeys : c ∈ akeys g2.nodes := closed_predNames (wf_closed hwf2) hc
    obtain ⟨e, he, he2⟩ := hiso.2.2.2.1 c hckeys
    have hwc : (e.1, c) ∈ mp := by
      rw [← he2]
      exact he
    refine ⟨e.1, hwc, ?_, ?_⟩
    · rw [nodeRec_get_name hnm1m u, hinv.hg1]
      exact mp_pred_transfer_bwd hwf1 hwf2 hiso hub hwc hc
    · rw [Bool.and_eq_true]
      constructor
      · exact (acontains_iff _ _).2
          (mp_mem_in1 hwf1 hwf2 hinv hiso hsubmp hwc hcin hccore)
      · have := mp_not_core1 hinv hiso.1 hsubmp hwc hccore
        simp [acontains_iff, this]
  have hlifts : ∀ c ∈ m.g2.succNames (m.g2.nodeRec b).get_name,
      (acontains m.in_2 c && ¬ acontains m.core_2 c) = true →
      ∃ w, (w, c) ∈ mp ∧ w ∈ m.g1.succNames (m.g1.nodeRec u).get_name ∧
        (acontains m.in_1 w && ¬ acontains m.core_1 w) = true := by
    intro c hc hP
    rw [nodeRec_get_name hnm2m b, hinv.hg2] at hc
    rw [Bool.and_eq_true] at hP
    have hcin : c ∈ akeys m.in_2 := (acontains_iff _ _).1 hP.1
    have hccore : c ∉ akeys m.core_2 := by
      intro hmem
      have := (acontains_iff m.core_2 c).2 hmem
      simp [this] at hP
    have hckeys : c ∈ akeys g2.nodes := closed_succNames (wf_closed hwf2) hc
    obtain ⟨e, he, he2⟩ := hiso.2.2.2.1 c hckeys
    have hwc : (e.1, c) ∈ mp := by
      rw [← he2]
      exact he
    refine ⟨e.1, hwc, ?_, ?_⟩
    · rw [nodeRec_get_name hnm1m u, hinv.hg1]
      exact mp_succ_transfer_bwd hwf1 hwf2 hiso hub hwc hc
    · rw [Bool.and_eq_true]
      constructor
      · exact (acontains_iff _ _).2
          (mp_mem_in1 hwf1 hwf2 hinv hiso hsubmp hwc hcin hccore)
      · have := mp_not_core1 hinv hiso.1 hsubmp hwc hccore
        simp [acontains_iff, this]
  have hlep :
      (((m.g2.predNames (m.g2.nodeRec b).get_name).map m.g2.nodeRec).filter
        (fun p => acontains m.in_2 p.get_name &&
          ¬ acontains m.core_2 p.get_name)).length ≤
      (((m.g1.predNames (m.g1.nodeRec u).get_name).map m.g1.nodeRec).filter
        (fun p => acontains m.in_1 p.get_name &&
          ¬ acontains m.core_1 p.get_name)).length := by
    calc (((m.g2.predNames (m.g2.nodeRec b).get_name).map m.g2.nodeRec).filter
        (fun p => acontains m.in_2 p.get_name &&
          ¬ acontains m.core_2 p.get_name)).length
        = ((m.g2.predNames (m.g2.nodeRec b).get_name).filter
          (fun c => acontains m.in_2 c && ¬ acontains m.core_2 c)).length :=
        filter_map_nodeRec_length hnm2m _
          (fun c => acontains m.in_2 c && ¬ acontains m.core_2 c)
      _ ≤ ((m.g1.predNames (m.g1.nodeRec u).get_name).filter
          (fun c => acontains m.in_1 c && ¬ acontains m.core_1 c)).length :=
        filter_count_le hiso.1 _
          (predNames_nodup (wf_adjSetLike hwf2m) _) _
          (predNames_nodup (wf_adjSetLike hwf1m) _) _ _ hliftp
      _ = (((m.g1.predNames (m.g1.nodeRec u).get_name).map
          m.g1.nodeRec).filter (fun p => acontains m.in_1 p.get_name &&
          ¬ acontains m.core_1 p.get_name)).length :=
        (filter_map_nodeRec_length hnm1m _
          (fun c => acontains m.in_1 c && ¬ acontains m.core_1 c)).symm
  have hles :
      (((m.g2.succNames (m.g2.nodeRec b).get_name).map m.g2.nodeRec).filter
        (fun s => acontains m.in_2 s.get_name &&
          ¬ acontains m.core_2 s.get_name)).length ≤
      (((m.g1.succNames (m.g1.nodeRec u).get_name).map m.g1.nodeRec).filter
        (fun s => acontains m.in_1 s.get_name &&
          ¬ acontains m.core_1 s.get_name)).length := by
    calc (((m.g2.succNames (m.g2.nodeRec b).get_name).map m.g2.nodeRec).filter
        (fun s => acontains m.in_2 s.get_name &&
          ¬ acontains m.core_2 s.get_name)).length
        = ((m.g2.succNames (m.g2.nodeRec b).get_name).filter
          (fun c => acontains m.in_2 c && ¬ acontains m.core_2 c)).length :=
        filter_map_nodeRec_length hnm2m _
          (fun c => acontains m.in_2 c && ¬ acontains m.core_2 c)
      _ ≤ ((m.g1.succNames (m.g1.nodeRec u).get_name).filter
          (fun c => acontains m.in_1 c && ¬ acontains m.core_1 c)).length :=
        filter_count_le hiso.1 _
          (succNames_nodup (wf_adjSetLike hwf2m) _) _
          (succNames_nodup (wf_adjSetLike hwf1m) _) _ _ hlifts
      _ = (((m.g1.succNames (m.g1.nodeRec u).get_name).map
          m.g1.nodeRec).filter (fun s => acontains m.in_1 s.get_name &&
          ¬ acontains m.core_1 s.get_name)).length :=
        (filter_map_nodeRec_length hnm1m _
          (fun c => acontains m.in_1 c && ¬ acontains m.core_1 c)).symm
  rw [DiGraphMatcher.r_in,
    except_bind_ok_forward (predecessors_ok_of_closed (wf_closed hwf1m) hun),
    except_bind_ok_forward (predecessors_ok_of_closed (wf_closed hwf2m) hbn)]
  rw [if_pos]
  · rw [except_bind_ok_forward
      (successors_ok_of_closed (wf_closed hwf1m) hun),
      except_bind_ok_forward
        (successors_ok_of_closed (wf_closed hwf2m) hbn)]
    rw [if_pos]
    · rfl
    · exact hmode _ _ hles
  · exact hmode _ _ hlep

theorem r_out_of_iso {g1 g2 : DiGraph}
    (hwf1 : g1.WellFormed) (hwf2 : g2.WellFormed) {m : DiGraphMatcher}
    (hinv : MatcherInv g1 g2 m) {mp : GMapping}
    (hiso : IsIsoMapping g1 g2 mp)
    (hsubmp : ∀ e ∈ m.core_1, e ∈ mp)
    {u b : String} (hub : (u, b) ∈ mp) :
    m.r_out (m.g1.nodeRec u) (m.g2.nodeRec b) = Except.ok true := by
  have hwf1m : m.g1.WellFormed := by rw [hinv.hg1]; exact hwf1
  have hwf2m : m.g2.WellFormed := by rw [hinv.hg2]; exact hwf2
  have hnm1m := wf_nameMatch hwf1m
  have hnm2m := wf_nameMatch hwf2m
  have hun : (m.g1.nodeRec u).get_name ∈ akeys m.g1.nodes := by
    rw [nodeRec_get_name hnm1m u, hinv.hg1]
    exact iso_fst_keys hiso hub
  have hbn : (m.g2.nodeRec b).get_name ∈ akeys m.g2.nodes := by
    rw [nodeRec_get_name hnm2m b, hinv.hg2]
    exact iso_snd_keys hiso hub
  have hmode : ∀ a c : Nat, c ≤ a → modeCmp m.test a c = true := by
    intro a c hle
    rw [modeCmp, if_neg]
    · simpa using hle
    · rw [hinv.htest]
      decide
  have hliftp : ∀ c ∈ m.g2.predNames (m.g2.nodeRec b).get_name,
      (acontains m.out_2 c && ¬ acontains m.core_2 c) = true →
      ∃ w, (w, c) ∈ mp ∧ w ∈ m.g1.predNames (m.g1.nodeRec u).get_name ∧
        (acontains m.out_1 w && ¬ acontains m.core_1 w) = true := by
    intro c hc hP
    rw [nodeRec_get_name hnm2m b, hinv.hg2] at hc
    rw [Bool.and_eq_true] at hP
    have hcout : c ∈ akeys m.out_2 := (acontains_iff _ _).1 hP.1
    have hccore : c ∉ akeys m.core_2 := by
      intro hmem
      have := (acontains_iff m.core_2 c).2 hmem
      simp [this] at hP
    have hckeys : c ∈ akeys g2.nodes := closed_predNames (wf_closed hwf2) hc
    obtain ⟨e, he, he2⟩ := hiso.2.2.2.1 c hckeys
    have hwc : (e.1, c) ∈ mp := by
      rw [← he2]
      exact he
    refine ⟨e.1, hwc, ?_, ?_⟩
    · rw [nodeRec_get_name hnm1m u, hinv.hg1]
      exact mp_pred_transfer_bwd hwf1 hwf2 hiso hub hwc hc
    · rw [Bool.and_eq_true]
      constructor
      · exact (acontains_iff _ _).2
          (mp_mem_out1 hwf1 hwf2 hinv hiso hsubmp hwc hcout hccore)
      · have := mp_not_core1 hinv hiso.1 hsubmp hwc hccore
        simp [acontains_iff, this]
  have hlifts : ∀ c ∈ m.g2.succNames (m.g2.nodeRec b).get_name,
      (acontains m.out_2 c && ¬ acontains m.core_2 c) = true →
      ∃ w, (w, c) ∈ mp ∧ w ∈ m.g1.succNames (m.g1.nodeRec u).get_name ∧
        (acontains m.out_1 w && ¬ acontains m.core_1 w) = true := by
    intro c hc hP
    rw [nodeRec_get_name hnm2m b, hinv.hg2] at hc
    rw [Bool.and_eq_true] at hP
    have hcout : c ∈ akeys m.out_2 := (acontains_iff _ _).1 hP.1
    have hccore : c ∉ akeys m.core_2 := by
      intro hmem
      have := (acontains_iff m.core_2 c).2 hmem
      simp [this] at hP
    have hckeys : c ∈ akeys g2.nodes := closed_succNames (wf_closed hwf2) hc
    obtain ⟨e, he, he2⟩ := hiso.2.2.2.1 c hckeys
    have hwc : (e.1, c) ∈ mp := by
      rw [← he2]
      exact he
    refine ⟨e.1, hwc, ?_, ?_⟩
    · rw [nodeRec_get_name hnm1m u, hinv.hg1]
      exact mp_succ_transfer_bwd hwf1 hwf2 hiso hub hwc hc
    · rw [Bool.and_eq_true]
      constructor
      · exact (acontains_iff _ _).2
          (mp_mem_out1 hwf1 hwf2 hinv hiso hsubmp hwc hcout hccore)
      · have := mp_not_core1 hinv hiso.1 hsubmp hwc hccore
        simp [acontains_iff, this]
  have hlep :
      (((m.g2.predNames (m.g2.nodeRec b).get_name).map m.g2.nodeRec).filter
        (fun p => acontains m.out_2 p.get_name &&
          ¬ acontains m.core_2 p.get_name)).length ≤
      (((m.g1.predNames (m.g1.nodeRec u).get_name).map m.g1.nodeRec).filter
        (fun p => acontains m.out_1 p.get_name &&
          ¬ acontains m.core_1 p.get_name)).length := by
    calc (((m.g2.predNames (m.g2.nodeRec b).get_name).map m.g2.nodeRec).filter
        (fun p => acontains m.out_2 p.get_name &&
          ¬ acontains m.core_2 p.get_name)).length
        = ((m.g2.predNames (m.g2.nodeRec b).get_name).filter
          (fun c => acontains m.out_2 c && ¬ acontains m.core_2 c)).length :=
        filter_map_nodeRec_length hnm2m _
          (fun c => acontains m.out_2 c && ¬ acontains m.core_2 c)
      _ ≤ ((m.g1.predNames (m.g1.nodeRec u).get_name).filter
          (fun c => acontains m.out_1 c && ¬ acontains m.core_1 c)).length :=
        filter_count_le hiso.1 _
          (predNames_nodup (wf_adjSetLike hwf2m) _) _
          (predNames_nodup (wf_adjSetLike hwf1m) _) _ _ hliftp
      _ = (((m.g1.predNames (m.g1.nodeRec u).get_name).map
          m.g1.nodeRec).filter (fun p => acontains m.out_1 p.get_name &&
          ¬ acontains m.core_1 p.get_name)).length :=
        (filter_map_nodeRec_length hnm1m _
          (fun c => acontains m.out_1 c && ¬ acontains m.core_1 c)).symm
  have hles :
      (((m.g2.succNames (m.g2.nodeRec b).get_name).map m.g2.nodeRec).filter
        (fun s => acontains m.out_2 s.get_name &&
          ¬ acontains m.core_2 s.get_name)).length ≤
      (((m.g1.succNames (m.g1.nodeRec u).get_name).map m.g1.nodeRec).filter
        (fun s => acontains m.out_1 s.get_name &&
          ¬ acontains m.core_1 s.get_name)).length := by
    calc (((m.g2.succNames (m.g2.nodeRec b).get_name).map m.g2.nodeRec).filter
        (fun s => acontains m.out_2 s.get_name &&
          ¬ acontains m.core_2 s.get_name)).length
        = ((m.g2.succNames (m.g2.nodeRec b).get_name).filter
          (fun c => acontains m.out_2 c && ¬ acontains m.core_2 c)).length :=
        filter_map_nodeRec_length hnm2m _
          (fun c => acontains m.out_2 c && ¬ acontains m.core_2 c)
      _ ≤ ((m.g1.succNames (m.g1.nodeRec u).get_name).filter
          (fun c => acontains m.out_1 c && ¬ acontains m.core_1 c)).length :=
        filter_count_le hiso.1 _
          (succNames_nodup (wf_adjSetLike hwf2m) _) _
          (succNames_nodup (wf_adjSetLike hwf1m) _) _ _ hlifts
      _ = (((m.g1.succNames (m.g1.nodeRec u).get_name).map
          m.g1.nodeRec).filter (fun s => acontains m.out_1 s.get_name &&
          ¬ acontains m.core_1 s.get_name)).length :=
        (filter_map_nodeRec_length hnm1m _
          (fun c => acontains m.out_1 c && ¬ acontains m.core_1 c)).symm
  rw [DiGraphMatcher.r_out,
    except_bind_ok_forward (predecessors_ok_of_closed (wf_closed hwf1m) hun),
    except_bind_ok_forward (predecessors_ok_of_closed (wf_closed hwf2m) hbn)]
  rw [if_pos]
  · rw [except_bind_ok_forward
      (successors_ok_of_closed (wf_closed hwf1m) hun),
      except_bind_ok_forward
        (successors_ok_of_closed (wf_closed hwf2m) hbn)]
    rw [if_pos]
    · rfl
    · exact hmode _ _ hles
  · exact hmode _ _ hlep

theorem r_new_of_iso {g1 g2 : DiGraph}
    (hwf1 : g1.WellFormed) (hwf2 : g2.WellFormed) {m : DiGraphMatcher}
    (hinv : MatcherInv g1 g2 m) {mp : GMapping}
    (hiso : IsIsoMapping g1 g2 mp)
    (hsubmp : ∀ e ∈ m.core_1, e ∈ mp)
    {u b : String} (hub : (u, b) ∈ mp) :
    m.r_new (m.g1.nodeRec u) (m.g2.nodeRec b) = Except.ok true := by
  have hwf1m : m.g1.WellFormed := by rw [hinv.hg1]; exact hwf1
  have hwf2m : m.g2.WellFormed := by rw [hinv.hg2]; exact hwf2
  have hnm1m := wf_nameMatch hwf1m
  have hnm2m := wf_nameMatch hwf2m
  have hun : (m.g1.nodeRec u).get_name ∈ akeys m.g1.nodes := by
    rw [nodeRec_get_name hnm1m u, hinv.hg1]
    exact iso_fst_keys hiso hub
  have hbn : (m.g2.nodeRec b).get_name ∈ akeys m.g2.nodes := by
    rw [nodeRec_get_name hnm2m b, hinv.hg2]
    exact iso_snd_keys hiso hub
  have hmode : ∀ a c : Nat, c ≤ a → modeCmp m.test a c = true := by
    intro a c hle
    rw [modeCmp, if_neg]
    · simpa using hle
    · rw [hinv.htest]
      decide
  have hliftgen : ∀ (c w : String), (w, c) ∈ mp →
      (¬ acontains m.in_2 c && ¬ acontains m.out_2 c) = true →
      (¬ acontains m.in_1 w && ¬ acontains m.out_1 w) = true := by
    intro c w hwc hP
    rw [Bool.and_eq_true] at hP
    have hcin : c ∉ akeys m.in_2 := by
      intro hmem
      have := (acontains_iff m.in_2 c).2 hmem
      simp [this] at hP
    have hcout : c ∉ akeys m.out_2 := by
      intro hmem
      have := (acontains_iff m.out_2 c).2 hmem
      simp [this] at hP
    rw [Bool.and_eq_true]
    constructor
    · have hwin : w ∉ akeys m.in_1 := by
        intro hmem
        exact hcin (mp_mem_in2_rev hwf1 hwf2 hinv hiso hiso.1 hsubmp hwc hmem)
      simp [acontains_iff, hwin]
    · have hwout : w ∉ akeys m.out_1 := by
        intro hmem
        exact hcout
          (mp_mem_out2_rev hwf1 hwf2 hinv hiso hiso.1 hsubmp hwc hmem)
      simp [acontains_iff, hwout]
  have hliftp : ∀ c ∈ m.g2.predNames (m.g2.nodeRec b).get_name,
      (¬ acontains m.in_2 c && ¬ acontains m.out_2 c) = true →
      ∃ w, (w, c) ∈ mp ∧ w ∈ m.g1.predNames (m.g1.nodeRec u).get_name ∧
        (¬ acontains m.in_1 w && ¬ acontains m.out_1 w) = true := by
    intro c hc hP
    rw [nodeRec_get_name hnm2m b, hinv.hg2] at hc
    have hckeys : c ∈ akeys g2.nodes := closed_predNames (wf_closed hwf2) hc
    obtain ⟨e, he, he2⟩ := hiso.2.2.2.1 c hckeys
    have hwc : (e.1, c) ∈ mp := by
      rw [← he2]
      exact he
    refine ⟨e.1, hwc, ?_, hliftgen c e.1 hwc hP⟩
    rw [nodeRec_get_name hnm1m u, hinv.hg1]
    exact mp_pred_transfer_bwd hwf1 hwf2 hiso hub hwc hc
  have hlifts : ∀ c ∈ m.g2.succNames (m.g2.nodeRec b).get_name,
      (¬ acontains m.in_2 c && ¬ acontains m.out_2 c) = true →
      ∃ w, (w, c) ∈ mp ∧ w ∈ m.g1.succNames (m.g1.nodeRec u).get_name ∧
        (¬ acontains m.in_1 w && ¬ acontains m.out_1 w) = true := by
    intro c hc hP
    rw [nodeRec_get_name hnm2m b, hinv.hg2] at hc
    have hckeys : c ∈ akeys g2.nodes := closed_succNames (wf_closed hwf2) hc
    obtain ⟨e, he, he2⟩ := hiso.2.2.2.1 c hckeys
    have hwc : (e.1, c) ∈ mp := by
      rw [← he2]
      exact he
    refine ⟨e.1, hwc, ?_, hliftgen c e.1 hwc hP⟩
    rw [nodeRec_get_name hnm1m u, hinv.hg1]
    exact mp_succ_transfer_bwd hwf1 hwf2 hiso hub hwc hc
  have hlep :
      (((m.g2.predNames (m.g2.nodeRec b).get_name).map m.g2.nodeRec).filter
        (fun p => ¬ acontains m.in_2 p.get_name &&
          ¬ acontains m.out_2 p.get_name)).length ≤
      (((m.g1.predNames (m.g1.nodeRec u).get_name).map m.g1.nodeRec).filter
        (fun p => ¬ acontains m.in_1 p.get_name &&
          ¬ acontains m.out_1 p.get_name)).length := by
    calc (((m.g2.predNames (m.g2.nodeRec b).get_name).map m.g2.nodeRec).filter
        (fun p => ¬ acontains m.in_2 p.get_name &&
          ¬ acontains m.out_2 p.get_name)).length
        = ((m.g2.predNames (m.g2.nodeRec b).get_name).filter
          (fun c => ¬ acontains m.in_2 c && ¬ acontains m.out_2 c)).length :=
        filter_map_nodeRec_length hnm2m _
          (fun c => ¬ acontains m.in_2 c && ¬ acontains m.out_2 c)
      _ ≤ ((m.g1.predNames (m.g1.nodeRec u).get_name).filter
          (fun c => ¬ acontains m.in_1 c && ¬ acontains m.out_1 c)).length :=
        filter_count_le hiso.1 _
          (predNames_nodup (wf_adjSetLike hwf2m) _) _
          (predNames_nodup (wf_adjSetLike hwf1m) _) _ _ hliftp
      _ = (((m.g1.predNames (m.g1.nodeRec u).get_name).map
          m.g1.nodeRec).filter (fun p => ¬ acontains m.in_1 p.get_name &&
          ¬ acontains m.out_1 p.get_name)).length :=
        (filter_map_nodeRec_length hnm1m _
          (fun c => ¬ acontains m.in_1 c && ¬ acontains m.out_1 c)).symm
  have hles :
      (((m.g2.succNames (m.g2.nodeRec b).get_name).map m.g2.nodeRec).filter
        (fun s => ¬ acontains m.in_2 s.get_name &&
          ¬ acontains m.out_2 s.get_name)).length ≤
      (((m.g1.succNames (m.g1.nodeRec u).get_name).map m.g1.nodeRec).filter
        (fun s => ¬ acontains m.in_1 s.get_name &&
          ¬ acontains m.out_1 s.get_name)).length := by
    calc (((m.g2.succNames (m.g2.nodeRec b).get_name).map m.g2.nodeRec).filter
        (fun s => ¬ acontains m.in_2 s.get_name &&
          ¬ acontains m.out_2 s.get_name)).length
        = ((m.g2.succNames (m.g2.nodeRec b).get_name).filter
          (fun c => ¬ acontains m.in_2 c && ¬ acontains m.out_2 c)).length :=
        filter_map_nodeRec_length hnm2m _
          (fun c => ¬ acontains m.in_2 c && ¬ acontains m.out_2 c)
      _ ≤ ((m.g1.succNames (m.g1.nodeRec u).get_name).filter
          (fun c => ¬ acontains m.in_1 c && ¬ acontains m.out_1 c)).length :=
        filter_count_le hiso.1 _
          (succNames_nodup (wf_adjSetLike hwf2m) _) _
          (succNames_nodup (wf_adjSetLike hwf1m) _) _ _ hlifts
      _ = (((m.g1.succNames (m.g1.nodeRec u).get_name).map
          m.g1.nodeRec).filter (fun s => ¬ acontains m.in_1 s.get_name &&
          ¬ acontains m.out_1 s.get_name)).length :=
        (filter_map_nodeRec_length hnm1m _
          (fun c => ¬ acontains m.in_1 c && ¬ acontains m.out_1 c)).symm
  rw [DiGraphMatcher.r_new,
    except_bind_ok_forward (predecessors_ok_of_closed (wf_closed hwf1m) hun),
    except_bind_ok_forward (predecessors_ok_of_closed (wf_closed hwf2m) hbn)]
  rw [if_pos]
  · rw [except_bind_ok_forward
      (successors_ok_of_closed (wf_closed hwf1m) hun),
      except_bind_ok_forward
        (successors_ok_of_closed (wf_closed hwf2m) hbn)]
    rw [if_pos]
    · rfl
    · exact hmode _ _ hles
  · exact hmode _ _ hlep

theorem semantic_of_iso {g1 g2 : DiGraph} {m : DiGraphMatcher}
    (hinv : MatcherInv g1 g2 m) {mp : GMapping}
    (hiso : IsIsoMapping g1 g2 mp)
    {u b : String} (hub : (u, b) ∈ mp) :
    m.semantic_feasibility u b = true := by
  have hp : u ∈ akeys m.g1.nodes := by
    rw [hinv.hg1]
    exact iso_fst_keys hiso hub
  have hh : b ∈ akeys m.g2.nodes := by
    rw [hinv.hg2]
    exact iso_snd_keys hiso hub
  obtain ⟨nd1, hnd1⟩ := Option.isSome_iff_exists.1 (alookup_isSome_of_mem hp)
  obtain ⟨nd2, hnd2⟩ := Option.isSome_iff_exists.1 (alookup_isSome_of_mem hh)
  have hgn1 : m.g1.get_node u = some nd1 := hnd1
  have hgn2 : m.g2.get_node b = some nd2 := hnd2
  have hw : nd1.weight = nd2.weight := by
    have hwiso := hiso.2.2.2.2.1 (u, b) hub
    have hr1 : g1.nodeRec u = nd1 := by
      rw [DiGraph.nodeRec, ← hinv.hg1, hnd1]
      rfl
    have hr2 : g2.nodeRec b = nd2 := by
      rw [DiGraph.nodeRec, ← hinv.hg2, hnd2]
      rfl
    rw [hr1, hr2] at hwiso
    exact hwiso
  rw [DiGraphMatcher.semantic_feasibility]
  simp only [hgn1, hgn2]
  cases hw2 : nd2.weight with
  | none =>
    rw [hw2] at hw
    simp only [DiNode.get_weight, hw, hw2]
  | some v =>
    rw [hw2] at hw
    simp only [DiNode.get_weight, hw, hw2]
    simp

theorem syntactic_of_iso {g1 g2 : DiGraph}
    (hwf1 : g1.WellFormed) (hwf2 : g2.WellFormed) {m : DiGraphMatcher}
    (hinv : MatcherInv g1 g2 m) {mp : GMapping}
    (hiso : IsIsoMapping g1 g2 mp)
    (hsubmp : ∀ e ∈ m.core_1, e ∈ mp)
    {u b : String} (hub : (u, b) ∈ mp) :
    m.syntactic_feasibility u b = Except.ok true := by
  have hwf1m : m.g1.WellFormed := by rw [hinv.hg1]; exact hwf1
  have hwf2m : m.g2.WellFormed := by rw [hinv.hg2]; exact hwf2
  have hp : u ∈ akeys m.g1.nodes := by
    rw [hinv.hg1]
    exact iso_fst_keys hiso hub
  have hh : b ∈ akeys m.g2.nodes := by
    rw [hinv.hg2]
    exact iso_snd_keys hiso hub
  obtain ⟨nd1, hnd1⟩ := Option.isSome_iff_exists.1 (alookup_isSome_of_mem hp)
  obtain ⟨nd2, hnd2⟩ := Option.isSome_iff_exists.1 (alookup_isSome_of_mem hh)
  have hgn1 : m.g1.get_node u = some nd1 := hnd1
  have hgn2 : m.g2.get_node b = some nd2 := hnd2
  have hr1 : m.g1.nodeRec u = nd1 := by
    rw [DiGraph.nodeRec, hnd1]
    rfl
  have hr2 : m.g2.nodeRec b = nd2 := by
    rw [DiGraph.nodeRec, hnd2]
    rfl
  rw [DiGraphMatcher.syntactic_feasibility]
  simp only [hgn1, hgn2]
  rw [← hr1, ← hr2]
  rw [except_bind_ok_forward (r_self_of_iso hwf1 hwf2 hinv hiso hub),
    if_pos rfl,
    except_bind_ok_forward (r_pred_of_iso hwf1 hwf2 hinv hiso hsubmp hub),
    if_pos rfl,
    except_bind_ok_forward (r_succ_of_iso hwf1 hwf2 hinv hiso hsubmp hub),
    if_pos rfl,
    except_bind_ok_forward (r_in_of_iso hwf1 hwf2 hinv hiso hsubmp hub),
    if_pos rfl,
    except_bind_ok_forward (r_out_of_iso hwf1 hwf2 hinv hiso hsubmp hub),
    if_pos rfl,
    except_bind_ok_forward (r_new_of_iso hwf1 hwf2 hinv hiso hsubmp hub),
    if_pos rfl]
  rfl

theorem good_pair_mem {g1 g2 : DiGraph}
    (hwf1 : g1.WellFormed) (hwf2 : g2.WellFormed)
    (hsz : g2.node_count ≤ usizeMax)
    {m : DiGraphMatcher} (hinv : MatcherInv g1 g2 m)
    {mp : GMapping} (hiso : IsIsoMapping g1 g2 mp)
    (hsubmp : ∀ e ∈ m.core_1, e ∈ mp)
    (hne : m.core_1.length ≠ g2.node_count)
    {pairs : List (String × String)}
    (hcand : m.candidate_paris_iter = Except.ok pairs) :
    ∃ u hstar, (u, hstar) ∈ pairs ∧ (u, hstar) ∈ mp := by
  have horder : ∀ k ∈ akeys g2.nodes, ∃ i,
      alookup m.g2_node_order k = some i ∧ i < usizeMax := by
    intro k hk
    rw [hinv.hord]
    obtain ⟨i, hi, hlt⟩ := @order_lookup_mem g1 g2 (wf_nodup hwf2) k hk
    exact ⟨i, hi, Nat.lt_of_lt_of_le hlt hsz⟩
  have hsub2k : ∀ k, k ∈ akeys m.core_2 → k ∈ akeys g2.nodes := by
    intro k hk
    obtain ⟨v, hv⟩ := exists_val_of_mem_akeys hk
    exact hinv.hsub2 (k, v) hv
  have hout2sub : ∀ k ∈ akeys m.out_2, k ∈ akeys g2.nodes := by
    intro k hk
    rcases (hinv.hout2 k).1 hk with hk2 | ⟨c, hc, hks⟩
    · exact hsub2k k hk2
    · exact closed_succNames (wf_closed hwf2) hks
  have hin2sub : ∀ k ∈ akeys m.in_2, k ∈ akeys g2.nodes := by
    intro k hk
    rcases (hinv.hin2 k).1 hk with hk2 | ⟨c, hc, hks⟩
    · exact hsub2k k hk2
    · exact closed_predNames (wf_closed hwf2) hks
  rw [candidate_paris_iter_eq] at hcand
  by_cases hb1 : 0 < m.tout1.length ∧ 0 < m.tout2.length
  · rw [if_pos hb1] at hcand
    cases hscan : minOrderScan m.g2_node_order m.tout2
        (emptyName, usizeMax) with
    | error e =>
      rw [except_bind_error hscan] at hcand
      exact Except.noConfusion hcand
    | ok best =>
      rw [except_bind_ok_forward hscan] at hcand
      have hpairs : pairs = m.tout1.map (fun name1 => (name1, best.1)) := by
        simpa [pure, Except.pure] using hcand.symm
      have hex : ∃ k ∈ m.tout2, ∃ v,
          alookup m.g2_node_order k = some v ∧
          v < (emptyName, usizeMax).2 := by
        obtain ⟨k0, hk0⟩ := List.exists_mem_of_ne_nil m.tout2
          (List.length_pos.1 hb1.2)
        obtain ⟨i, hi, hlt⟩ := horder k0
          (hout2sub k0 (List.mem_filter.1 hk0).1)
        exact ⟨k0, hk0, i, hi, hlt⟩
      obtain ⟨hbmem, -⟩ := minOrderScan_mem _ _ _ _ hscan hex
      have hbout : best.1 ∈ akeys m.out_2 := (List.mem_filter.1 hbmem).1
      have hbcore : best.1 ∉ akeys m.core_2 := by
        have := (List.mem_filter.1 hbmem).2
        intro hmem
        simp [(acontains_iff m.core_2 best.1).2 hmem] at this
      have hbkeys : best.1 ∈ akeys g2.nodes := hout2sub _ hbout
      obtain ⟨e, he, he2⟩ := hiso.2.2.2.1 best.1 hbkeys
      have hu : (e.1, best.1) ∈ mp := by
        rw [← he2]
        exact he
      have huout : e.1 ∈ akeys m.out_1 :=
        mp_mem_out1 hwf1 hwf2 hinv hiso hsubmp hu hbout hbcore
      have hucore : e.1 ∉ akeys m.core_1 :=
        mp_not_core1 hinv hiso.1 hsubmp hu hbcore
      have hut : e.1 ∈ m.tout1 := by
        rw [DiGraphMatcher.tout1]
        refine List.mem_filter.2 ⟨huout, ?_⟩
        simp [acontains_eq_false m.core_1 e.1 hucore]
      refine ⟨e.1, best.1, ?_, hu⟩
      rw [hpairs]
      exact List.mem_map_of_mem _ hut
  · rw [if_neg hb1] at hcand
    by_cases hb2 : 0 < m.tin1.length ∧ 0 < m.tin2.length
    · rw [if_pos hb2] at hcand
      cases hscan : minOrderScan m.g2_node_order m.tin2
          (emptyName, usizeMax) with
      | error e =>
        rw [except_bind_error hscan] at hcand
        exact Except.noConfusion hcand
      | ok best =>
        rw [except_bind_ok_forward hscan] at hcand
        have hpairs : pairs = m.tin1.map (fun name1 => (name1, best.1)) := by
          simpa [pure, Except.pure] using hcand.symm
        have hex : ∃ k ∈ m.tin2, ∃ v,
            alookup m.g2_node_order k = some v ∧
            v < (emptyName, usizeMax).2 := by
          obtain ⟨k0, hk0⟩ := List.exists_mem_of_ne_nil m.tin2
            (List.length_pos.1 hb2.2)
          obtain ⟨i, hi, hlt⟩ := horder k0
            (hin2sub k0 (List.mem_filter.1 hk0).1)
          exact ⟨k0, hk0, i, hi, hlt⟩
        obtain ⟨hbmem, -⟩ := minOrderScan_mem _ _ _ _ hscan hex
        have hbin : best.1 ∈ akeys m.in_2 := (List.mem_filter.1 hbmem).1
        have hbcore : best.1 ∉ akeys m.core_2 := by
          have := (List.mem_filter.1 hbmem).2
          intro hmem
          simp [(acontains_iff m.core_2 best.1).2 hmem] at this
        have hbkeys : best.1 ∈ akeys g2.nodes := hin2sub _ hbin
        obtain ⟨e, he, he2⟩ := hiso.2.2.2.1 best.1 hbkeys
        have hu : (e.1, best.1) ∈ mp := by
          rw [← he2]
          exact he
        have huin : e.1 ∈ akeys m.in_1 :=
          mp_mem_in1 hwf1 hwf2 hinv hiso hsubmp hu hbin hbcore
        have hucore : e.1 ∉ akeys m.core_1 :=
          mp_not_core1 hinv hiso.1 hsubmp hu hbcore
        have hut : e.1 ∈ m.tin1 := by
          rw [DiGraphMatcher.tin1]
          refine List.mem_filter.2 ⟨huin, ?_⟩
          simp [acontains_eq_false m.core_1 e.1 hucore]
        refine ⟨e.1, best.1, ?_, hu⟩
        rw [hpairs]
        exact List.mem_map_of_mem _ hut
    · rw [if_neg hb2] at hcand
      have hg2nodes : ∀ k, k ∈ m.g2_nodes ↔ k ∈ akeys g2.nodes := by
        intro k
        rw [hinv.hg2n]
        show k ∈ hsetOf g2.get_nodes ↔ _
        rw [mem_hsetOf]
        rfl
      have hlt : m.core_1.length < g2.node_count := core_lt_count hinv hne
      have hexb : ∃ b ∈ akeys g2.nodes, b ∉ akeys m.core_2 := by
        by_contra hno
        push_neg at hno
        have hsub : ∀ k ∈ akeys g2.nodes, k ∈ akeys m.core_2 := hno
        have := @nodup_subset_length (akeys g2.nodes) (akeys m.core_2)
          (wf_nodup hwf2) (fun k hk => hsub k hk)
        have hlen2 : g2.node_count ≤ m.core_2.length := by
          simpa [DiGraph.node_count, akeys] using this
        rw [hinv.hlen] at hlt
        omega
      obtain ⟨b0, hb0, hb0c⟩ := hexb
      have hb0diff : b0 ∈ m.g2_nodes.filter
          (fun name => ¬ name ∈ akeys m.core_2) := by
        refine List.mem_filter.2 ⟨(hg2nodes b0).2 hb0, ?_⟩
        simp [hb0c]
      cases hscan : minOrderScan m.g2_node_order
          (m.g2_nodes.filter (fun name => ¬ name ∈ akeys m.core_2))
          (emptyName, usizeMax) with
      | error e =>
        rw [except_bind_error hscan] at hcand
        exact Except.noConfusion hcand
      | ok best =>
        rw [except_bind_ok_forward hscan] at hcand
        have hpairs : pairs = (m.g1_nodes.filter (fun name1 =>
            ¬ acontains m.core_1 name1)).map (fun name1 => (name1, best.1)) := by
          simpa [pure, Except.pure] using hcand.symm
        have hex : ∃ k ∈ m.g2_nodes.filter
            (fun name => ¬ name ∈ akeys m.core_2), ∃ v,
            alookup m.g2_node_order k = some v ∧
            v < (emptyName, usizeMax).2 := by
          obtain ⟨i, hi, hilt⟩ := horder b0 hb0
          exact ⟨b0, hb0diff, i, hi, hilt⟩
        obtain ⟨hbmem, -⟩ := minOrderScan_mem _ _ _ _ hscan hex
        have hbnodes : best.1 ∈ akeys g2.nodes :=
          (hg2nodes best.1).1 (List.mem_filter.1 hbmem).1
        have hbcore : best.1 ∉ akeys m.core_2 := by
          have := (List.mem_filter.1 hbmem).2
          intro hmem
          simp [hmem] at this
        obtain ⟨e, he, he2⟩ := hiso.2.2.2.1 best.1 hbnodes
        have hu : (e.1, best.1) ∈ mp := by
          rw [← he2]
          exact he
        have hucore : e.1 ∉ akeys m.core_1 :=
          mp_not_core1 hinv hiso.1 hsubmp hu hbcore
        have hukeys : e.1 ∈ akeys g1.nodes := iso_fst_keys hiso hu
        have hug1 : e.1 ∈ m.g1_nodes := by
          rw [hinv.hg1n]
          show e.1 ∈ hsetOf g1.get_nodes
          rw [mem_hsetOf]
          exact hukeys
        have hufil : e.1 ∈ m.g1_nodes.filter (fun name1 =>
            ¬ acontains m.core_1 name1) := by
          refine List.mem_filter.2 ⟨hug1, ?_⟩
          simp [acontains_eq_false m.core_1 e.1 hucore]
        refine ⟨e.1, best.1, ?_, hu⟩
        rw [hpairs]
        exact List.mem_map_of_mem _ hufil

theorem try_pairs_complete {g1 g2 : DiGraph}
    (hwf1 : g1.WellFormed) (hwf2 : g2.WellFormed)
    (hsz : g2.node_count ≤ usizeMax) (fuel : Nat)
    {mp : GMapping} (hiso : IsIsoMapping g1 g2 mp)
    (IHc : ∀ {m1 : DiGraphMatcher} (sink1 : List GMapping),
      MatcherInv g1 g2 m1 → (∀ e ∈ m1.core_1, e ∈ mp) →
      g2.node_count - m1.core_1.length < fuel →
      ∃ out, DiGraphMatcher.try_match_aux fuel m1 sink1 =
        Except.ok (m1, sink1 ++ out) ∧ ∃ l ∈ out, pairsSetEq l mp)
    {m0 : DiGraphMatcher} (hinv : MatcherInv g1 g2 m0)
    (hsubmp : ∀ e ∈ m0.core_1, e ∈ mp)
    (hne : m0.core_1.length ≠ g2.node_count)
    (hflt : g2.node_count - m0.core_1.length < fuel + 1)
    {pairs : List (String × String)}
    (hcand : m0.candidate_paris_iter = Except.ok pairs) :
    ∀ rest : List (String × String), (∀ pr ∈ rest, pr ∈ pairs) →
      ∀ u hstar : String, (u, hstar) ∈ rest → (u, hstar) ∈ mp →
      ∀ sink, ∃ out, DiGraphMatcher.try_pairs_go
        (DiGraphMatcher.try_match_aux fuel) rest m0 sink =
        Except.ok (m0, sink ++ out) ∧ ∃ l ∈ out, pairsSetEq l mp := by
  have hne2 : m0.core_1.length ≠ m0.g2.node_count := by
    rw [hinv.hg2]
    exact hne
  have hsub1k : ∀ k, k ∈ akeys m0.core_1 → k ∈ akeys g1.nodes := by
    intro k hk
    obtain ⟨v, hv⟩ := exists_val_of_mem_akeys hk
    exact hinv.hsub1 (k, v) hv
  have hsub2k : ∀ k, k ∈ akeys m0.core_2 → k ∈ akeys g2.nodes := by
    intro k hk
    obtain ⟨v, hv⟩ := exists_val_of_mem_akeys hk
    exact hinv.hsub2 (k, v) hv
  have hcore_lt := core_lt_count hinv hne
  intro rest
  induction rest with
  | nil =>
    intro _ u hstar hgood _ _
    exact absurd hgood (List.not_mem_nil _)
  | cons pr rest ih =>
    obtain ⟨p, q⟩ := pr
    intro hsub u hstar hgood hmp sink
    have hfacts := candidate_facts hwf1 hwf2 hsz hinv hne hcand
      (hsub (p, q) (by simp))
    obtain ⟨f1, f2, f3, f4⟩ := hfacts
    have hkeys1 : ∀ c ∈ akeys (ainsert m0.core_1 p q),
        c ∈ akeys g1.nodes := by
      intro c hc
      rw [ainsert_of_not_mem _ _ _ f2, akeys_append] at hc
      rcases List.mem_append.1 hc with hc | hc
      · exact hsub1k c hc
      · have hcp : c = p := by simpa [akeys] using hc
        rw [hcp]
        exact f1
    have hkeys2 : ∀ c ∈ akeys (ainsert m0.core_2 q p),
        c ∈ akeys g2.nodes := by
      intro c hc
      rw [ainsert_of_not_mem _ _ _ f4, akeys_append] at hc
      rcases List.mem_append.1 hc with hc | hc
      · exact hsub2k c hc
      · have hcq : c = q := by simpa [akeys] using hc
        rw [hcq]
        exact f3
    have hcreate : ∃ r, DiGMState.create m0 (some p) (some q) =
        Except.ok r :=
      create_some_ok_exists
        (fun c hc => ⟨_, by
          rw [hinv.hg1]
          exact predecessors_ok_of_closed (wf_closed hwf1) (hkeys1 c hc)⟩)
        (fun c hc => ⟨_, by
          rw [hinv.hg2]
          exact predecessors_ok_of_closed (wf_closed hwf2) (hkeys2 c hc)⟩)
        (fun c hc => ⟨_, by
          rw [hinv.hg1]
          exact successors_ok_of_closed (wf_closed hwf1) (hkeys1 c hc)⟩)
        (fun c hc => ⟨_, by
          rw [hinv.hg2]
          exact successors_ok_of_closed (wf_closed hwf2) (hkeys2 c hc)⟩)
    rw [DiGraphMatcher.try_pairs_go]
    rcases List.mem_cons.1 hgood with heq | hgoodrest
    · injection heq with hu hq
      subst hu
      subst hq
      have hsem : m0.semantic_feasibility u hstar = true :=
        semantic_of_iso hinv hiso hmp
      have hsyn : m0.syntactic_feasibility u hstar = Except.ok true :=
        syntactic_of_iso hwf1 hwf2 hinv hiso hsubmp hmp
      rw [if_pos hsem]
      simp only [hsyn]
      obtain ⟨⟨m1, st⟩, hcr⟩ := hcreate
      simp only [hcr]
      have hinv1 : MatcherInv g1 g2 m1 :=
        inv_create_step hwf1 hwf2 hinv f1 f2 f3 f4 hcr
      obtain ⟨n1, n2, o1, o2, -, -, -, -, hst, hm1eq⟩ :=
        create_some_ok_spec hcr
      have hcore1 : m1.core_1 = m0.core_1 ++ [(u, hstar)] := by
        rw [hm1eq]
        exact ainsert_of_not_mem _ _ _ f2
      have hsubmp1 : ∀ e ∈ m1.core_1, e ∈ mp := by
        intro e he
        rw [hcore1] at he
        rcases List.mem_append.1 he with he | he
        · exact hsubmp e he
        · have : e = (u, hstar) := by simpa using he
          rw [this]
          exact hmp
      have hlen1 : m1.core_1.length = m0.core_1.length + 1 := by
        rw [hcore1]
        simp
      have hflt1 : g2.node_count - m1.core_1.length < fuel := by
        rw [hlen1]
        omega
      obtain ⟨out1, hrun1, l, hl, hlmp⟩ := IHc sink hinv1 hsubmp1 hflt1
      simp only [hrun1]
      have hrest : st.restore m1 = m0 :=
        create_restore_id hcr f2 f4 hinv.hdin1 hinv.hdin2
          hinv.hdout1 hinv.hdout2 hinv.hndin1 hinv.hndin2
          hinv.hndout1 hinv.hndout2
      rw [hrest]
      obtain ⟨⟨m', out'⟩, hr⟩ := try_pairs_go_ok hwf1 hwf2 hsz fuel
        (fun m1a sink1a h1 h2 => try_match_ok hwf1 hwf2 hsz fuel m1a
          sink1a h1 h2) hinv hne hflt hcand rest
        (fun x hx => hsub x (by simp [hx])) (sink ++ out1)
      obtain ⟨ext2, hm', hout', -⟩ := try_pairs_preserves hwf1 hwf2 hsz
        fuel (fun {mm} hm => try_match_preserves hwf1 hwf2 hsz fuel hm)
        hinv hne2 hcand rest (fun x hx => hsub x (by simp [hx]))
        (sink ++ out1) hr
      refine ⟨out1 ++ ext2, ?_, l, List.mem_append.2 (Or.inl hl), hlmp⟩
      rw [hr, hm', hout', List.append_assoc]
    · by_cases hsem : m0.semantic_feasibility p q = true
      · rw [if_pos hsem]
        have hg1wf : m0.g1.WellFormed := by rw [hinv.hg1]; exact hwf1
        have hg2wf : m0.g2.WellFormed := by rw [hinv.hg2]; exact hwf2
        have hmapped1 : ∀ k v, alookup m0.core_1 k = some v →
            v ∈ akeys m0.g2.nodes := by
          intro k v hkv
          have h2 := hinv.hinv12 (k, v) (mem_of_alookup_eq_some hkv)
          rw [hinv.hg2]
          exact hsub2k v (mem_akeys_of_alookup h2)
        have hmapped2 : ∀ k v, alookup m0.core_2 k = some v →
            v ∈ akeys m0.g1.nodes := by
          intro k v hkv
          have h2 := hinv.hinv21 (k, v) (mem_of_alookup_eq_some hkv)
          rw [hinv.hg1]
          exact hsub1k v (mem_akeys_of_alookup h2)
        have hp : p ∈ akeys m0.g1.nodes := by rw [hinv.hg1]; exact f1
        have hh : q ∈ akeys m0.g2.nodes := by rw [hinv.hg2]; exact f3
        obtain ⟨bs, hsyn⟩ :=
          syntactic_feasibility_ok hg1wf hg2wf hmapped1 hmapped2 hp hh
        cases bs with
        | false =>
          simp only [hsyn]
          exact ih (fun x hx => hsub x (by simp [hx])) u hstar
            hgoodrest hmp sink
        | true =>
          simp only [hsyn]
          obtain ⟨⟨m1, st⟩, hcr⟩ := hcreate
          simp only [hcr]
          have hinv1 : MatcherInv g1 g2 m1 :=
            inv_create_step hwf1 hwf2 hinv f1 f2 f3 f4 hcr
          obtain ⟨n1, n2, o1, o2, -, -, -, -, hst, hm1eq⟩ :=
            create_some_ok_spec hcr
          have hlen1 : m1.core_1.length = m0.core_1.length + 1 := by
            rw [hm1eq]
            exact length_ainsert_of_not_mem _ _ _ f2
          have hflt1 : g2.node_count - m1.core_1.length < fuel := by
            rw [hlen1]
            omega
          obtain ⟨⟨m2, sink2⟩, hrun⟩ :=
            try_match_ok hwf1 hwf2 hsz fuel m1 sink hinv1 hflt1
          simp only [hrun]
          obtain ⟨ext1, hm2, hs2, -⟩ :=
            try_match_preserves hwf1 hwf2 hsz fuel hinv1 sink hrun
          have hrest : st.restore m1 = m0 :=
            create_restore_id hcr f2 f4 hinv.hdin1 hinv.hdin2
              hinv.hdout1 hinv.hdout2 hinv.hndin1 hinv.hndin2
              hinv.hndout1 hinv.hndout2
          rw [hm2, hrest, hs2]
          obtain ⟨out2, hw, l, hl, hlmp⟩ := ih
            (fun x hx => hsub x (by simp [hx])) u hstar hgoodrest hmp
            (sink ++ ext1)
          refine ⟨ext1 ++ out2, ?_, l, List.mem_append.2 (Or.inr hl), hlmp⟩
          rw [hw, List.append_assoc]
      · rw [if_neg hsem]
        exact ih (fun x hx => hsub x (by simp [hx])) u hstar
          hgoodrest hmp sink

theorem try_match_complete {g1 g2 : DiGraph}
    (hwf1 : g1.WellFormed) (hwf2 : g2.WellFormed)
    (hsz : g2.node_count ≤ usizeMax)
    {mp : GMapping} (hiso : IsIsoMapping g1 g2 mp) :
    ∀ fuel : Nat, ∀ {m : DiGraphMatcher} (sink : List GMapping),
      MatcherInv g1 g2 m → (∀ e ∈ m.core_1, e ∈ mp) →
      g2.node_count - m.core_1.length < fuel →
      ∃ out, DiGraphMatcher.try_match_aux fuel m sink =
        Except.ok (m, sink ++ out) ∧ ∃ l ∈ out, pairsSetEq l mp := by
  intro fuel
  induction fuel with
  | zero =>
    intro m sink _ _ hflt
    exact absurd hflt (Nat.not_lt_zero _)
  | succ fuel ih =>
    intro m sink hinv hsubmp hflt
    rw [DiGraphMatcher.try_match_aux]
    by_cases hdone : m.core_1.length = m.g2.node_count
    · rw [if_pos hdone]
      have hdone2 : m.core_1.length = g2.node_count := by
        rw [← hinv.hg2]
        exact hdone
      exact ⟨[m.core_1], rfl, m.core_1, by simp,
        complete_snapshot_eq hwf2 hinv hiso hsubmp hdone2⟩
    · rw [if_neg hdone]
      have hne : m.core_1.length ≠ g2.node_count := by
        rw [← hinv.hg2]
        exact hdone
      obtain ⟨pairs, hcand⟩ := candidate_ok hwf2 hinv
      simp only [hcand]
      obtain ⟨u, hstar, hpp, hpm⟩ :=
        good_pair_mem hwf1 hwf2 hsz hinv hiso hsubmp hne hcand
      exact try_pairs_complete hwf1 hwf2 hsz fuel hiso
        (fun {m1} sink1 h1 h2 h3 => ih sink1 h1 h2 h3) hinv hsubmp hne
        hflt hcand pairs (fun x hx => hx) u hstar hpp hpm sink

/-- C1 (amended): over well-formed graphs, a full run of the subgraph
enumeration appends to the sink exactly — up to pair-set equality — the
injective partial mappings, defined on a subset of `V(P)` and onto all of
`V(H)`, under which the induced substructure of P on the mapped nodes is
isomorphic to H: edge multiplicities (self-loops included) agree exactly
in both directions and mapped nodes carry equal weights. Every emitted
mapping is such a mapping, and every such mapping is emitted. -/
theorem C1_enumeration_iff {g1 g2 : DiGraph}
    (hwf1 : g1.WellFormed) (hwf2 : g2.WellFormed)
    (hsz : g2.node_count ≤ usizeMax)
    {r : DiGraphMatcher × List GMapping}
    (hrun : subgraphIsomorphisms g1 g2 = Except.ok r) :
    (∀ l ∈ r.2, IsIsoMapping g1 g2 l) ∧
    (∀ mp : GMapping, IsIsoMapping g1 g2 mp →
      ∃ l ∈ r.2, pairsSetEq l mp) := by
  rw [subgraphIsomorphisms, subgraph_iter_eq] at hrun
  have hinv0 : MatcherInv g1 g2 (clearedOf (DiGraphMatcher.new g1 g2)) :=
    inv_matcherStart g1 g2
  have hcc0 : CoreCompat g1 g2 (clearedOf (DiGraphMatcher.new g1 g2)) := by
    constructor
    · intro e he
      exact absurd he (List.not_mem_nil e)
    · intro e he
      exact absurd he (List.not_mem_nil e)
  obtain ⟨m', out⟩ := r
  constructor
  · intro l hl
    rcases emitted_sound hwf1 hwf2 hsz _ [] hinv0 hcc0 hrun l hl with h | h
    · exact absurd h (List.not_mem_nil l)
    · exact h.1
  · intro mp hiso
    obtain ⟨out0, hrun0, l, hl, hlmp⟩ :=
      try_match_complete hwf1 hwf2 hsz hiso
        ((DiGraphMatcher.new g1 g2).g2.node_count + 1) []
        hinv0 (fun e he => absurd he (List.not_mem_nil e))
        (Nat.lt_succ_of_le (Nat.sub_le _ _))
    rw [hrun0] at hrun
    have hpair : (clearedOf (DiGraphMatcher.new g1 g2), [] ++ out0) =
        (m', out) := by
      injection hrun
    have hout : out = out0 := by
      have := congrArg Prod.snd hpair
      simpa using this.symm
    rw [hout]
    exact ⟨l, hl, hlmp⟩

/-- C1 counterexample: on the two-isolated-node pattern and the one-node
host the run emits two partial mappings, while the claim's set — total
injective subgraph embeddings of P into H — is empty (no injective map
from two nodes to one exists): the emitted family and the claimed family
differ at the mapping `{x ↦ a}`. -/
theorem C1_counterexample :
    subgraphIsoOut exPat2 exHost1 = some [[(kx, ka)], [(ky, ka)]] ∧
    ¬ (∀ mp : GMapping,
      (∃ l ∈ [[(kx, ka)], [(ky, ka)]], pairsSetEq l mp) ↔
        IsClaimMapping exPat2 exHost1 mp) := by
  constructor
  · decide
  · intro h
    have h2 := (h [(kx, ka)]).1 (by decide)
    exact absurd h2 (by decide)

/-- Witness for C1 (amended) on the concrete single-edge pair: the run
emits exactly the full mapping, and the reversed listing of the same
pair set is found among the emitted mappings up to set equality. -/
theorem C1_witness :
    (∀ l ∈ [[(kx, ka), (ky, kb)]],
      IsIsoMapping exPatEdge exHostEdge l) ∧
    (∃ l ∈ [[(kx, ka), (ky, kb)]],
      pairsSetEq l [(ky, kb), (kx, ka)]) :=
  ⟨(C1_enumeration_iff (by decide) (by decide) (by decide)
      (by decide :
        subgraphIsomorphisms exPatEdge exHostEdge =
          Except.ok (matcherStart exPatEdge exHostEdge,
            [[(kx, ka), (ky, kb)]]))).1,
   (C1_enumeration_iff (by decide) (by decide) (by decide)
      (by decide :
        subgraphIsomorphisms exPatEdge exHostEdge =
          Except.ok (matcherStart exPatEdge exHostEdge,
            [[(kx, ka), (ky, kb)]]))).2
     [(ky, kb), (kx, ka)] (by decide)⟩
